import Mathlib

/-!
mokutil: signature-list codec and request staging.

A shallow embedding of the parts of `src/mokutil.c` that decode EFI signature
lists (`build_mok_list`), search them (`match_hash_array`, `is_duplicate`),
splice them (`delete_data_from_list`, `issue_mok_request`,
`issue_hash_request`) and stage requests in the variable store
(`update_request`, `revoke_request`), followed by theorems about them.

Conventions of the embedding:

* a buffer is a `List UInt8`; a C pointer into a buffer is the offset from the
  start of that buffer;
* `uint32_t` values are natural numbers reduced `% 2^32` wherever the C code
  stores into a 32-bit object;
* an access outside the buffer handed to a function is undefined behaviour in
  C; the embedding makes it a result of its own (`BuildResult.oob`, or `none`
  in the functions that return `Option`);
* allocation failure (`malloc`, `realloc` returning `NULL`) is not modelled.
-/

namespace Mokutil

/-! ## Bytes and little-endian fields -/

/-- A buffer of bytes. -/
abbrev Bytes := List UInt8

/-- The `n` bytes of `data` that start at offset `off` (fewer when the buffer ends first). -/
def slice (data : Bytes) (off n : Nat) : Bytes := (data.drop off).take n

/-- Whether the `n` bytes at offset `off` lie inside `data`. -/
def inb (data : Bytes) (off n : Nat) : Bool := decide (off + n ≤ data.length)

/-- Value of a little-endian byte string. -/
def le_val : Bytes → Nat
  | [] => 0
  | b :: bs => b.toNat + 256 * le_val bs

/-- Load of a little-endian `uint32_t` field at offset `off`. -/
def ld32 (data : Bytes) (off : Nat) : Nat := le_val (slice data off 4)

/-- Store representation of a `uint32_t`: four little-endian bytes of `v % 2^32`. -/
def enc32 (v : Nat) : Bytes :=
  [UInt8.ofNat v, UInt8.ofNat (v / 256), UInt8.ofNat (v / 65536), UInt8.ofNat (v / 16777216)]

/-- Overwrite `data` from offset `off` with `src` (a `memcpy` into the buffer). -/
def poke (data : Bytes) (off : Nat) (src : Bytes) : Bytes :=
  data.take off ++ src ++ data.drop (off + src.length)

/-! ## Constants of `signature.h` and of the efivar library

`signature.h` and the efivar GUID table are not part of the sources at hand;
the values below are the ones the UEFI specification fixes. -/

/-- Modelled from the spec: `sizeof (efi_guid_t)`, the GUID size of 16 bytes. -/
def sizeof_efi_guid_t : Nat := 16

/-- Modelled from the spec: `sizeof (EFI_SIGNATURE_LIST)`, the packed list header
(type GUID, `SignatureListSize`, `SignatureHeaderSize`, `SignatureSize`). -/
def sizeof_EFI_SIGNATURE_LIST : Nat := 28

/-- Modelled from the spec: `sizeof (EFI_SIGNATURE_DATA)`, the packed owner GUID
followed by the one-byte `SignatureData[1]` placeholder. -/
def sizeof_EFI_SIGNATURE_DATA : Nat := 17

/-- An `efi_guid_t` as its 16 bytes in memory. -/
abbrev Guid := Bytes

/-- Modelled from the spec: `efi_guid_x509_cert` (EFI_CERT_X509_GUID) in memory order. -/
def efi_guid_x509_cert : Guid :=
  [0xa1, 0x59, 0xc0, 0xa5, 0xe4, 0x94, 0xa7, 0x4a, 0x87, 0xb5, 0xab, 0x15, 0x5c, 0x2b, 0xf0, 0x72]

/-- Modelled from the spec: `efi_guid_sha1` (EFI_CERT_SHA1_GUID) in memory order. -/
def efi_guid_sha1 : Guid :=
  [0x12, 0xa5, 0x6c, 0x82, 0x10, 0xcf, 0xc9, 0x4a, 0xb1, 0x87, 0xbe, 0x01, 0x49, 0x66, 0x31, 0xbd]

/-- Modelled from the spec: `efi_guid_sha224` (EFI_CERT_SHA224_GUID) in memory order. -/
def efi_guid_sha224 : Guid :=
  [0x33, 0x52, 0x6e, 0x0b, 0x5c, 0xa6, 0xc9, 0x44, 0x94, 0x07, 0xd9, 0xab, 0x83, 0xbf, 0xc8, 0xbd]

/-- Modelled from the spec: `efi_guid_sha256` (EFI_CERT_SHA256_GUID) in memory order. -/
def efi_guid_sha256 : Guid :=
  [0x26, 0x16, 0xc4, 0xc1, 0x4c, 0x50, 0x92, 0x40, 0xac, 0xa9, 0x41, 0xf9, 0x36, 0x93, 0x43, 0x28]

/-- Modelled from the spec: `efi_guid_sha384` (EFI_CERT_SHA384_GUID) in memory order. -/
def efi_guid_sha384 : Guid :=
  [0x07, 0x53, 0x3e, 0xff, 0xd0, 0x9f, 0xc9, 0x48, 0x85, 0xf1, 0x8a, 0xd5, 0x6c, 0x70, 0x1e, 0x01]

/-- Modelled from the spec: `efi_guid_sha512` (EFI_CERT_SHA512_GUID) in memory order. -/
def efi_guid_sha512 : Guid :=
  [0xae, 0x0f, 0x3e, 0x09, 0xc4, 0xa6, 0x50, 0x4f, 0x9f, 0x1b, 0xd4, 0x1e, 0x2b, 0x89, 0xc1, 0x9a]

/-- Modelled from the spec: the value of `efi_guid_shim` used as `SignatureOwner`. -/
def efi_guid_shim_bytes : Guid :=
  [0x50, 0xab, 0x5d, 0x60, 0x46, 0xe0, 0x00, 0x43, 0xab, 0xb6, 0x3d, 0xd8, 0x10, 0xdd, 0x8b, 0x23]

/-- Modelled from the spec: the OpenSSL digest length `SHA_DIGEST_LENGTH` (20 bytes). -/
def SHA_DIGEST_LENGTH : Nat := 20

/-- Modelled from the spec: the OpenSSL digest length `SHA224_DIGEST_LENGTH` (28 bytes). -/
def SHA224_DIGEST_LENGTH : Nat := 28

/-- Modelled from the spec: the OpenSSL digest length `SHA256_DIGEST_LENGTH` (32 bytes). -/
def SHA256_DIGEST_LENGTH : Nat := 32

/-- Modelled from the spec: the OpenSSL digest length `SHA384_DIGEST_LENGTH` (48 bytes). -/
def SHA384_DIGEST_LENGTH : Nat := 48

/-- Modelled from the spec: the OpenSSL digest length `SHA512_DIGEST_LENGTH` (64 bytes). -/
def SHA512_DIGEST_LENGTH : Nat := 64

/-- The comparison `efi_guid_cmp (a, b) == 0`: the two GUIDs have the same bytes. -/
def efi_guid_eq (a b : Guid) : Bool := decide (a = b)

/-! ## `efi_hash_size`, `signature_size` -/

/-- `efi_hash_size (hash_type)`: the digest length of a digest type, else 0. -/
def efi_hash_size (hash_type : Guid) : Nat :=
  if efi_guid_eq hash_type efi_guid_sha1 then SHA_DIGEST_LENGTH
  else if efi_guid_eq hash_type efi_guid_sha224 then SHA224_DIGEST_LENGTH
  else if efi_guid_eq hash_type efi_guid_sha256 then SHA256_DIGEST_LENGTH
  else if efi_guid_eq hash_type efi_guid_sha384 then SHA384_DIGEST_LENGTH
  else if efi_guid_eq hash_type efi_guid_sha512 then SHA512_DIGEST_LENGTH
  else 0

/-- `signature_size (hash_type)`: digest length plus owner GUID, or 0. -/
def signature_size (hash_type : Guid) : Nat :=
  let hash_size := efi_hash_size hash_type
  if hash_size ≠ 0 then hash_size + sizeof_efi_guid_t else 0

/-! ## `build_mok_list` -/

/-- One `MokListNode`: `header` and `mok` are offsets into the decoded buffer. -/
structure MokListNode where
  header : Nat
  mok_size : Nat
  mok : Nat
  deriving DecidableEq, Repr

/-- How a call of `build_mok_list` ends.

* `corrupt`: one of the three `return NULL` statements inside the loop
  (`*mok_num` is not written);
* `done list`: the loop is left and `*mok_num = list.length` is written; the
  pointer returned is `NULL` exactly when `list` is empty;
* `oob`: the loop condition reads `CertList->SignatureListSize` outside the buffer;
* `nofuel`: the iteration bound of the embedding is used up. -/
inductive BuildResult where
  | corrupt
  | done (list : List MokListNode)
  | oob
  | nofuel
  deriving DecidableEq, Repr

/-- Loop variables of `build_mok_list`: `CertList` (as an offset), `dbsize`, and
`list[0 .. count)`. -/
structure BuildState where
  CertList : Nat
  dbsize : Nat
  list : List MokListNode
  deriving DecidableEq, Repr

/-- Outcome of one evaluation of the loop condition and body. -/
inductive BuildStep where
  | next (st : BuildState)
  | ret (r : BuildResult)
  deriving DecidableEq, Repr

/-- The field `SignatureType` of the list header at offset `o`. -/
def SignatureType (data : Bytes) (o : Nat) : Guid := slice data o 16

/-- The field `SignatureListSize` of the list header at offset `o`. -/
def SignatureListSize (data : Bytes) (o : Nat) : Nat := ld32 data (o + 16)

/-- The field `SignatureHeaderSize` of the list header at offset `o`. -/
def SignatureHeaderSize (data : Bytes) (o : Nat) : Nat := ld32 data (o + 20)

/-- The field `SignatureSize` of the list header at offset `o`. -/
def SignatureSize (data : Bytes) (o : Nat) : Nat := ld32 data (o + 24)

/-- The type test of lines 273-278: the list type is one of the six known GUIDs. -/
def known_type (t : Guid) : Bool :=
  efi_guid_eq t efi_guid_x509_cert || efi_guid_eq t efi_guid_sha1 ||
  efi_guid_eq t efi_guid_sha224 || efi_guid_eq t efi_guid_sha256 ||
  efi_guid_eq t efi_guid_sha384 || efi_guid_eq t efi_guid_sha512

/-- The node `list[count]` that lines 314-326 fill in for the list at offset `o`;
`Cert` is `o + sizeof (EFI_SIGNATURE_LIST) + SignatureHeaderSize`. The size of a
hash array is computed in `unsigned long` and stored into a `uint32_t`; for an
X509 list `SignatureSize > sizeof (efi_guid_t)` has been checked before. -/
def build_mok_list_node (data : Bytes) (o : Nat) : MokListNode :=
  let Cert := o + sizeof_EFI_SIGNATURE_LIST + SignatureHeaderSize data o
  if efi_guid_eq (SignatureType data o) efi_guid_x509_cert then
    { header := o
      mok_size := (SignatureSize data o - sizeof_efi_guid_t) % 4294967296
      mok := Cert + sizeof_efi_guid_t }
  else
    { header := o
      mok_size := (SignatureListSize data o + 18446744073709551616 - sizeof_EFI_SIGNATURE_LIST
                    + 18446744073709551616 - SignatureHeaderSize data o) % 4294967296
      mok := Cert }

/-- The loop condition and one pass through the body of the `while` of
`build_mok_list` (lines 263-339), `end` being `data.length`. -/
def build_mok_list_step (data : Bytes) (st : BuildState) : BuildStep :=
  let o := st.CertList
  if st.dbsize = 0 then .ret (.done st.list)
  else if !inb data (o + 16) 4 then .ret .oob
  else if st.dbsize < SignatureListSize data o then .ret (.done st.list)
  else if o + sizeof_EFI_SIGNATURE_LIST > data.length ∨
          SignatureListSize data o = 0 ∨
          SignatureListSize data o ≤ SignatureSize data o then .ret .corrupt
  else if !known_type (SignatureType data o) then
    .next { CertList := o + SignatureListSize data o,
            dbsize := st.dbsize - SignatureListSize data o, list := st.list }
  else if !efi_guid_eq (SignatureType data o) efi_guid_x509_cert ∧
          SignatureSize data o ≠ signature_size (SignatureType data o) then
    .next { CertList := o + SignatureListSize data o,
            dbsize := st.dbsize - SignatureListSize data o, list := st.list }
  else if o + sizeof_EFI_SIGNATURE_LIST + SignatureHeaderSize data o
            + sizeof_EFI_SIGNATURE_DATA > data.length ∨
          SignatureSize data o ≤ sizeof_efi_guid_t then .ret .corrupt
  else if (build_mok_list_node data o).mok_size >
            data.length - (build_mok_list_node data o).mok then .ret .corrupt
  else
    .next { CertList := o + SignatureListSize data o,
            dbsize := st.dbsize - SignatureListSize data o,
            list := st.list ++ [build_mok_list_node data o] }

/-- The `while` loop of `build_mok_list`, run for at most `fuel` iterations. -/
def build_mok_list_loop (data : Bytes) : Nat → BuildState → BuildResult
  | 0, _ => .nofuel
  | fuel + 1, st =>
    match build_mok_list_step data st with
    | .ret r => r
    | .next st' => build_mok_list_loop data fuel st'

/-- `build_mok_list (data, data_size, &mok_num)` with `data_size = data.length`.
Every pass of the loop that continues consumes at least one byte of `dbsize`, so
`data.length + 1` evaluations of the loop condition are always enough. -/
def build_mok_list (data : Bytes) : BuildResult :=
  build_mok_list_loop data (data.length + 1)
    { CertList := 0, dbsize := data.length, list := [] }

/-- The pointer `build_mok_list` returns, for results that are defined: `none`
is `NULL` (a corrupt list, or an index without nodes), `some list` the array. -/
def BuildResult.ptr : BuildResult → Option (List MokListNode)
  | .done (n :: ns) => some (n :: ns)
  | _ => none

/-! ## `list_keys` -/

/-- The value `list_keys (data, data_size)` returns (lines 438-457); what it
prints is not modelled. `none` when `build_mok_list` has no defined result. -/
def list_keys (data : Bytes) : Option Int :=
  match build_mok_list data with
  | .oob => none
  | .nofuel => none
  | .corrupt => some (-1)
  | .done [] => some (-1)
  | .done _ => some 0

/-! ## `match_hash_array` -/

/-- Reduction of an integer to a `uint32_t`. -/
def u32 (x : Int) : Nat := (x % 4294967296).toNat

/-- The `for` loop of `match_hash_array`: `n` entries are left, `i` is the loop
counter and `ptr` the offset into `hash_array`; `memcmp` compares `hash_size`
bytes. -/
def match_hash_array_loop (hash hash_array : Bytes) (hash_size : Nat) : Nat → Nat → Nat → Int
  | 0, _, _ => -1
  | n + 1, i, ptr =>
    if slice hash_array (ptr + sizeof_efi_guid_t) hash_size = slice hash 0 hash_size then (i : Int)
    else match_hash_array_loop hash hash_array hash_size n (i + 1)
           (ptr + sizeof_efi_guid_t + hash_size)

/-- `match_hash_array (hash_type, hash, hash_array, array_size)`: `hash_array` is
the memory that starts at the array. -/
def match_hash_array (hash_type : Guid) (hash hash_array : Bytes) (array_size : Nat) : Int :=
  let hash_size := efi_hash_size hash_type
  if hash_size = 0 then -1
  else
    let sig_size := hash_size + sizeof_efi_guid_t
    if array_size % sig_size ≠ 0 then -1
    else match_hash_array_loop hash hash_array hash_size (array_size / sig_size) 0 0

/-! ## The variable store (efivar library)

The store is outside the program; it is modelled as a map from vendor GUID and
name to contents. `Faults` forces calls on chosen variables to fail for a reason
other than `ENOENT`; a call that fails leaves the store as it was. -/

/-- The three vendor GUIDs the program passes to the efivar calls. -/
inductive Vendor where
  | efi_guid_shim
  | efi_guid_global
  | efi_guid_security
  deriving DecidableEq, Repr

/-- The contents of the variables; `none` for a variable that does not exist. -/
abbrev Store := Vendor → String → Option Bytes

/-- Forced failures of the efivar calls, per variable. -/
structure Faults where
  get : Vendor → String → Bool
  size : Vendor → String → Bool
  set : Vendor → String → Bool
  del : Vendor → String → Bool

/-- No forced failure. -/
def Faults.none : Faults :=
  ⟨fun _ _ => false, fun _ _ => false, fun _ _ => false, fun _ _ => false⟩

/-- Result of `efi_get_variable` and `efi_get_variable_size`: success, failure
with `errno == ENOENT`, or failure with another `errno`. -/
inductive GetResult where
  | ok (data : Bytes)
  | enoent
  | error
  deriving DecidableEq, Repr

/-- `efi_get_variable (guid, name, &data, &data_size, &attributes)`. -/
def efi_get_variable (f : Faults) (s : Store) (guid : Vendor) (name : String) : GetResult :=
  if f.get guid name then .error
  else match s guid name with
    | some d => .ok d
    | none => .enoent

/-- `efi_get_variable_size (guid, name, &size)`. -/
def efi_get_variable_size (f : Faults) (s : Store) (guid : Vendor) (name : String) : GetResult :=
  if f.size guid name then .error
  else match s guid name with
    | some d => .ok d
    | none => .enoent

/-- The store with variable `guid`/`name` set to `v`. -/
def Store.put (s : Store) (guid : Vendor) (name : String) (v : Option Bytes) : Store :=
  fun g n => if g = guid ∧ n = name then v else s g n

/-- `efi_set_variable`: `none` when the call fails. -/
def efi_set_variable (f : Faults) (s : Store) (guid : Vendor) (name : String)
    (data : Bytes) : Option Store :=
  if f.set guid name then none else some (s.put guid name (some data))

/-- `efi_del_variable`: `none` when the call fails (forced, or no such variable). -/
def efi_del_variable (f : Faults) (s : Store) (guid : Vendor) (name : String) : Option Store :=
  if f.del guid name then none
  else match s guid name with
    | some _ => some (s.put guid name none)
    | none => none

/-! ## Requests -/

/-- The enumeration `MokRequest`. -/
inductive MokRequest where
  | DELETE_MOK
  | ENROLL_MOK
  | DELETE_BLACKLIST
  | ENROLL_BLACKLIST
  deriving DecidableEq, Repr

/-- `test_and_delete_var (var_name)`: the value returned and the store left. -/
def test_and_delete_var (f : Faults) (s : Store) (var_name : String) : Int × Store :=
  match efi_get_variable_size f s .efi_guid_shim var_name with
  | .enoent => (0, s)
  | .error => (-1, (efi_del_variable f s .efi_guid_shim var_name).getD s)
  | .ok _ => (0, (efi_del_variable f s .efi_guid_shim var_name).getD s)

/-! ## `is_duplicate`, `is_valid_request` -/

/-- The `for` loop of `is_duplicate` over `list[i ..]`; the result is `ret`. -/
def is_duplicate_loop (type : Guid) (data var_data : Bytes) : List MokListNode → Int
  | [] => 0
  | node :: rest =>
    if !efi_guid_eq (SignatureType var_data node.header) type then
      is_duplicate_loop type data var_data rest
    else if efi_guid_eq type efi_guid_x509_cert then
      if node.mok_size ≠ data.length then is_duplicate_loop type data var_data rest
      else if slice var_data node.mok data.length = data then 1
      else is_duplicate_loop type data var_data rest
    else
      if match_hash_array type data (var_data.drop node.mok) node.mok_size ≥ 0 then 1
      else is_duplicate_loop type data var_data rest

/-- `is_duplicate (type, data, data_size, vendor, db_name)` where `data` holds
`data_size` bytes; `none` when `build_mok_list` has no defined result. -/
def is_duplicate (f : Faults) (s : Store) (type : Guid) (data : Bytes)
    (vendor : Vendor) (db_name : String) : Option Int :=
  if data.length = 0 then some 0
  else match efi_get_variable f s vendor db_name with
    | .enoent => some 0
    | .error => some 0
    | .ok var_data =>
      match build_mok_list var_data with
      | .oob => none
      | .nofuel => none
      | .corrupt => some 0
      | .done [] => some 0
      | .done list => some (is_duplicate_loop type data var_data list)

/-- `is_valid_request (type, mok, mok_size, req)`; the `||` chains evaluate from
left to right and stop at the first operand that is true. -/
def is_valid_request (f : Faults) (s : Store) (type : Guid) (mok : Bytes)
    (req : MokRequest) : Option Int :=
  match req with
  | .ENROLL_MOK =>
    (is_duplicate f s type mok .efi_guid_global "PK").bind fun d1 =>
    if d1 ≠ 0 then some 0 else
    (is_duplicate f s type mok .efi_guid_global "KEK").bind fun d2 =>
    if d2 ≠ 0 then some 0 else
    (is_duplicate f s type mok .efi_guid_security "db").bind fun d3 =>
    if d3 ≠ 0 then some 0 else
    (is_duplicate f s type mok .efi_guid_shim "MokListRT").bind fun d4 =>
    if d4 ≠ 0 then some 0 else
    (is_duplicate f s type mok .efi_guid_shim "MokNew").bind fun d5 =>
    if d5 ≠ 0 then some 0 else some 1
  | .DELETE_MOK =>
    (is_duplicate f s type mok .efi_guid_shim "MokListRT").bind fun d1 =>
    if d1 = 0 then some 0 else
    (is_duplicate f s type mok .efi_guid_shim "MokDel").bind fun d2 =>
    if d2 ≠ 0 then some 0 else some 1
  | .ENROLL_BLACKLIST =>
    (is_duplicate f s type mok .efi_guid_shim "MokListXRT").bind fun d1 =>
    if d1 ≠ 0 then some 0 else
    (is_duplicate f s type mok .efi_guid_shim "MokXNew").bind fun d2 =>
    if d2 ≠ 0 then some 0 else some 1
  | .DELETE_BLACKLIST =>
    (is_duplicate f s type mok .efi_guid_shim "MokListXRT").bind fun d1 =>
    if d1 = 0 then some 0 else
    (is_duplicate f s type mok .efi_guid_shim "MokXDel").bind fun d2 =>
    if d2 ≠ 0 then some 0 else some 1

/-! ## `delete_data_from_list` -/

/-- `memmove (dst, src, n)` inside `data`; `none` when a range leaves the buffer. -/
def memmove (data : Bytes) (dst src n : Nat) : Option Bytes :=
  if src + n ≤ data.length ∧ dst + n ≤ data.length then some (poke data dst (slice data src n))
  else none

/-- The variables of `delete_data_from_list` when its `for` loop has found the
entry to remove (`start != NULL`). -/
structure Excise where
  var_data : Bytes
  start : Nat
  end_ : Nat
  total : Nat
  remain : Nat
  deriving DecidableEq, Repr

/-- The `for` loop of `delete_data_from_list` over `list[i ..]`, with the current
`total` and `remain`; `none` when the loop ends with `start == NULL`. -/
def delete_data_from_list_loop (type : Guid) (data var_data : Bytes) (total : Nat) :
    Nat → List MokListNode → Option Excise
  | _, [] => none
  | remain0, node :: rest =>
    let sig_list_size := SignatureListSize var_data node.header
    let remain := u32 ((remain0 : Int) - sig_list_size)
    if !efi_guid_eq (SignatureType var_data node.header) type then
      delete_data_from_list_loop type data var_data total remain rest
    else if efi_guid_eq type efi_guid_x509_cert then
      if node.mok_size ≠ data.length then
        delete_data_from_list_loop type data var_data total remain rest
      else if slice var_data node.mok data.length = data then
        some { var_data := var_data, start := node.header,
               end_ := node.header + sig_list_size,
               total := u32 ((total : Int) - sig_list_size), remain := remain }
      else delete_data_from_list_loop type data var_data total remain rest
    else
      let del_ind := match_hash_array type data (var_data.drop node.mok) node.mok_size
      if del_ind < 0 then delete_data_from_list_loop type data var_data total remain rest
      else
        let sig_size := signature_size type
        if sig_list_size = sizeof_EFI_SIGNATURE_LIST + sig_size then
          some { var_data := var_data, start := node.header,
                 end_ := node.header + sig_list_size,
                 total := u32 ((total : Int) - sig_list_size), remain := remain }
        else
          let start := node.header + sizeof_EFI_SIGNATURE_LIST + (sig_size * del_ind.toNat) % 2 ^ 32
          some { var_data := poke var_data (node.header + 16)
                               (enc32 (u32 ((sig_list_size : Int) - sig_size))),
                 start := start,
                 end_ := start + sig_size,
                 total := u32 ((total : Int) - sig_size),
                 remain := u32 ((remain : Int) + sig_list_size - sizeof_EFI_SIGNATURE_LIST
                                  - (del_ind + 1) * sig_size) }

/-- The Authorization variable that `delete_data_from_list` deletes with `var_name`
(the `strcmp` chain of lines 576-583). -/
def paired_auth (var_name : String) : Option String :=
  if var_name = "MokNew" then some "MokAuth"
  else if var_name = "MokXNew" then some "MokXAuth"
  else if var_name = "MokDel" then some "MokDelAuth"
  else if var_name = "MokXDel" then some "MokXDelAuth"
  else none

/-- `delete_data_from_list (var_guid, var_name, type, data, data_size)` where `data`
holds `data_size` bytes: the value returned and the store left; `none` when the
call has no defined result (`build_mok_list` or `memmove` leave the buffer). -/
def delete_data_from_list (f : Faults) (s : Store) (var_guid : Vendor) (var_name : String)
    (type : Guid) (data : Bytes) : Option (Int × Store) :=
  if data.length = 0 then some (0, s)
  else match efi_get_variable f s var_guid var_name with
    | .enoent => some (0, s)
    | .error => some (-1, s)
    | .ok var_data =>
      match build_mok_list var_data with
      | .oob => none
      | .nofuel => none
      | .corrupt => some (0, s)
      | .done [] => some (0, s)
      | .done list =>
        match delete_data_from_list_loop type data var_data (var_data.length % 2 ^ 32)
                (var_data.length % 2 ^ 32) list with
        | none => some (0, s)
        | some x =>
          if x.total = 0 then
            let s1 := (test_and_delete_var f s var_name).2
            match paired_auth var_name with
            | some auth_name => some (1, (test_and_delete_var f s1 auth_name).2)
            | none => some (1, s1)
          else
            let moved : Option Bytes :=
              if x.remain > 0 then memmove x.var_data x.start x.end_ x.remain
              else some x.var_data
            match moved with
            | none => none
            | some var_data' =>
              match efi_set_variable f s var_guid var_name (var_data'.take x.total) with
              | none => some (-1, s)
              | some s' => some (1, s')

/-! ## `in_pending_request` -/

/-- The table `authvar_names` of `in_pending_request`. -/
def authvar_names : MokRequest → String
  | .DELETE_MOK => "MokDelAuth"
  | .ENROLL_MOK => "MokAuth"
  | .DELETE_BLACKLIST => "MokXDelAuth"
  | .ENROLL_BLACKLIST => "MokXAuth"

/-- The table `var_names` of `in_pending_request`. -/
def var_names : MokRequest → String
  | .DELETE_MOK => "MokDel"
  | .ENROLL_MOK => "Mok"
  | .DELETE_BLACKLIST => "MokXDel"
  | .ENROLL_BLACKLIST => "MokX"

/-- `in_pending_request (type, data, data_size, req)`. -/
def in_pending_request (f : Faults) (s : Store) (type : Guid) (data : Bytes)
    (req : MokRequest) : Option (Int × Store) :=
  if data.length = 0 then some (0, s)
  else match efi_get_variable f s .efi_guid_shim (authvar_names req) with
    | .enoent => some (0, s)
    | .error => some (0, s)
    | .ok authvar_data =>
      if authvar_data.length = SHA256_DIGEST_LENGTH then some (0, s)
      else
        match delete_data_from_list f s .efi_guid_shim (var_names req) type data with
        | none => none
        | some (ret, s') => if ret < 0 then some (-1, s') else some (ret, s')

/-! ## `update_request`, `revoke_request` -/

/-- What lies outside the program in one invocation.

* `use_simple_hash`: the global flag;
* `auth_step new_list`: outcome of lines 933-959 of `update_request` (hash file,
  root password, or password prompt followed by `generate_hash` or
  `generate_auth`): `none` when the step fails, else the contents of `pw_crypt`
  and of `auth` when the variables are written;
* `is_valid_cert`: the OpenSSL check of `is_valid_cert`;
* `heap`: the contents of freshly allocated memory. -/
structure Env where
  use_simple_hash : Bool
  auth_step : Option Bytes → Option (Bytes × Bytes)
  is_valid_cert : Bytes → Bool
  heap : Nat → UInt8

/-- The `req_name` of `update_request` (also `req_names` of `issue_mok_request`). -/
def req_names : MokRequest → String
  | .DELETE_MOK => "MokDel"
  | .ENROLL_MOK => "MokNew"
  | .DELETE_BLACKLIST => "MokXDel"
  | .ENROLL_BLACKLIST => "MokXNew"

/-- The `auth_name` of `update_request`. -/
def auth_names : MokRequest → String
  | .DELETE_MOK => "MokDelAuth"
  | .ENROLL_MOK => "MokAuth"
  | .DELETE_BLACKLIST => "MokXDelAuth"
  | .ENROLL_BLACKLIST => "MokXAuth"

/-- The table `reverse_req_names` of `issue_mok_request` (`reverse_req` in
`issue_hash_request`), used in the messages that report a removal. -/
def reverse_req_names : MokRequest → String
  | .DELETE_MOK => "MokNew"
  | .ENROLL_MOK => "MokDel"
  | .DELETE_BLACKLIST => "MokXNew"
  | .ENROLL_BLACKLIST => "MokXDel"

/-- `update_request (new_list, list_len, req, hash_file, root_pw)`; `new_list` is
`none` for a `NULL` pointer and otherwise holds the `list_len` bytes the function
reads through it, so the definition stands for the calls in which `list_len` is
the length of these bytes (at most 2^31 - 1, `list_len` being an `int`). What a
caller's size of 2^31 bytes and more becomes is given by `list_len` and
`stored_list` below. -/
def update_request (env : Env) (f : Faults) (s : Store) (new_list : Option Bytes)
    (req : MokRequest) : Int × Store :=
  let req_name := req_names req
  let auth_name := auth_names req
  match env.auth_step new_list with
  | none => (-1, s)
  | some (pw_crypt, auth) =>
    let written : Option Store :=
      match new_list with
      | some data => efi_set_variable f s .efi_guid_shim req_name data
      | none => some (test_and_delete_var f s req_name).2
    match written with
    | none => (-1, s)
    | some s1 =>
      let data := if !env.use_simple_hash then pw_crypt else auth
      match efi_set_variable f s1 .efi_guid_shim auth_name data with
      | none => (-1, (test_and_delete_var f s1 req_name).2)
      | some s2 => (0, s2)

/-- The value of the parameter `int list_len` of `update_request` (line 893) when
a caller passes the `unsigned long` value `size` (lines 1351 and 1580): the low 32
bits of `size`, read as a signed number. -/
def list_len (size : Nat) : Int :=
  if size % 4294967296 < 2147483648 then ((size % 4294967296 : Nat) : Int)
  else ((size % 4294967296 : Nat) : Int) - 4294967296

/-- The `size_t` value of `data_size = list_len` (line 964). -/
def data_size (len : Int) : Nat := (len % 18446744073709551616).toNat

/-- The bytes `efi_set_variable` is given for the data variable (line 966) when
`new_list` holds the buffer `buf` and the caller passed the length of `buf`: the
first `data_size` bytes of `buf`; `none` when `data_size` exceeds the buffer, so
that the call reads beyond it. -/
def stored_list (buf : Bytes) : Option Bytes :=
  if data_size (list_len buf.length) ≤ buf.length then
    some (buf.take (data_size (list_len buf.length)))
  else none

/-- `revoke_request (req)`. -/
def revoke_request (f : Faults) (s : Store) (req : MokRequest) : Int × Store :=
  let r1 := test_and_delete_var f s (req_names req)
  if r1.1 < 0 then (-1, r1.2)
  else
    let r2 := test_and_delete_var f r1.2 (auth_names req)
    if r2.1 < 0 then (-1, r2.2) else (0, r2.2)

/-! ## `issue_mok_request` -/

/-- A key file as the program sees it: `st_size` from `stat` (`none` when `stat`
fails) and the bytes `open`/`read` deliver (`none` when `open` fails). -/
structure KeyFile where
  st_size : Option Nat
  content : Option Bytes

/-- The signature list `issue_mok_request` writes at `ptr` for a certificate of
`size` bytes (lines 1297-1302 and 1313): header, owner, certificate. -/
def mok_request_list (size : Nat) (cert : Bytes) : Bytes :=
  efi_guid_x509_cert ++
  enc32 (size + sizeof_EFI_SIGNATURE_LIST + sizeof_EFI_SIGNATURE_DATA - 1) ++
  enc32 0 ++
  enc32 (size + sizeof_efi_guid_t) ++
  efi_guid_shim_bytes ++ cert

/-- The second `for` loop of `issue_mok_request` over `files[i ..]`: `built` is
`new_list[0 .. real_size)`, the bytes in front of `ptr`. The result is `none`
when a call has no defined result, `some (none, s)` for `goto error`, and
`some (some built, s)` when the loop is left. A file that is neither admitted
nor found in a pending request causes `print_skip_message`, which only prints. -/
def issue_mok_request_loop (env : Env) (f : Faults) (req : MokRequest) :
    List KeyFile → Store → Bytes → Option (Option Bytes × Store)
  | [], s, built => some (some built, s)
  | file :: rest, s, built =>
    let size := file.st_size.getD 0 % 2 ^ 32
    match file.content with
    | none => some (none, s)
    | some bytes =>
      if bytes.length < size then some (none, s)
      else
        let cert := bytes.take size
        if !env.is_valid_cert cert then some (none, s)
        else
          match is_valid_request f s efi_guid_x509_cert cert req with
          | none => none
          | some valid =>
            if valid ≠ 0 then
              issue_mok_request_loop env f req rest s (built ++ mok_request_list size cert)
            else
              match in_pending_request f s efi_guid_x509_cert cert req with
              | none => none
              | some (_, s') => issue_mok_request_loop env f req rest s' built

/-- `issue_mok_request (files, total, req, hash_file, root_pw)` for a non-`NULL`
array `files` of `total` entries. -/
def issue_mok_request (env : Env) (f : Faults) (s : Store) (files : List KeyFile)
    (req : MokRequest) : Option (Int × Store) :=
  if files.any (fun file => file.st_size.isNone) then some (-1, s)
  else
    match efi_get_variable f s .efi_guid_shim (req_names req) with
    | .error => some (-1, s)
    | old =>
      let old_req_data : Bytes := match old with
        | .ok d => d
        | _ => []
      match issue_mok_request_loop env f req files s [] with
      | none => none
      | some (none, s') => some (-1, s')
      | some (some built, s') =>
        if built.length = 0 then some (0, s')
        else
          let r := update_request env f s' (some (built ++ old_req_data)) req
          if r.1 < 0 then some (-1, r.2) else some (0, r.2)

/-! ## `issue_hash_request` -/

/-- Value of a hexadecimal digit as `sscanf ("%2hhx")` reads it. -/
def hex_digit (c : Char) : Nat :=
  if '0' ≤ c ∧ c ≤ '9' then c.toNat - '0'.toNat
  else if 'a' ≤ c ∧ c ≤ 'f' then c.toNat - 'a'.toNat + 10
  else if 'A' ≤ c ∧ c ≤ 'F' then c.toNat - 'A'.toNat + 10
  else 0

/-- `identify_hash_type (hash_str, &type)`: `none` for the result `-1`, else the
type written and the hash size returned. The case of SHA1 is compiled out. -/
def identify_hash_type (hash_str : List Char) : Option (Guid × Nat) :=
  if hash_str.any (fun c => (c > '9' || c < '0') && (c > 'f' || c < 'a') && (c > 'F' || c < 'A'))
  then none
  else if hash_str.length = SHA224_DIGEST_LENGTH * 2 then some (efi_guid_sha224, SHA224_DIGEST_LENGTH)
  else if hash_str.length = SHA256_DIGEST_LENGTH * 2 then some (efi_guid_sha256, SHA256_DIGEST_LENGTH)
  else if hash_str.length = SHA384_DIGEST_LENGTH * 2 then some (efi_guid_sha384, SHA384_DIGEST_LENGTH)
  else if hash_str.length = SHA512_DIGEST_LENGTH * 2 then some (efi_guid_sha512, SHA512_DIGEST_LENGTH)
  else none

/-- `hex_str_to_binary (hex_str, array, len)` on a string of hexadecimal digits. -/
def hex_str_to_binary : List Char → Nat → Bytes
  | c1 :: c2 :: rest, len + 1 =>
    UInt8.ofNat (16 * hex_digit c1 + hex_digit c2) :: hex_str_to_binary rest len
  | _, _ => []

/-- First index `i` with `mok_list[i].header->SignatureType` equal to `hash_type`
(the loop of lines 1512-1519), counted from `i`. -/
def find_merge_ind (old_req_data : Bytes) (hash_type : Guid) : List MokListNode → Nat → Option Nat
  | [], _ => none
  | node :: rest, i =>
    if efi_guid_eq (SignatureType old_req_data node.header) hash_type then some i
    else find_merge_ind old_req_data hash_type rest (i + 1)

/-- The bytes `memcpy` copies for the nodes of `nodes`: each list from its header,
`SignatureListSize` bytes long. -/
def copy_lists (data : Bytes) (nodes : List MokListNode) : Bytes :=
  (nodes.map fun node => slice data node.header (SignatureListSize data node.header)).flatten

/-- The new signature list of lines 1533-1544 for one hash. -/
def hash_request_list (hash_type : Guid) (db_hash : Bytes) (hash_size : Nat) : Bytes :=
  hash_type ++
  enc32 (sizeof_EFI_SIGNATURE_LIST + sizeof_efi_guid_t + hash_size) ++
  enc32 0 ++
  enc32 (hash_size + sizeof_efi_guid_t) ++
  efi_guid_shim_bytes ++ slice db_hash 0 hash_size

/-- Lines 1495-1578 of `issue_hash_request` once the variable has been read: the
buffer `new_list` of `list_size` bytes that is handed to `update_request`.
`old` is `none` when the variable does not exist (`old_req_data == NULL`),
`mok_list` is the index of the old contents. -/
def hash_request_buffer (heap : Nat → UInt8) (hash_type : Guid) (db_hash : Bytes)
    (hash_size : Nat) (old : Option Bytes) (mok_list : List MokListNode) : Bytes :=
  let old_req_data := old.getD []
  let list_size0 := sizeof_EFI_SIGNATURE_LIST + sizeof_efi_guid_t + hash_size
                      + (if old.isSome then old_req_data.length else 0)
  match find_merge_ind old_req_data hash_type mok_list 0 with
  | none =>
    let list_size := list_size0
    let new_list := (List.range list_size).map heap
    poke new_list 0 (hash_request_list hash_type db_hash hash_size ++ old_req_data)
  | some merge_ind =>
    let list_size := list_size0 - sizeof_EFI_SIGNATURE_LIST
    let new_list := (List.range list_size).map heap
    let before := copy_lists old_req_data (mok_list.take merge_ind)
    let node := mok_list.getD merge_ind ⟨0, 0, 0⟩
    let sig_list_size := SignatureListSize old_req_data node.header
    let sig_size := hash_size + sizeof_efi_guid_t
    let old' := poke old_req_data (node.header + 16) (enc32 (sig_list_size + sig_size))
    let merged := slice old' node.header sig_list_size ++ hash_type ++ slice db_hash 0 hash_size
    let after := copy_lists old' (mok_list.drop (merge_ind + 1))
    poke new_list 0 (before ++ merged ++ after)

/-- `issue_hash_request (hash_str, req, hash_file, root_pw)` for a non-`NULL`
string. -/
def issue_hash_request (env : Env) (f : Faults) (s : Store) (hash_str : String)
    (req : MokRequest) : Option (Int × Store) :=
  match identify_hash_type hash_str.toList with
  | none => some (-1, s)
  | some (hash_type, hash_size) =>
    let db_hash := hex_str_to_binary hash_str.toList hash_size
    match is_valid_request f s hash_type db_hash req with
    | none => none
    | some valid =>
      if valid = 0 then
        match in_pending_request f s hash_type db_hash req with
        | none => none
        | some (_, s') => some (0, s')
      else
        match efi_get_variable f s .efi_guid_shim (req_names req) with
        | .error => some (-1, s)
        | .enoent =>
          let new_list := hash_request_buffer env.heap hash_type db_hash hash_size none []
          let r := update_request env f s (some new_list) req
          if r.1 < 0 then some (-1, r.2) else some (0, r.2)
        | .ok old_req_data =>
          match build_mok_list old_req_data with
          | .oob => none
          | .nofuel => none
          | .corrupt => some (0, s)
          | .done [] => some (0, s)
          | .done mok_list =>
            let new_list := hash_request_buffer env.heap hash_type db_hash hash_size
                              (some old_req_data) mok_list
            let r := update_request env f s (some new_list) req
            if r.1 < 0 then some (-1, r.2) else some (0, r.2)

/-! ## Auxiliary definitions for the statements about `build_mok_list` -/

/-- The loop variables of `build_mok_list` after `n` passes of the loop that did
not return; `none` when the function has returned before. -/
def build_mok_list_after (data : Bytes) : Nat → Option BuildState
  | 0 => some { CertList := 0, dbsize := data.length, list := [] }
  | n + 1 =>
    match build_mok_list_after data n with
    | none => none
    | some st =>
      match build_mok_list_step data st with
      | .next st' => some st'
      | .ret _ => none

/-- The rest of a run of `build_mok_list` from loop variables `st`. -/
def build_mok_list_from (data : Bytes) (st : BuildState) : BuildResult :=
  build_mok_list_loop data (st.dbsize + 1) st

/-- A node whose offsets are moved by `o` bytes. -/
def MokListNode.shift (o : Nat) (node : MokListNode) : MokListNode :=
  { header := node.header + o, mok_size := node.mok_size, mok := node.mok + o }

/-- A result computed on `data.drop o` with an empty index, read as a result on
`data` after the nodes `acc`. -/
def BuildResult.rebase (o : Nat) (acc : List MokListNode) : BuildResult → BuildResult
  | .done l => .done (acc ++ l.map (MokListNode.shift o))
  | .corrupt => .corrupt
  | .oob => .oob
  | .nofuel => .nofuel

/-- The same for the outcome of one pass of the loop. -/
def BuildStep.rebase (o : Nat) (acc : List MokListNode) : BuildStep → BuildStep
  | .next st => .next { CertList := st.CertList + o, dbsize := st.dbsize,
                        list := acc ++ st.list.map (MokListNode.shift o) }
  | .ret r => .ret (r.rebase o acc)

/-! ## Example buffers -/

/-- A 28-byte list header with the given type and size fields. -/
def list_header (type : Guid) (total_size header_size entry_size : Nat) : Bytes :=
  type ++ enc32 total_size ++ enc32 header_size ++ enc32 entry_size

/-- An X509 list of 47 bytes holding a three-byte certificate. -/
def ex_x509_list : Bytes :=
  list_header efi_guid_x509_cert 47 0 19 ++ efi_guid_shim_bytes ++ [0x30, 0x03, 0x01]

/-- The X509 list followed by a header that declares `total_size = 10`, which is
not more than its `entry_size = 19`. -/
def ex_bad_size : Bytes := ex_x509_list ++ list_header efi_guid_x509_cert 10 0 19

/-- The X509 list followed by a header that declares `total_size = 1000` while 28
bytes remain. -/
def ex_oversize : Bytes := ex_x509_list ++ list_header efi_guid_x509_cert 1000 0 19

/-! ## Example stores -/

/-- What a result shows of the shim variables `names`: the value returned and the
contents of each variable. -/
def observe (names : List String) (r : Option (Int × Store)) :
    Option (Int × List (Option Bytes)) :=
  r.map fun p => (p.1, names.map (p.2 .efi_guid_shim))

/-- The certificate X of `ex_x509_list`. -/
def ex_cert_X : Bytes := [0x30, 0x03, 0x01]

/-- A second certificate, Y. -/
def ex_cert_Y : Bytes := [0x30, 0x03, 0x02]

/-- An Authorization value that is not 32 bytes long. -/
def ex_auth_old : Bytes := [0x01, 0x00]

/-- The Authorization value a new request writes. -/
def ex_auth_new : Bytes := [0x02, 0x00]

/-- An environment in which every file is a valid certificate, the password step
succeeds and the crypt-based hash is in use. -/
def ex_env : Env :=
  { use_simple_hash := false
    auth_step := fun _ => some (ex_auth_new, List.replicate 32 0)
    is_valid_cert := fun _ => true
    heap := fun _ => 0 }

/-- The store in which only `MokNew` (holding certificate X) and `MokAuth` exist:
an enrolment of X is pending. -/
def ex_store_enroll_pending : Store := fun g n =>
  if g = .efi_guid_shim ∧ n = "MokNew" then some (mok_request_list 3 ex_cert_X)
  else if g = .efi_guid_shim ∧ n = "MokAuth" then some ex_auth_old
  else none

/-- The store without any variable. -/
def ex_store_empty : Store := fun _ _ => none

/-- The write of `MokAuth` is forced to fail; every other call works. -/
def ex_faults_auth : Faults :=
  { get := fun _ _ => false, size := fun _ _ => false
    set := fun _ n => decide (n = "MokAuth"), del := fun _ _ => false }

/-- The write of `MokNew` is forced to fail; every other call works. -/
def ex_faults_data : Faults :=
  { get := fun _ _ => false, size := fun _ _ => false
    set := fun _ n => decide (n = "MokNew"), del := fun _ _ => false }

/-- A GUID that is none of the six known list types. -/
def ex_guid_unknown : Guid :=
  [0xff, 0xff, 0xff, 0xff, 0xff, 0xff, 0xff, 0xff, 0xff, 0xff, 0xff, 0xff, 0xff, 0xff, 0xff, 0xff]

/-- A buffer that consists of one list of unknown type: 29 bytes, one-byte entry. -/
def ex_unknown_only : Bytes := list_header ex_guid_unknown 29 0 1 ++ [0x00]

/-- The store in which `MokNew` holds `ex_unknown_only` and `MokAuth` exists. -/
def ex_store_unknown_pending : Store := fun g n =>
  if g = .efi_guid_shim ∧ n = "MokNew" then some ex_unknown_only
  else if g = .efi_guid_shim ∧ n = "MokAuth" then some ex_auth_old
  else none

/-- A SHA256 hash as a string of 64 hexadecimal digits. -/
def ex_hash_str : String :=
  "00112233445566778899aabbccddeeff00112233445566778899aabbccddeeff"

/-! ## Auxiliary definitions: blocks and views -/

/-- What a pass of the loop leaves when the buffer is the single list `b`: the
nodes it indexes (none or one), or `none` when the pass returns. -/
def block_index (b : Bytes) : Option (List MokListNode) :=
  match build_mok_list_step b ⟨0, b.length, []⟩ with
  | .next st => some st.list
  | .ret _ => none

/-- The same outcome of a pass with `r` more bytes remaining. -/
def BuildStep.extend (r : Nat) : BuildStep → BuildStep
  | .next st => .next { CertList := st.CertList, dbsize := st.dbsize + r, list := st.list }
  | .ret x => .ret x

/-- What an index entry denotes: the type of its list, its length and its bytes. -/
def node_view (data : Bytes) (node : MokListNode) : Guid × Nat × Bytes :=
  (SignatureType data node.header, node.mok_size, slice data node.mok node.mok_size)

/-- The results of `build_mok_list` with every node replaced by what it denotes. -/
inductive IndexView where
  | corrupt
  | done (entries : List (Guid × Nat × Bytes))
  | oob
  | nofuel
  deriving DecidableEq, Repr

/-- What a result of `build_mok_list` on `data` denotes. -/
def BuildResult.view (data : Bytes) : BuildResult → IndexView
  | .corrupt => .corrupt
  | .done l => .done (l.map (node_view data))
  | .oob => .oob
  | .nofuel => .nofuel

/-- Entries put in front of a view. -/
def IndexView.after (front : List (Guid × Nat × Bytes)) : IndexView → IndexView
  | .done es => .done (front ++ es)
  | .corrupt => .corrupt
  | .oob => .oob
  | .nofuel => .nofuel

/-- An X509 list of 45 bytes whose `SignatureSize = 19` announces a certificate
of three bytes, of which only the first lies within the list. -/
def ex_overrun : Bytes :=
  list_header efi_guid_x509_cert 45 0 19 ++ efi_guid_shim_bytes ++ [0x30]

/-! ## The index as the specification describes it -/

/-- The offsets of the lists of `data` from offset `o` on: each list is followed
by the next one `total_size` bytes later, as long as bytes remain and the declared
`total_size` is not 0 and fits the bytes remaining. -/
def list_offsets (data : Bytes) : Nat → Nat → List Nat
  | 0, _ => []
  | fuel + 1, o =>
    if o < data.length ∧ 0 < SignatureListSize data o ∧
       SignatureListSize data o ≤ data.length - o
    then o :: list_offsets data fuel (o + SignatureListSize data o)
    else []

/-- The five digest types. -/
def digest_types : List Guid :=
  [efi_guid_sha1, efi_guid_sha224, efi_guid_sha256, efi_guid_sha384, efi_guid_sha512]

/-- A supported list: of type X509, or of a digest type with
`entry_size = digest_size (type) + 16`. -/
def list_supported (data : Bytes) (o : Nat) : Bool :=
  decide (SignatureType data o = efi_guid_x509_cert) ||
  (decide (SignatureType data o ∈ digest_types) &&
    decide (SignatureSize data o = efi_hash_size (SignatureType data o) + 16))

/-- The index entry of the list at offset `o`: for an X509 list the certificate
bytes, for a hash list the whole entry array (its length being the `uint32_t`
difference `total_size - 28 - header_size`). -/
def index_entry (data : Bytes) (o : Nat) : MokListNode :=
  if SignatureType data o = efi_guid_x509_cert then
    { header := o
      mok_size := SignatureSize data o - 16
      mok := o + 28 + SignatureHeaderSize data o + 16 }
  else
    { header := o
      mok_size := u32 ((SignatureListSize data o : Int) - 28 - SignatureHeaderSize data o)
      mok := o + 28 + SignatureHeaderSize data o }

/-- The index of `data`: one entry per supported list, in buffer order. -/
def index_of (data : Bytes) : List MokListNode :=
  ((list_offsets data (data.length + 1) 0).filter (list_supported data)).map (index_entry data)

/-- The checks `build_mok_list` has made on a list it indexes. -/
def entry_checked (data : Bytes) (o : Nat) : Prop :=
  o + 28 + SignatureHeaderSize data o + 17 ≤ data.length ∧
  16 < SignatureSize data o ∧
  SignatureSize data o < SignatureListSize data o ∧
  (index_entry data o).mok + (index_entry data o).mok_size ≤ data.length

/-- The SHA256 digest of `ex_hash_str`. -/
def ex_digest : Bytes := hex_str_to_binary ex_hash_str.toList 32

/-- The hash list `issue_hash_request` creates for `ex_digest`. -/
def ex_sha256_list : Bytes := hash_request_list efi_guid_sha256 ex_digest 32

/-- An X509 list, a list of unknown type and a SHA256 list. -/
def ex_three_lists : Bytes := ex_x509_list ++ ex_unknown_only ++ ex_sha256_list

/-! ## Auxiliary definitions: repeated hash requests -/

/-- The buffer `issue_hash_request` stages for an admissible hash `db_hash` of
type `hash_type` when the request variable holds `old` (`none`: no such
variable): lines 1497-1578 with `hash_size = efi_hash_size hash_type`. The result
is `none` when `issue_hash_request` stages nothing (`build_mok_list` returns
`NULL`, or has no defined result). -/
def hash_request_staged (heap : Nat → UInt8) (hash_type : Guid) (db_hash : Bytes)
    (old : Option Bytes) : Option Bytes :=
  match old with
  | none =>
    some (hash_request_buffer heap hash_type db_hash (efi_hash_size hash_type) none [])
  | some old_req_data =>
    match build_mok_list old_req_data with
    | .done (n :: ns) =>
      some (hash_request_buffer heap hash_type db_hash (efi_hash_size hash_type)
        (some old_req_data) (n :: ns))
    | _ => none

/-- A hash list with header size 0: the header for the entry array `E`, then `E`. -/
def hash_list (hash_type : Guid) (E : Bytes) : Bytes :=
  list_header hash_type (sizeof_EFI_SIGNATURE_LIST + E.length) 0
    (efi_hash_size hash_type + sizeof_efi_guid_t) ++ E

/-- The bytes of an entry array. -/
def entry_array (entries : List (Guid × Bytes)) : Bytes :=
  (entries.map fun e => e.1 ++ e.2).flatten

/-- A second SHA256 digest. -/
def ex_digest2 : Bytes := List.replicate 32 0xab

/-! ## Example hash arrays -/

/-- A SHA256 entry array of two entries, holding `ex_digest` and `ex_digest2`. -/
def ex_array2 : Bytes :=
  entry_array [(efi_guid_shim_bytes, ex_digest), (efi_guid_sha256, ex_digest2)]

/-- A SHA256 list whose entry array of 50 bytes is not a multiple of the entry
size 48 (total size 78, header size 0). -/
def ex_odd_hash_list : Bytes :=
  list_header efi_guid_sha256 78 0 48 ++ List.replicate 50 0x11

/-- The store in which `MokNew` holds `ex_odd_hash_list` followed by the SHA256
list of `ex_digest`, and `MokAuth` exists. -/
def ex_store_odd : Store := fun g n =>
  if g = .efi_guid_shim ∧ n = "MokNew" then some (ex_odd_hash_list ++ ex_sha256_list)
  else if g = .efi_guid_shim ∧ n = "MokAuth" then some ex_auth_old
  else none

/-- A SHA256 list with a signature header of 4 bytes and the one entry
`ex_digest` (total size 80). -/
def ex_sha256_hdr4 : Bytes :=
  list_header efi_guid_sha256 80 4 48 ++ [0xde, 0xad, 0xbe, 0xef] ++
    efi_guid_shim_bytes ++ ex_digest

/-- The store in which `MokNew` holds `ex_sha256_hdr4` followed by
`ex_x509_list`, and `MokAuth` exists. -/
def ex_store_hdr4 : Store := fun g n =>
  if g = .efi_guid_shim ∧ n = "MokNew" then some (ex_sha256_hdr4 ++ ex_x509_list)
  else if g = .efi_guid_shim ∧ n = "MokAuth" then some ex_auth_old
  else none

/-- A SHA256 list with a signature header of 4 bytes and the two entries
`ex_digest`, `ex_digest2` (total size 128). -/
def ex_sha256_hdr4_two : Bytes :=
  list_header efi_guid_sha256 128 4 48 ++ [0xde, 0xad, 0xbe, 0xef] ++
    entry_array [(efi_guid_shim_bytes, ex_digest), (efi_guid_shim_bytes, ex_digest2)]

/-- The store in which `MokNew` holds `ex_sha256_hdr4_two` and `MokAuth` exists. -/
def ex_store_hdr4_two : Store := fun g n =>
  if g = .efi_guid_shim ∧ n = "MokNew" then some ex_sha256_hdr4_two
  else if g = .efi_guid_shim ∧ n = "MokAuth" then some ex_auth_old
  else none

/-- The store in which `MokNew` holds `ex_x509_list` followed by a list of unknown
type, and `MokAuth` exists. -/
def ex_store_cert_unknown : Store := fun g n =>
  if g = .efi_guid_shim ∧ n = "MokNew" then some (ex_x509_list ++ ex_unknown_only)
  else if g = .efi_guid_shim ∧ n = "MokAuth" then some ex_auth_old
  else none

/-- The store in which `MokNew` holds a list of unknown type followed by
`ex_x509_list` twice, and `MokAuth` exists. -/
def ex_store_unknown_front : Store := fun g n =>
  if g = .efi_guid_shim ∧ n = "MokNew" then
    some (ex_unknown_only ++ ex_x509_list ++ ex_x509_list)
  else if g = .efi_guid_shim ∧ n = "MokAuth" then some ex_auth_old
  else none

/-- The key file that holds certificate Y. -/
def ex_file_Y : KeyFile := { st_size := some 3, content := some ex_cert_Y }

/-- The list the specification describes for a certificate `c`: type X509,
`total_size = |c| + 44`, `header_size = 0`, `entry_size = |c| + 16`, owner
`efi_guid_shim`, followed by `c` (the sizes as 32-bit fields). -/
def enc_cert (c : Bytes) : Bytes :=
  list_header efi_guid_x509_cert (c.length + 44) 0 (c.length + 16) ++ efi_guid_shim_bytes ++ c

/-- The certificates of a batch that are admitted, in the order supplied, and the
store after the batch has been examined: a certificate is admitted when
`is_valid_request` admits it in the store reached; one that is not admitted is
looked up by `in_pending_request`, which may change the store. `none` when a call
has no defined result. -/
def admitted_certs (f : Faults) (req : MokRequest) : List Bytes → Store → Option (List Bytes × Store)
  | [], s => some ([], s)
  | c :: cs, s =>
    match is_valid_request f s efi_guid_x509_cert c req with
    | none => none
    | some valid =>
      if valid ≠ 0 then
        match admitted_certs f req cs s with
        | none => none
        | some (adm, s') => some (c :: adm, s')
      else
        match in_pending_request f s efi_guid_x509_cert c req with
        | none => none
        | some (_, s1) => admitted_certs f req cs s1

/-- The store in which `MokNew` holds `ex_bad_size`, which `build_mok_list`
rejects as corrupt, and `MokAuth` exists. -/
def ex_store_corrupt_pending : Store := fun g n =>
  if g = .efi_guid_shim ∧ n = "MokNew" then some ex_bad_size
  else if g = .efi_guid_shim ∧ n = "MokAuth" then some ex_auth_old
  else none

/-- The store in which `MokNew` holds a list of unknown type followed by the
SHA256 list of `ex_digest`, and `MokAuth` exists. -/
def ex_store_unknown_hash : Store := fun g n =>
  if g = .efi_guid_shim ∧ n = "MokNew" then some (ex_unknown_only ++ ex_sha256_list)
  else if g = .efi_guid_shim ∧ n = "MokAuth" then some ex_auth_old
  else none

/-- The store in which `MokNew` holds the SHA256 list of `ex_digest`, and
`MokAuth` exists. -/
def ex_store_hash_pending : Store := fun g n =>
  if g = .efi_guid_shim ∧ n = "MokNew" then some ex_sha256_list
  else if g = .efi_guid_shim ∧ n = "MokAuth" then some ex_auth_old
  else none

/-- The string of 64 hexadecimal digits for `ex_digest2`. -/
def ex_hash_str2 : String :=
  "abababababababababababababababababababababababababababababababab"

/-- An environment like `ex_env` in which fresh memory holds the byte `0x5a`. -/
def ex_env_heap : Env :=
  { use_simple_hash := false
    auth_step := fun _ => some (ex_auth_new, List.replicate 32 0)
    is_valid_cert := fun _ => true
    heap := fun _ => 0x5a }

/-- The store in which `MokNew` holds `ex_odd_hash_list` and `MokAuth` exists. -/
def ex_store_odd_only : Store := fun g n =>
  if g = .efi_guid_shim ∧ n = "MokNew" then some ex_odd_hash_list
  else if g = .efi_guid_shim ∧ n = "MokAuth" then some ex_auth_old
  else none

/-! ## `efichar_from_char`, `generate_auth`

`efi_char16_t` is declared as `wchar_t` (line 95), whose size the compiler
fixes, as it fixes the signedness of `char`; both are parameters here. Objects
are stored with the least significant byte first. `SHA256_Init`, `SHA256_Update`
and `SHA256_Final` belong to OpenSSL: the digest is a function `sha256` of the
bytes handed to the updates, in order. -/

/-- What the compiler fixes: `sizeof (wchar_t)` and whether `char` is signed. -/
structure Platform where
  sizeof_wchar_t : Nat
  char_signed : Bool

/-- `sizeof (efi_char16_t)`, with `typedef wchar_t efi_char16_t`. -/
def sizeof_efi_char16_t (plat : Platform) : Nat := plat.sizeof_wchar_t

/-- The bytes of `dest[i]` after `dest[i] = src[i]`, a `char` converted to
`efi_char16_t`: the byte itself, then the extension by zeros, or by `0xff` for a
byte of 128 or more when `char` is signed. -/
def efichar_bytes (plat : Platform) (c : UInt8) : Bytes :=
  c :: List.replicate (sizeof_efi_char16_t plat - 1)
    (if plat.char_signed ∧ 128 ≤ c.toNat then 0xff else 0)

/-- `strlen (s)` for the characters `s` of a string buffer without its final
terminator: the index of the first zero byte, if there is one. -/
def strlen (s : Bytes) : Nat := (s.takeWhile (fun c => c ≠ 0)).length

/-- `efichar_from_char (dest, src, dest_len)`: the bytes written to `dest`
(`i` converted characters and a terminator) and the value returned; the bound
`dest_len / sizeof (*dest) - 1` is computed in `size_t`. -/
def efichar_from_char (plat : Platform) (src : Bytes) (dest_len : Nat) : Bytes × Nat :=
  let src_len := strlen src % 4294967296
  let bound := (dest_len / sizeof_efi_char16_t plat + 18446744073709551616 - 1) %
    18446744073709551616
  let i := min src_len bound
  (((src.take i).map (efichar_bytes plat)).flatten ++
      List.replicate (sizeof_efi_char16_t plat) 0,
   i * sizeof_efi_char16_t plat)

/-- The bytes `generate_auth` hands to the two `SHA256_Update` calls: `new_list`
when it is not `NULL`, then `efichar_len` bytes of `efichar_pass`. -/
def generate_auth_input (plat : Platform) (new_list : Option Bytes) (password : Bytes)
    (pw_len : Nat) : Bytes :=
  let r := efichar_from_char plat password (pw_len * sizeof_efi_char16_t plat)
  (match new_list with
   | some l => l
   | none => []) ++ r.1.take r.2

/-- `generate_auth (new_list, list_len, password, pw_len, auth)` with a non-`NULL`
`auth`: `none` for the result -1, else the 32 bytes left in `auth`. `new_list`
holds `list_len` bytes. -/
def generate_auth (sha256 : Bytes → Bytes) (plat : Platform) (new_list : Option Bytes)
    (password : Option Bytes) (pw_len : Nat) : Option Bytes :=
  match password with
  | none => none
  | some pw => some (sha256 (generate_auth_input plat new_list pw pw_len))

/-- The UTF-16LE encoding of a password of ASCII characters: two bytes for each
character, no terminator. -/
def utf16le (password : Bytes) : Bytes :=
  (password.map fun c => [c, 0]).flatten

/-! ## The password step of `update_request`, and the flags `main` passes -/

/-- What lies outside the program in lines 933-959 of `update_request`.

* `hash_file`: `none` for a `NULL` argument, else the outcome of
  `get_hash_from_file`: the record left in `pw_crypt`, or `none` on failure;
* `root_pw`: the argument; `shadow`: the outcome of `get_password_from_shadow`;
* `typed`: the outcome of `get_password`: the password, its length being
  `pw_len`, or `none` on failure;
* `generate_hash`: the record `generate_hash` leaves in `pw_crypt` for a
  password, or `none` on failure;
* `pw_crypt_init`: the record after `bzero` and the store of the method;
* `auth_uninit`: what the 32 bytes of the local array `auth` hold before anything
  is stored to them. -/
structure PasswordSource where
  hash_file : Option (Option Bytes)
  root_pw : Bool
  shadow : Option Bytes
  typed : Option Bytes
  generate_hash : Bytes → Option Bytes
  sha256 : Bytes → Bytes
  plat : Platform
  pw_crypt_init : Bytes
  auth_uninit : Bytes

/-- Lines 933-959 of `update_request`: `none` for `goto error`, else the contents
of `pw_crypt` and of `auth` afterwards. -/
def update_request_auth_step (use_simple_hash : Bool) (src : PasswordSource)
    (new_list : Option Bytes) : Option (Bytes × Bytes) :=
  match src.hash_file with
  | some r =>
    match r with
    | none => none
    | some record => some (record, src.auth_uninit)
  | none =>
    if src.root_pw then
      match src.shadow with
      | none => none
      | some record => some (record, src.auth_uninit)
    else
      match src.typed with
      | none => none
      | some password =>
        if !use_simple_hash then
          match src.generate_hash password with
          | none => none
          | some record => some (record, src.auth_uninit)
        else
          match generate_auth src.sha256 src.plat new_list (some password) password.length with
          | none => none
          | some digest => some (src.pw_crypt_init, digest)

/-- The environment `env` with the flag `use_simple_hash` set to `flag` and the
password step read from `src`. -/
def Env.with_source (env : Env) (flag : Bool) (src : PasswordSource) : Env :=
  { env with
    use_simple_hash := flag
    auth_step := update_request_auth_step flag src }

/-- Lines 2395-2396 of `main`: the value of `use_simple_hash` after the options
have been read. -/
def main_use_simple_hash (use_root_pw use_simple_hash : Bool) : Bool :=
  if use_root_pw ∧ use_simple_hash then false else use_simple_hash

/-- Lines 2398-2399 of `main`: whether `HELP` is added to the command, so that no
request is issued. -/
def main_help (hash_file use_root_pw : Bool) : Bool := hash_file && use_root_pw

/-- A platform with a `wchar_t` of 4 bytes and a signed `char`. -/
def ex_plat32 : Platform := { sizeof_wchar_t := 4, char_signed := true }

/-- A platform with a `wchar_t` of 2 bytes and a signed `char`. -/
def ex_plat16 : Platform := { sizeof_wchar_t := 2, char_signed := true }

/-- The invocation with `--hash-file` naming a file whose record is `record`,
without `--root-pw`, the local array `auth` holding `junk`. -/
def ex_source_hash_file (record junk : Bytes) : PasswordSource :=
  { hash_file := some (some record)
    root_pw := false
    shadow := none
    typed := none
    generate_hash := fun _ => none
    sha256 := fun _ => List.replicate 32 0
    plat := ex_plat32
    pw_crypt_init := []
    auth_uninit := junk }

/-! ## Buffers made of lists that lie within their own bytes -/

/-- A list as the data model describes it, of a supported type: its bytes are
`total_size` long, header, signature header and one entry fit
(`28 + header_size + entry_size <= total_size`), `entry_size > 16`, and the type
is X509 or a digest type with `entry_size = digest_size + 16`. -/
def list_wf (b : Bytes) : Prop :=
  b.length = SignatureListSize b 0 ∧
  28 + SignatureHeaderSize b 0 + SignatureSize b 0 ≤ b.length ∧
  16 < SignatureSize b 0 ∧
  list_supported b 0 = true

instance (b : Bytes) : Decidable (list_wf b) := by
  unfold list_wf
  infer_instance

/-- The index of a buffer that consists of the lists `blocks`, the first of them
at offset `o`. -/
def block_nodes : List Bytes → Nat → List MokListNode
  | [], _ => []
  | b :: bs, o => (index_entry b 0).shift o :: block_nodes bs (o + b.length)

/-- The list `b` after a hash request has been merged into it: `total_size`
raised by the entry size, and the entry (the bytes of `hash_type`, then the
digest) appended. -/
def merged_list (hash_type : Guid) (db_hash b : Bytes) : Bytes :=
  poke b 16 (enc32 (SignatureListSize b 0 + (efi_hash_size hash_type + 16))) ++
    hash_type ++ db_hash

/-- Whether an index entry, given by the type of its list, its length and its
bytes, holds the needle `data` of type `type`: for X509 the same length and equal
bytes, for a digest type a match of `match_hash_array`. -/
def view_holds (type : Guid) (data : Bytes) (v : Guid × Nat × Bytes) : Prop :=
  v.1 = type ∧
  (if type = efi_guid_x509_cert then v.2.1 = data.length ∧ v.2.2 = data
   else 0 ≤ match_hash_array type data v.2.2 v.2.1)

/-- What the index entry of the list `b` denotes. -/
def block_view (b : Bytes) : Guid × Nat × Bytes := node_view b (index_entry b 0)

/-- What `issue_mok_request` and `issue_hash_request` return once they hand the
buffer `buf` to `update_request` (lines 1351-1355 and 1580-1584): -1 when
`update_request` fails, else 0. -/
def staged_result (env : Env) (f : Faults) (s : Store) (buf : Bytes) (req : MokRequest) :
    Option (Int × Store) :=
  some (if (update_request env f s (some buf) req).1 < 0
    then (-1, (update_request env f s (some buf) req).2)
    else (0, (update_request env f s (some buf) req).2))

/-- The store in which `MokNew` holds the X509 list of certificate X, the SHA256
list of `ex_digest` and the X509 list of certificate Y, and `MokAuth` exists. -/
def ex_store_mixed : Store := fun g n =>
  if g = .efi_guid_shim ∧ n = "MokNew" then
    some (ex_x509_list ++ ex_sha256_list ++ enc_cert ex_cert_Y)
  else if g = .efi_guid_shim ∧ n = "MokAuth" then some ex_auth_old
  else none

/-- The buffer staged when `ex_digest2` is merged into the SHA256 list of
`ex_store_mixed`. -/
def ex_staged_mixed : Bytes :=
  ex_x509_list ++ merged_list efi_guid_sha256 ex_digest2 ex_sha256_list ++ enc_cert ex_cert_Y

/-- The buffer staged when certificate Y is enrolled while an enrolment of X is
pending. -/
def ex_staged_batch : Bytes := enc_cert ex_cert_Y ++ mok_request_list 3 ex_cert_X

/-- The write of `MokAuth` and the deletion of `MokNew` are forced to fail; every
other call works. -/
def ex_faults_auth_del : Faults :=
  { get := fun _ _ => false, size := fun _ _ => false
    set := fun _ n => decide (n = "MokAuth"), del := fun _ n => decide (n = "MokNew") }

/-- The store in which `MokNew` holds the first 57 bytes of two X509 lists of 47
bytes each: the list of certificate X and 10 bytes more. -/
def ex_store_truncated : Store := fun g n =>
  if g = .efi_guid_shim ∧ n = "MokNew" then some ((ex_x509_list ++ ex_x509_list).take 57)
  else none

/-- The store in which `MokNew` holds the SHA256 list of `ex_digest` followed by a
list of unknown type, and `MokAuth` exists. -/
def ex_store_hash_unknown : Store := fun g n =>
  if g = .efi_guid_shim ∧ n = "MokNew" then some (ex_sha256_list ++ ex_unknown_only)
  else if g = .efi_guid_shim ∧ n = "MokAuth" then some ex_auth_old
  else none

/-! ## Theorems -/

set_option maxRecDepth 100000

theorem is_duplicate_loop_cases (type : Guid) (data var_data : Bytes) (l : List MokListNode) :
    is_duplicate_loop type data var_data l = 0 ∨ is_duplicate_loop type data var_data l = 1 := by
  induction l with
  | nil => left; rfl
  | cons node rest ih =>
    unfold is_duplicate_loop
    split
    · exact ih
    · split
      · split
        · exact ih
        · split
          · right; rfl
          · exact ih
      · split
        · right; rfl
        · exact ih

theorem is_duplicate_cases (f : Faults) (s : Store) (type : Guid) (data : Bytes)
    (vendor : Vendor) (db_name : String) :
    is_duplicate f s type data vendor db_name = none ∨
    is_duplicate f s type data vendor db_name = some 0 ∨
    is_duplicate f s type data vendor db_name = some 1 := by
  unfold is_duplicate
  split
  · right; left; rfl
  · split
    · right; left; rfl
    · right; left; rfl
    · split
      · left; rfl
      · left; rfl
      · right; left; rfl
      · right; left; rfl
      · rcases is_duplicate_loop_cases type data ‹Bytes› ‹List MokListNode› with h | h
        · right; left; rw [h]
        · right; right; rw [h]

theorem bind_ne_zero_01 (a k : Option Int) (r : Int) (hk : k = some r → r = 0 ∨ r = 1) :
    (a.bind fun d => if d ≠ 0 then some 0 else k) = some r → r = 0 ∨ r = 1 := by
  intro h
  cases a with
  | none => simp at h
  | some d =>
    simp only [Option.some_bind] at h
    split at h
    · left; simpa using h.symm
    · exact hk h

theorem bind_eq_zero_01 (a k : Option Int) (r : Int) (hk : k = some r → r = 0 ∨ r = 1) :
    (a.bind fun d => if d = 0 then some 0 else k) = some r → r = 0 ∨ r = 1 := by
  intro h
  cases a with
  | none => simp at h
  | some d =>
    simp only [Option.some_bind] at h
    split at h
    · left; simpa using h.symm
    · exact hk h

theorem bind_ne_zero_iff (a k : Option Int) :
    ((a.bind fun d => if d ≠ 0 then some 0 else k) = some 1) ↔ (a = some 0 ∧ k = some 1) := by
  cases a with
  | none => simp
  | some d => by_cases h : d = 0 <;> simp [h]

theorem bind_eq_zero_iff (a k : Option Int) (ha : a = none ∨ a = some 0 ∨ a = some 1) :
    ((a.bind fun d => if d = 0 then some 0 else k) = some 1) ↔ (a = some 1 ∧ k = some 1) := by
  rcases ha with h | h | h <;> simp [h]

/-- C1. `is_valid_request` admits (returns 1) exactly as the admission table says:
ENROLL_MOK iff `is_duplicate` reports the candidate absent from PK, KEK, db,
MokListRT and MokNew; DELETE_MOK iff present in MokListRT and absent from
MokDel; ENROLL_BLACKLIST iff absent from MokListXRT and MokXNew;
DELETE_BLACKLIST iff present in MokListXRT and absent from MokXDel. Every
defined result is 0 or 1. -/
theorem is_valid_request_admission_table (f : Faults) (s : Store) (type : Guid) (mok : Bytes) :
    (is_valid_request f s type mok .ENROLL_MOK = some 1 ↔
      is_duplicate f s type mok .efi_guid_global "PK" = some 0 ∧
      is_duplicate f s type mok .efi_guid_global "KEK" = some 0 ∧
      is_duplicate f s type mok .efi_guid_security "db" = some 0 ∧
      is_duplicate f s type mok .efi_guid_shim "MokListRT" = some 0 ∧
      is_duplicate f s type mok .efi_guid_shim "MokNew" = some 0) ∧
    (is_valid_request f s type mok .DELETE_MOK = some 1 ↔
      is_duplicate f s type mok .efi_guid_shim "MokListRT" = some 1 ∧
      is_duplicate f s type mok .efi_guid_shim "MokDel" = some 0) ∧
    (is_valid_request f s type mok .ENROLL_BLACKLIST = some 1 ↔
      is_duplicate f s type mok .efi_guid_shim "MokListXRT" = some 0 ∧
      is_duplicate f s type mok .efi_guid_shim "MokXNew" = some 0) ∧
    (is_valid_request f s type mok .DELETE_BLACKLIST = some 1 ↔
      is_duplicate f s type mok .efi_guid_shim "MokListXRT" = some 1 ∧
      is_duplicate f s type mok .efi_guid_shim "MokXDel" = some 0) ∧
    (∀ req r, is_valid_request f s type mok req = some r → r = 0 ∨ r = 1) := by
  refine ⟨?_, ?_, ?_, ?_, ?_⟩
  · unfold is_valid_request
    simp only [bind_ne_zero_iff, and_true]
  · unfold is_valid_request
    rw [bind_eq_zero_iff _ _ (is_duplicate_cases _ _ _ _ _ _), bind_ne_zero_iff]
    simp
  · unfold is_valid_request
    simp only [bind_ne_zero_iff, and_true]
  · unfold is_valid_request
    rw [bind_eq_zero_iff _ _ (is_duplicate_cases _ _ _ _ _ _), bind_ne_zero_iff]
    simp
  · intro req r
    cases req <;> unfold is_valid_request
    · exact bind_eq_zero_01 _ _ _ (bind_ne_zero_01 _ _ _ (fun h => Or.inr (Option.some.inj h).symm))
    · exact bind_ne_zero_01 _ _ _ (bind_ne_zero_01 _ _ _ (bind_ne_zero_01 _ _ _
        (bind_ne_zero_01 _ _ _ (bind_ne_zero_01 _ _ _ (fun h => Or.inr (Option.some.inj h).symm)))))
    · exact bind_eq_zero_01 _ _ _ (bind_ne_zero_01 _ _ _ (fun h => Or.inr (Option.some.inj h).symm))
    · exact bind_ne_zero_01 _ _ _ (bind_ne_zero_01 _ _ _ (fun h => Or.inr (Option.some.inj h).symm))

/-! ### Bytes -/

theorem slice_drop (data : Bytes) (o k n : Nat) :
    slice (data.drop o) k n = slice data (o + k) n := by
  simp [slice, List.drop_drop, Nat.add_comm]

theorem slice_append_left (A B : Bytes) (k n : Nat) (h : k + n ≤ A.length) :
    slice (A ++ B) k n = slice A k n := by
  unfold slice
  rw [List.drop_append_of_le_length (by omega), List.take_append_of_le_length]
  simp; omega

theorem slice_append_right (A B : Bytes) (k n : Nat) :
    slice (A ++ B) (A.length + k) n = slice B k n := by
  unfold slice
  rw [List.drop_append]

theorem slice_length (data : Bytes) (o n : Nat) (h : o + n ≤ data.length) :
    (slice data o n).length = n := by
  unfold slice
  simp; omega

theorem le_val_lt (bs : Bytes) : le_val bs < 256 ^ bs.length := by
  induction bs with
  | nil => simp [le_val]
  | cons b bs ih =>
    have hb : b.toNat < 256 := b.toBitVec.isLt
    simp only [le_val, List.length_cons, pow_succ]
    omega

theorem ld32_lt (data : Bytes) (o : Nat) : ld32 data o < 4294967296 := by
  unfold ld32
  have h := le_val_lt (slice data o 4)
  have hl : (slice data o 4).length ≤ 4 := by simp [slice]
  have : 256 ^ (slice data o 4).length ≤ 256 ^ 4 := Nat.pow_le_pow_right (by norm_num) hl
  omega

theorem le_val_enc32 (v : Nat) : le_val (enc32 v) = v % 4294967296 := by
  have h : ∀ n : Nat, (UInt8.ofNat n).toNat = n % 256 := fun _ => rfl
  simp only [enc32, le_val, h]
  omega

theorem ld32_drop (data : Bytes) (o k : Nat) : ld32 (data.drop o) k = ld32 data (o + k) := by
  simp [ld32, slice_drop]

/-! ### The loop of `build_mok_list` -/

/-- What a pass of the loop that continues has established and done. -/
theorem build_mok_list_step_next (data : Bytes) (st st' : BuildState)
    (h : build_mok_list_step data st = .next st') :
    0 < SignatureListSize data st.CertList ∧
    SignatureListSize data st.CertList ≤ st.dbsize ∧
    st.CertList + 28 ≤ data.length ∧
    st'.CertList = st.CertList + SignatureListSize data st.CertList ∧
    st'.dbsize = st.dbsize - SignatureListSize data st.CertList := by
  unfold build_mok_list_step at h
  simp only [sizeof_EFI_SIGNATURE_LIST] at h
  split_ifs at h with h1 h2 h3 h4 h5 h6 h7 h8
  all_goals first
    | (cases h; refine ⟨?_, ?_, ?_, rfl, rfl⟩ <;> omega)

theorem build_mok_list_loop_fuel (data : Bytes) :
    ∀ (fuel : Nat) (st : BuildState), st.dbsize < fuel →
      build_mok_list_loop data fuel st = build_mok_list_from data st := by
  intro fuel
  induction fuel using Nat.strong_induction_on with
  | _ fuel ih =>
    intro st hlt
    obtain ⟨k, rfl⟩ : ∃ k, fuel = k + 1 := ⟨fuel - 1, by omega⟩
    unfold build_mok_list_from
    simp only [build_mok_list_loop]
    cases hs : build_mok_list_step data st with
    | ret r => rfl
    | next st' =>
      have hn := build_mok_list_step_next data st st' hs
      simp only
      rw [ih k (by omega) st' (by omega), ih st.dbsize (by omega) st' (by omega)]

/-- The recursion equation of a run, free of the iteration bound. -/
theorem build_mok_list_from_eq (data : Bytes) (st : BuildState) :
    build_mok_list_from data st =
      match build_mok_list_step data st with
      | .ret r => r
      | .next st' => build_mok_list_from data st' := by
  conv_lhs => unfold build_mok_list_from
  simp only [build_mok_list_loop]
  cases hs : build_mok_list_step data st with
  | ret r => rfl
  | next st' =>
    have hn := build_mok_list_step_next data st st' hs
    exact build_mok_list_loop_fuel data _ st' (by omega)

theorem build_mok_list_eq_from (data : Bytes) :
    build_mok_list data = build_mok_list_from data ⟨0, data.length, []⟩ := rfl

/-- After `n` passes the run continues from the state reached, and the bytes
consumed and the bytes left add up to the buffer. -/
theorem build_mok_list_after_spec (data : Bytes) :
    ∀ (n : Nat) (st : BuildState), build_mok_list_after data n = some st →
      build_mok_list data = build_mok_list_from data st ∧
      st.CertList + st.dbsize = data.length := by
  intro n
  induction n with
  | zero =>
    intro st h
    simp only [build_mok_list_after, Option.some.injEq] at h
    subst h
    exact ⟨rfl, by simp⟩
  | succ n ih =>
    intro st h
    simp only [build_mok_list_after] at h
    cases hp : build_mok_list_after data n with
    | none => simp [hp] at h
    | some st0 =>
      simp only [hp] at h
      cases hs : build_mok_list_step data st0 with
      | ret r => simp [hs] at h
      | next st1 =>
        simp only [hs, Option.some.injEq] at h
        subst h
        obtain ⟨h1, h2⟩ := ih st0 hp
        have hn := build_mok_list_step_next data st0 st1 hs
        refine ⟨?_, by omega⟩
        rw [h1, build_mok_list_from_eq data st0, hs]

/-! ### Size checks -/

/-- C5. When `build_mok_list` reaches (after any number `n` of lists, with any
index `st.list` built so far) a list whose `SignatureListSize` field lies in the
buffer, does not exceed the remaining bytes and is 0 or at most the
`SignatureSize` field, it returns `NULL` from inside the loop: the result is the
corrupt-data result and no index is returned. -/
theorem build_mok_list_size_check_corrupt (data : Bytes) (n : Nat) (st : BuildState)
    (hreach : build_mok_list_after data n = some st)
    (hfield : st.CertList + 20 ≤ data.length)
    (hfits : SignatureListSize data st.CertList ≤ st.dbsize)
    (hbad : SignatureListSize data st.CertList = 0 ∨
      SignatureListSize data st.CertList ≤ SignatureSize data st.CertList) :
    build_mok_list data = .corrupt ∧ (build_mok_list data).ptr = none := by
  obtain ⟨h1, h2⟩ := build_mok_list_after_spec data n st hreach
  have hs : build_mok_list_step data st = .ret .corrupt := by
    unfold build_mok_list_step
    have hd : st.dbsize ≠ 0 := by omega
    have hi : inb data (st.CertList + 16) 4 = true := by simp [inb]; omega
    have hl : ¬ st.dbsize < SignatureListSize data st.CertList := by omega
    simp only [hd, hi, hl, if_false, Bool.not_true]
    rw [if_pos (Or.inr hbad)]
    simp
  have hc : build_mok_list data = .corrupt := by
    rw [h1, build_mok_list_from_eq, hs]
  exact ⟨hc, by rw [hc]; rfl⟩

theorem build_mok_list_size_check_corrupt_witness :
    build_mok_list ex_bad_size = .corrupt ∧ (build_mok_list ex_bad_size).ptr = none :=
  build_mok_list_size_check_corrupt ex_bad_size 1 ⟨47, 28, [⟨0, 3, 44⟩]⟩
    (by decide) (by decide) (by decide) (by decide)

/-- C6 (as the code behaves). When `build_mok_list` reaches a list whose
`SignatureListSize` field lies in the buffer and is greater than the bytes
remaining, the loop is left and the lists decoded so far are returned: the result
is not the corrupt-data result, and the pointer returned is `NULL` only when no
list was indexed before. -/
theorem build_mok_list_oversize_stops (data : Bytes) (n : Nat) (st : BuildState)
    (hreach : build_mok_list_after data n = some st)
    (hfield : st.CertList + 20 ≤ data.length)
    (hover : st.dbsize < SignatureListSize data st.CertList) :
    build_mok_list data = .done st.list ∧
    ((build_mok_list data).ptr = none ↔ st.list = []) := by
  obtain ⟨h1, h2⟩ := build_mok_list_after_spec data n st hreach
  have hs : build_mok_list_step data st = .ret (.done st.list) := by
    unfold build_mok_list_step
    have hd : st.dbsize ≠ 0 := by omega
    have hi : inb data (st.CertList + 16) 4 = true := by simp [inb]; omega
    simp only [hd, hi, hover, if_false, if_true, Bool.not_true]
    simp
  have hc : build_mok_list data = .done st.list := by
    rw [h1, build_mok_list_from_eq, hs]
  refine ⟨hc, ?_⟩
  rw [hc]
  cases st.list <;> simp [BuildResult.ptr]

theorem build_mok_list_oversize_stops_witness :
    build_mok_list ex_oversize = .done [⟨0, 3, 44⟩] ∧
    ((build_mok_list ex_oversize).ptr = none ↔ [(⟨0, 3, 44⟩ : MokListNode)] = []) :=
  build_mok_list_oversize_stops ex_oversize 1 ⟨47, 28, [⟨0, 3, 44⟩]⟩
    (by decide) (by decide) (by decide)

/-- C6, counterexample. In `ex_oversize` the second list is reached with 28 bytes
remaining and declares `total_size = 1000`; `build_mok_list` does not fail but
returns the index of the first list. -/
theorem build_mok_list_oversize_not_corrupt :
    build_mok_list_after ex_oversize 1 = some ⟨47, 28, [⟨0, 3, 44⟩]⟩ ∧
    SignatureListSize ex_oversize 47 = 1000 ∧
    build_mok_list ex_oversize ≠ .corrupt ∧
    (build_mok_list ex_oversize).ptr = some [⟨0, 3, 44⟩] := by
  decide

/-! ### Pending requests and the paired write -/

/-- C2, the code at the failing input. `in_pending_request` takes both names from
tables indexed by the request itself: for DELETE_MOK it reads `MokDelAuth` and
excises from `MokDel`, for ENROLL_MOK `MokAuth` and `Mok`, while the message of the
caller names `reverse_req_names[req]`. With X pending in `MokNew` and `MokAuth`
not 32 bytes long, a delete-MOK submit of X returns 0 and leaves `MokNew` and
`MokAuth` as they were. -/
theorem in_pending_request_same_queue :
    (MokRequest.DELETE_MOK :: MokRequest.ENROLL_MOK :: MokRequest.DELETE_BLACKLIST ::
        [MokRequest.ENROLL_BLACKLIST]).map (fun req => (authvar_names req, var_names req))
      = [("MokDelAuth", "MokDel"), ("MokAuth", "Mok"), ("MokXDelAuth", "MokXDel"),
         ("MokXAuth", "MokX")] ∧
    reverse_req_names .DELETE_MOK = "MokNew" ∧
    observe ["MokNew", "MokAuth", "MokDel", "MokDelAuth"]
        (in_pending_request Faults.none ex_store_enroll_pending efi_guid_x509_cert
          ex_cert_X .DELETE_MOK)
      = some (0, [some (mok_request_list 3 ex_cert_X), some ex_auth_old, none, none]) ∧
    observe ["MokNew", "MokAuth", "MokDel", "MokDelAuth"]
        (issue_mok_request ex_env Faults.none ex_store_enroll_pending
          [⟨some 3, some ex_cert_X⟩] .DELETE_MOK)
      = some (0, [some (mok_request_list 3 ex_cert_X), some ex_auth_old, none, none]) := by
  decide

/-- C3, the code at the failing input. With an enrolment of X pending (`MokNew` and
`MokAuth` both present), a submit of Y whose `MokAuth` write is forced to fail
returns -1, deletes `MokNew` and leaves the old `MokAuth`: exactly one variable of
the pair exists afterwards. -/
theorem update_request_leaves_stale_auth :
    observe ["MokNew", "MokAuth"]
        (issue_mok_request ex_env ex_faults_auth ex_store_enroll_pending
          [⟨some 3, some ex_cert_Y⟩] .ENROLL_MOK)
      = some (-1, [none, some ex_auth_old]) := by
  decide

theorem Store.put_same (s : Store) (g : Vendor) (n : String) (v : Option Bytes) :
    s.put g n v g n = v := by
  simp [Store.put]

theorem Store.put_other (s : Store) (g g' : Vendor) (n n' : String) (v : Option Bytes)
    (h : ¬ (g' = g ∧ n' = n)) : s.put g n v g' n' = s g' n' := by
  simp only [Store.put, h, if_false]

/-- After `test_and_delete_var` the variable is absent, unless its deletion is made
to fail. -/
theorem test_and_delete_var_absent (f : Faults) (s : Store) (name : String)
    (hdel : f.del .efi_guid_shim name = false) :
    (test_and_delete_var f s name).2 .efi_guid_shim name = none := by
  unfold test_and_delete_var efi_get_variable_size efi_del_variable
  cases hs : s .efi_guid_shim name <;> cases hf : f.size .efi_guid_shim name <;>
    simp [hdel, hs, Store.put]

/-- The variables `test_and_delete_var` is not called for stay as they are. -/
theorem test_and_delete_var_other (f : Faults) (s : Store) (name : String)
    (g : Vendor) (n : String) (h : ¬ (g = .efi_guid_shim ∧ n = name)) :
    (test_and_delete_var f s name).2 g n = s g n := by
  unfold test_and_delete_var efi_get_variable_size efi_del_variable
  cases hs : s .efi_guid_shim name <;> cases hf : f.size .efi_guid_shim name <;>
    cases hd : f.del .efi_guid_shim name <;>
    simp [hs, Store.put_other _ _ _ _ _ _ h]

/-- When the deletion is made to fail, `test_and_delete_var` leaves the store as it
is. -/
theorem test_and_delete_var_del_fails (f : Faults) (s : Store) (name : String)
    (hdel : f.del .efi_guid_shim name = true) :
    (test_and_delete_var f s name).2 = s := by
  unfold test_and_delete_var efi_get_variable_size efi_del_variable
  cases hs : s .efi_guid_shim name <;> cases hf : f.size .efi_guid_shim name <;>
    simp [hdel, hs]

/-- C4 (amended). In `update_request` with a non-`NULL` new list (and a password
step that succeeds): if the write of the data variable succeeds and the write of
the Authorization variable fails, `test_and_delete_var` is run on the data
variable and the result is -1 whatever the deletion does; the store is the one
`test_and_delete_var` leaves, in which the data variable does not exist when the
deletion is not made to fail and still holds the new list when the deletion
fails, and in which the Authorization variable is as before the call; if the
write of the data variable fails, the result is -1 and the store is untouched. -/
theorem update_request_rollback (env : Env) (f : Faults) (s : Store) (data : Bytes)
    (req : MokRequest) (pw_crypt auth : Bytes)
    (hstep : env.auth_step (some data) = some (pw_crypt, auth)) :
    (f.set .efi_guid_shim (req_names req) = false →
     f.set .efi_guid_shim (auth_names req) = true →
       update_request env f s (some data) req =
         (-1, (test_and_delete_var f (s.put .efi_guid_shim (req_names req) (some data))
                 (req_names req)).2) ∧
       (f.del .efi_guid_shim (req_names req) = false →
         (update_request env f s (some data) req).2 .efi_guid_shim (req_names req) = none) ∧
       (f.del .efi_guid_shim (req_names req) = true →
         (update_request env f s (some data) req).2 .efi_guid_shim (req_names req) =
           some data) ∧
       (update_request env f s (some data) req).2 .efi_guid_shim (auth_names req) =
         s .efi_guid_shim (auth_names req)) ∧
    (f.set .efi_guid_shim (req_names req) = true →
       update_request env f s (some data) req = (-1, s)) := by
  have hne : req_names req ≠ auth_names req := by cases req <;> decide
  constructor
  · intro h1 h2
    have hr : update_request env f s (some data) req =
        (-1, (test_and_delete_var f (s.put .efi_guid_shim (req_names req) (some data))
                 (req_names req)).2) := by
      simp [update_request, hstep, efi_set_variable, h1, h2]
    refine ⟨hr, ?_, ?_, ?_⟩
    · intro h3
      rw [hr]
      exact test_and_delete_var_absent f _ _ h3
    · intro h3
      rw [hr]
      simp only
      rw [test_and_delete_var_del_fails f _ _ h3, Store.put_same]
    · rw [hr]
      have hn : ¬ (Vendor.efi_guid_shim = Vendor.efi_guid_shim ∧ auth_names req = req_names req) :=
        fun h => hne h.2.symm
      rw [test_and_delete_var_other f _ _ _ _ hn, Store.put_other _ _ _ _ _ _ hn]
  · intro h1
    simp [update_request, hstep, efi_set_variable, h1]

/-- Witness for C4 (amended): on the empty store, with the write of `MokAuth`
forced to fail the new `MokNew` is deleted again; with the write of `MokNew`
forced to fail nothing changes. -/
theorem update_request_rollback_witness :
    ex_env.auth_step (some ex_x509_list) = some (ex_auth_new, List.replicate 32 0) ∧
    (update_request ex_env ex_faults_auth ex_store_empty (some ex_x509_list) .ENROLL_MOK).1 = -1 ∧
    (update_request ex_env ex_faults_auth ex_store_empty (some ex_x509_list) .ENROLL_MOK).2
        .efi_guid_shim "MokNew" = none ∧
    update_request ex_env ex_faults_data ex_store_empty (some ex_x509_list) .ENROLL_MOK
      = (-1, ex_store_empty) := by
  have h1 := (update_request_rollback ex_env ex_faults_auth ex_store_empty ex_x509_list
    .ENROLL_MOK ex_auth_new (List.replicate 32 0) rfl).1 (by decide) (by decide)
  have h2 := (update_request_rollback ex_env ex_faults_data ex_store_empty ex_x509_list
    .ENROLL_MOK ex_auth_new (List.replicate 32 0) rfl).2 (by decide)
  exact ⟨rfl, by rw [h1.1], h1.2.1 (by decide), h2⟩

/-- C4 (counterexample). On the empty store, with the write of `MokAuth` and the
deletion of `MokNew` both forced to fail, `update_request` writes `MokNew`,
fails to write `MokAuth`, calls `test_and_delete_var`, whose deletion fails and
whose result is not looked at, and returns -1: `MokNew` exists afterwards and
holds the new list, and there is no `MokAuth`. -/
theorem update_request_rollback_deletion_fails :
    (update_request ex_env ex_faults_auth_del ex_store_empty (some ex_x509_list)
      .ENROLL_MOK).1 = -1 ∧
    (update_request ex_env ex_faults_auth_del ex_store_empty (some ex_x509_list)
      .ENROLL_MOK).2 .efi_guid_shim "MokNew" = some ex_x509_list ∧
    (update_request ex_env ex_faults_auth_del ex_store_empty (some ex_x509_list)
      .ENROLL_MOK).2 .efi_guid_shim "MokAuth" = none := by
  decide

/-! ### Lists of unknown type -/

/-- C8, the code at the failing input. For the buffer `ex_unknown_only` (one
size-consistent list of unknown type) the loop of `build_mok_list` ends with an
empty index, `*mok_num = 0`, and the pointer returned is `NULL`, the same pointer
as for corrupt data; `list_keys` returns -1 on it, and `issue_hash_request`, with
this buffer staged in `MokNew`, returns without writing the admissible hash. -/
theorem build_mok_list_unknown_only_null :
    build_mok_list ex_unknown_only = .done [] ∧
    (build_mok_list ex_unknown_only).ptr = BuildResult.corrupt.ptr ∧
    list_keys ex_unknown_only = some (-1) ∧
    is_valid_request Faults.none ex_store_unknown_pending efi_guid_sha256
      (hex_str_to_binary ex_hash_str.toList 32) .ENROLL_MOK = some 1 ∧
    observe ["MokNew", "MokAuth"]
        (issue_hash_request ex_env Faults.none ex_store_unknown_pending ex_hash_str .ENROLL_MOK)
      = some (0, [some ex_unknown_only, some ex_auth_old]) := by
  decide

/-! ### Decoding is relative to the current list -/

theorem SignatureType_drop (data : Bytes) (o k : Nat) :
    SignatureType (data.drop o) k = SignatureType data (o + k) := by
  simp [SignatureType, slice_drop]

theorem SignatureListSize_drop (data : Bytes) (o k : Nat) :
    SignatureListSize (data.drop o) k = SignatureListSize data (o + k) := by
  simp [SignatureListSize, ld32_drop, Nat.add_assoc]

theorem SignatureHeaderSize_drop (data : Bytes) (o k : Nat) :
    SignatureHeaderSize (data.drop o) k = SignatureHeaderSize data (o + k) := by
  simp [SignatureHeaderSize, ld32_drop, Nat.add_assoc]

theorem SignatureSize_drop (data : Bytes) (o k : Nat) :
    SignatureSize (data.drop o) k = SignatureSize data (o + k) := by
  simp [SignatureSize, ld32_drop, Nat.add_assoc]

theorem build_mok_list_node_drop (data : Bytes) (o : Nat) :
    build_mok_list_node data o = (build_mok_list_node (data.drop o) 0).shift o := by
  simp only [build_mok_list_node, SignatureType_drop, SignatureListSize_drop,
    SignatureHeaderSize_drop, SignatureSize_drop, Nat.add_zero]
  split <;> simp [MokListNode.shift] <;> omega

/-- One pass of the loop at offset `o` is the pass at offset 0 of the buffer that
starts at `o`. -/
theorem build_mok_list_step_drop (data : Bytes) (o d : Nat) (acc : List MokListNode) :
    build_mok_list_step data ⟨o, d, acc⟩ =
      (build_mok_list_step (data.drop o) ⟨0, d, []⟩).rebase o acc := by
  have hn := build_mok_list_node_drop data o
  simp only [build_mok_list_step, SignatureType_drop, SignatureListSize_drop,
    SignatureHeaderSize_drop, SignatureSize_drop, Nat.add_zero, inb, List.length_drop, hn,
    MokListNode.shift, Nat.zero_add, sizeof_EFI_SIGNATURE_LIST, sizeof_EFI_SIGNATURE_DATA]
  have e1 : (o + 16 + 4 ≤ data.length) ↔ (16 + 4 ≤ data.length - o) := by omega
  have e2 : (o + 28 > data.length) ↔ (28 > data.length - o) := by omega
  have e3 : (o + 28 + SignatureHeaderSize data o + 17 > data.length) ↔
      (28 + SignatureHeaderSize data o + 17 > data.length - o) := by omega
  have e4 : ((build_mok_list_node (data.drop o) 0).mok_size >
        data.length - ((build_mok_list_node (data.drop o) 0).mok + o)) ↔
      ((build_mok_list_node (data.drop o) 0).mok_size >
        data.length - o - (build_mok_list_node (data.drop o) 0).mok) := by omega
  simp only [e1, e2, e3, e4]
  split_ifs <;> simp [BuildStep.rebase, BuildResult.rebase, MokListNode.shift, Nat.add_comm]

theorem MokListNode.shift_shift (a b : Nat) (node : MokListNode) :
    (node.shift a).shift b = node.shift (a + b) := by
  simp [MokListNode.shift, Nat.add_assoc]

theorem MokListNode.shift_zero (node : MokListNode) : node.shift 0 = node := by
  simp [MokListNode.shift]

theorem BuildResult.rebase_rebase (o c : Nat) (acc l : List MokListNode) (r : BuildResult) :
    (r.rebase c l).rebase o acc = r.rebase (c + o) (acc ++ l.map (MokListNode.shift o)) := by
  cases r <;> simp [BuildResult.rebase, MokListNode.shift_shift, Function.comp_def]

theorem BuildResult.rebase_zero (r : BuildResult) : r.rebase 0 [] = r := by
  have h : MokListNode.shift 0 = id := funext MokListNode.shift_zero
  cases r <;> simp [BuildResult.rebase, h]

/-- A run from offset `o` is the run from offset 0 of the buffer that starts at `o`. -/
theorem build_mok_list_from_drop (d : Nat) :
    ∀ (data : Bytes) (o : Nat) (acc : List MokListNode),
      build_mok_list_from data ⟨o, d, acc⟩ =
        (build_mok_list_from (data.drop o) ⟨0, d, []⟩).rebase o acc := by
  induction d using Nat.strong_induction_on with
  | _ d ih =>
    intro data o acc
    rw [build_mok_list_from_eq data, build_mok_list_from_eq (data.drop o),
      build_mok_list_step_drop data o d acc]
    cases hs : build_mok_list_step (data.drop o) ⟨0, d, []⟩ with
    | ret r => simp [BuildStep.rebase]
    | next st1 =>
      have hn := build_mok_list_step_next _ _ _ hs
      obtain ⟨c, d1, l⟩ := st1
      simp only [BuildStep.rebase]
      simp only at hn
      rw [ih d1 (by omega) data (c + o), ih d1 (by omega) (data.drop o) c l,
        BuildResult.rebase_rebase, List.drop_drop]
      congr 3
      omega

/-! ### A list that lies within its own bytes -/

theorem SignatureType_append (b R : Bytes) (h : 28 ≤ b.length) :
    SignatureType (b ++ R) 0 = SignatureType b 0 := by
  unfold SignatureType
  exact slice_append_left b R 0 16 (by omega)

theorem SignatureListSize_append (b R : Bytes) (h : 28 ≤ b.length) :
    SignatureListSize (b ++ R) 0 = SignatureListSize b 0 := by
  unfold SignatureListSize ld32
  rw [slice_append_left b R (0 + 16) 4 (by omega)]

theorem SignatureHeaderSize_append (b R : Bytes) (h : 28 ≤ b.length) :
    SignatureHeaderSize (b ++ R) 0 = SignatureHeaderSize b 0 := by
  unfold SignatureHeaderSize ld32
  rw [slice_append_left b R (0 + 20) 4 (by omega)]

theorem SignatureSize_append (b R : Bytes) (h : 28 ≤ b.length) :
    SignatureSize (b ++ R) 0 = SignatureSize b 0 := by
  unfold SignatureSize ld32
  rw [slice_append_left b R (0 + 24) 4 (by omega)]

theorem build_mok_list_node_append (b R : Bytes) (h : 28 ≤ b.length) :
    build_mok_list_node (b ++ R) 0 = build_mok_list_node b 0 := by
  simp only [build_mok_list_node, SignatureType_append b R h, SignatureListSize_append b R h,
    SignatureHeaderSize_append b R h, SignatureSize_append b R h]

/-- The nodes a pass indexes for a list that lies within its own bytes. -/
theorem build_mok_list_node_within (b : Bytes)
    (hL : b.length = SignatureListSize b 0)
    (hfit : 28 + SignatureHeaderSize b 0 + SignatureSize b 0 ≤ b.length)
    (hS : 16 < SignatureSize b 0) :
    (build_mok_list_node b 0).header = 0 ∧
    (build_mok_list_node b 0).mok + (build_mok_list_node b 0).mok_size ≤ b.length := by
  have h1 := ld32_lt b (0 + 16)
  have h2 := ld32_lt b (0 + 24)
  unfold build_mok_list_node
  simp only [sizeof_EFI_SIGNATURE_LIST, sizeof_efi_guid_t]
  simp only [SignatureListSize, SignatureSize] at hL hfit hS
  split
  · refine ⟨rfl, ?_⟩
    simp only [SignatureListSize, SignatureSize]
    omega
  · refine ⟨rfl, ?_⟩
    simp only [SignatureListSize, SignatureSize]
    omega

/-- A pass over a list that lies within its own bytes does not depend on what
follows the list. -/
theorem build_mok_list_step_append (b R : Bytes)
    (hL : b.length = SignatureListSize b 0)
    (hfit : 28 + SignatureHeaderSize b 0 + SignatureSize b 0 ≤ b.length) :
    build_mok_list_step (b ++ R) ⟨0, b.length + R.length, []⟩ =
      (build_mok_list_step b ⟨0, b.length, []⟩).extend R.length := by
  have h28 : 28 ≤ b.length := by omega
  have hw := build_mok_list_node_within b hL hfit
  simp only [build_mok_list_step, SignatureType_append b R h28, SignatureListSize_append b R h28,
    SignatureHeaderSize_append b R h28, SignatureSize_append b R h28,
    build_mok_list_node_append b R h28, inb, List.length_append,
    sizeof_EFI_SIGNATURE_LIST, sizeof_EFI_SIGNATURE_DATA, sizeof_efi_guid_t,
    Nat.zero_add] at hw ⊢
  have hl2 := ld32_lt b (0 + 16)
  have hs2 := ld32_lt b (0 + 24)
  have c1 : ¬ (b.length + R.length = 0) := by omega
  have c1' : ¬ (b.length = 0) := by omega
  have c2 : (16 + 4 ≤ b.length + R.length) := by omega
  have c2' : (16 + 4 ≤ b.length) := by omega
  have c3 : ¬ (b.length + R.length < SignatureListSize b 0) := by omega
  have c3' : ¬ (b.length < SignatureListSize b 0) := by omega
  have c4 : ¬ (28 > b.length + R.length ∨ SignatureListSize b 0 = 0 ∨
      SignatureListSize b 0 ≤ SignatureSize b 0) := by omega
  have c4' : ¬ (28 > b.length ∨ SignatureListSize b 0 = 0 ∨
      SignatureListSize b 0 ≤ SignatureSize b 0) := by omega
  simp only [c1, c1', c2, c2', c3, c3', c4, c4', if_false, decide_True, Bool.not_true,
    Bool.false_eq_true]
  have hd : b.length + R.length - SignatureListSize b 0 =
      b.length - SignatureListSize b 0 + R.length := by omega
  by_cases k : (!known_type (SignatureType b 0)) = true
  · rw [if_pos k, if_pos k]
    simp only [BuildStep.extend, hd]
  · rw [if_neg k, if_neg k]
    by_cases k2 : (!efi_guid_eq (SignatureType b 0) efi_guid_x509_cert) = true ∧
        SignatureSize b 0 ≠ signature_size (SignatureType b 0)
    · rw [if_pos k2, if_pos k2]
      simp only [BuildStep.extend, hd]
    · rw [if_neg k2, if_neg k2]
      by_cases k3 : SignatureSize b 0 ≤ 16
      · simp only [k3, or_true, if_true, BuildStep.extend]
      · have hw' := hw (by omega)
        have c7 : ¬ (28 + SignatureHeaderSize b 0 + 17 > b.length + R.length ∨
            SignatureSize b 0 ≤ 16) := by omega
        have c7' : ¬ (28 + SignatureHeaderSize b 0 + 17 > b.length ∨
            SignatureSize b 0 ≤ 16) := by omega
        have c8 : ¬ ((build_mok_list_node b 0).mok_size >
            b.length + R.length - (build_mok_list_node b 0).mok) := by omega
        have c8' : ¬ ((build_mok_list_node b 0).mok_size >
            b.length - (build_mok_list_node b 0).mok) := by omega
        simp only [c7, c7', c8, c8', if_false, BuildStep.extend, hd]

/-- The possible outcomes of a pass over a list that lies within its own bytes. -/
theorem build_mok_list_step_block (b : Bytes)
    (hL : b.length = SignatureListSize b 0)
    (hfit : 28 + SignatureHeaderSize b 0 + SignatureSize b 0 ≤ b.length) :
    (SignatureSize b 0 ≤ 16 ∧ build_mok_list_step b ⟨0, b.length, []⟩ = .ret .corrupt) ∨
    build_mok_list_step b ⟨0, b.length, []⟩ = .next ⟨b.length, 0, []⟩ ∨
    (16 < SignatureSize b 0 ∧
      build_mok_list_step b ⟨0, b.length, []⟩ = .next ⟨b.length, 0, [build_mok_list_node b 0]⟩) := by
  have hw := build_mok_list_node_within b hL hfit
  have hl2 := ld32_lt b (0 + 16)
  have hs2 := ld32_lt b (0 + 24)
  simp only [build_mok_list_step, inb, sizeof_EFI_SIGNATURE_LIST, sizeof_EFI_SIGNATURE_DATA,
    sizeof_efi_guid_t, Nat.zero_add]
  have c1' : ¬ (b.length = 0) := by omega
  have c2' : (16 + 4 ≤ b.length) := by omega
  have c3' : ¬ (b.length < SignatureListSize b 0) := by omega
  have c4' : ¬ (28 > b.length ∨ SignatureListSize b 0 = 0 ∨
      SignatureListSize b 0 ≤ SignatureSize b 0) := by omega
  simp only [c1', c2', c3', c4', if_false, decide_True, Bool.not_true, Bool.false_eq_true]
  have hd : b.length - SignatureListSize b 0 = 0 := by omega
  rw [hd, ← hL]
  by_cases k : (!known_type (SignatureType b 0)) = true
  · rw [if_pos k]; right; left; rfl
  · rw [if_neg k]
    by_cases k2 : (!efi_guid_eq (SignatureType b 0) efi_guid_x509_cert) = true ∧
        SignatureSize b 0 ≠ signature_size (SignatureType b 0)
    · rw [if_pos k2]; right; left; rfl
    · rw [if_neg k2]
      by_cases k3 : SignatureSize b 0 ≤ 16
      · left
        simp only [k3, or_true, if_true, and_self]
      · have hw' := hw (by omega)
        have c7' : ¬ (28 + SignatureHeaderSize b 0 + 17 > b.length ∨
            SignatureSize b 0 ≤ 16) := by omega
        have c8' : ¬ ((build_mok_list_node b 0).mok_size >
            b.length - (build_mok_list_node b 0).mok) := by omega
        right; right
        refine ⟨by omega, ?_⟩
        simp only [c7', c8', if_false, List.nil_append]

/-- Decoding a buffer that starts with a list lying within its own bytes: the nodes
of that list, then the decoding of the rest. -/
theorem build_mok_list_block (b R : Bytes)
    (hL : b.length = SignatureListSize b 0)
    (hfit : 28 + SignatureHeaderSize b 0 + SignatureSize b 0 ≤ b.length) :
    build_mok_list (b ++ R) =
      match block_index b with
      | none => .corrupt
      | some l => (build_mok_list R).rebase b.length l := by
  have hstep := build_mok_list_step_append b R hL hfit
  rw [build_mok_list_eq_from, build_mok_list_from_eq, List.length_append, hstep]
  unfold block_index
  rcases build_mok_list_step_block b hL hfit with ⟨_, h⟩ | h | ⟨_, h⟩
  · rw [h]; rfl
  · rw [h]
    simp only [BuildStep.extend, Nat.zero_add]
    rw [build_mok_list_from_drop, List.drop_left, build_mok_list_eq_from]
  · rw [h]
    simp only [BuildStep.extend, Nat.zero_add]
    rw [build_mok_list_from_drop, List.drop_left, build_mok_list_eq_from]

theorem node_view_shift (A B : Bytes) (node : MokListNode) :
    node_view (A ++ B) (node.shift A.length) = node_view B node := by
  simp only [node_view, MokListNode.shift, SignatureType]
  rw [Nat.add_comm node.header, Nat.add_comm node.mok, slice_append_right, slice_append_right]

theorem node_view_append (b R : Bytes) (node : MokListNode)
    (h1 : node.header + 16 ≤ b.length) (h2 : node.mok + node.mok_size ≤ b.length) :
    node_view (b ++ R) node = node_view b node := by
  simp only [node_view, SignatureType]
  rw [slice_append_left b R _ _ h1, slice_append_left b R _ _ h2]

theorem BuildResult.view_rebase (A B : Bytes) (l : List MokListNode) (r : BuildResult) :
    (r.rebase A.length l).view (A ++ B) = (r.view B).after (l.map (node_view (A ++ B))) := by
  cases r <;> simp [BuildResult.rebase, BuildResult.view, IndexView.after, Function.comp_def,
    node_view_shift]

/-- The nodes indexed for a list that lies within its own bytes denote bytes of
that list. -/
theorem block_index_view (b R : Bytes) (l : List MokListNode)
    (hL : b.length = SignatureListSize b 0)
    (hfit : 28 + SignatureHeaderSize b 0 + SignatureSize b 0 ≤ b.length)
    (hl : block_index b = some l) :
    l.map (node_view (b ++ R)) = l.map (node_view b) := by
  unfold block_index at hl
  rcases build_mok_list_step_block b hL hfit with ⟨_, h⟩ | h | ⟨hS, h⟩
  · rw [h] at hl; simp at hl
  · rw [h] at hl
    simp only [Option.some.injEq] at hl
    subst hl; rfl
  · rw [h] at hl
    simp only [Option.some.injEq] at hl
    subst hl
    have hw := build_mok_list_node_within b hL hfit hS
    simp only [List.map_cons, List.map_nil, List.cons.injEq, and_true]
    exact node_view_append b R _ (by omega) hw.2

/-- What decoding denotes for a buffer that starts with a list lying within its
own bytes. -/
theorem build_mok_list_block_view (b R : Bytes)
    (hL : b.length = SignatureListSize b 0)
    (hfit : 28 + SignatureHeaderSize b 0 + SignatureSize b 0 ≤ b.length) :
    (build_mok_list (b ++ R)).view (b ++ R) =
      match block_index b with
      | none => .corrupt
      | some l => ((build_mok_list R).view R).after (l.map (node_view b)) := by
  rw [build_mok_list_block b R hL hfit]
  cases hl : block_index b with
  | none => rfl
  | some l =>
    simp only
    rw [BuildResult.view_rebase, block_index_view b R l hL hfit hl]

theorem IndexView.after_nil (v : IndexView) : v.after [] = v := by
  cases v <;> simp [IndexView.after]

/-- The pass of the loop over a list that passes the size checks and is of a type
that is not indexed: nothing is added and the loop moves on by the size of the
list. -/
theorem build_mok_list_step_skip (skip post : Bytes)
    (hlen : skip.length = SignatureListSize (skip ++ post) 0)
    (hpos : 0 < skip.length)
    (hhdr : 28 ≤ skip.length + post.length)
    (hsz : SignatureSize (skip ++ post) 0 < skip.length)
    (htype : known_type (SignatureType (skip ++ post) 0) = false ∨
      (efi_guid_eq (SignatureType (skip ++ post) 0) efi_guid_x509_cert = false ∧
        SignatureSize (skip ++ post) 0 ≠ signature_size (SignatureType (skip ++ post) 0))) :
    build_mok_list_step (skip ++ post) ⟨0, skip.length + post.length, []⟩ =
      .next ⟨skip.length, post.length, []⟩ := by
  simp only [build_mok_list_step, inb, sizeof_EFI_SIGNATURE_LIST, Nat.zero_add,
    List.length_append]
  have c1 : ¬ (skip.length + post.length = 0) := by omega
  have c2 : (16 + 4 ≤ skip.length + post.length) := by omega
  have c3 : ¬ (skip.length + post.length < SignatureListSize (skip ++ post) 0) := by omega
  have c4 : ¬ (28 > skip.length + post.length ∨ SignatureListSize (skip ++ post) 0 = 0 ∨
      SignatureListSize (skip ++ post) 0 ≤ SignatureSize (skip ++ post) 0) := by omega
  simp only [c1, c2, c3, c4, if_false, decide_True, Bool.not_true, Bool.false_eq_true]
  have hd : skip.length + post.length - SignatureListSize (skip ++ post) 0 = post.length := by
    omega
  rw [hd, ← hlen]
  rcases htype with h | ⟨h1, h2⟩
  · simp [h]
  · by_cases k : known_type (SignatureType (skip ++ post) 0) = true
    · simp [k, h1, h2]
    · simp [k]

/-- C7 (as the code behaves). A list that passes the size checks but whose type is
not one of the six known GUIDs, or is a digest type with `SignatureSize` different
from `signature_size (type)`, is skipped without error: the pass adds no node and
the loop resumes `SignatureListSize` bytes later. When every list in front of it
lies within its own bytes (`28 + SignatureHeaderSize + SignatureSize <=
SignatureListSize`, the list being `SignatureListSize` bytes long), decoding
denotes the same (corrupt data, or the same entries in count, order, type, length
and contents) as for the buffer without the bytes of the skipped list. -/
theorem build_mok_list_skipped_list (blocks : List Bytes) (skip post : Bytes)
    (hblocks : ∀ b ∈ blocks, b.length = SignatureListSize b 0 ∧
      28 + SignatureHeaderSize b 0 + SignatureSize b 0 ≤ b.length)
    (hlen : skip.length = SignatureListSize (skip ++ post) 0)
    (hpos : 0 < skip.length)
    (hhdr : 28 ≤ skip.length + post.length)
    (hsz : SignatureSize (skip ++ post) 0 < skip.length)
    (htype : known_type (SignatureType (skip ++ post) 0) = false ∨
      (efi_guid_eq (SignatureType (skip ++ post) 0) efi_guid_x509_cert = false ∧
        SignatureSize (skip ++ post) 0 ≠ signature_size (SignatureType (skip ++ post) 0))) :
    (∀ acc, build_mok_list_step (blocks.flatten ++ (skip ++ post))
        ⟨blocks.flatten.length, skip.length + post.length, acc⟩ =
      .next ⟨blocks.flatten.length + skip.length, post.length, acc⟩) ∧
    (build_mok_list (blocks.flatten ++ (skip ++ post))).view (blocks.flatten ++ (skip ++ post)) =
      (build_mok_list (blocks.flatten ++ post)).view (blocks.flatten ++ post) := by
  have hstep := build_mok_list_step_skip skip post hlen hpos hhdr hsz htype
  constructor
  · intro acc
    rw [build_mok_list_step_drop, List.drop_left, hstep]
    simp [BuildStep.rebase, Nat.add_comm]
  · induction blocks with
    | nil =>
      simp only [List.flatten_nil, List.nil_append]
      rw [build_mok_list_eq_from, build_mok_list_from_eq, List.length_append, hstep]
      simp only
      rw [build_mok_list_from_drop, List.drop_left, BuildResult.view_rebase]
      simp only [List.map_nil, IndexView.after_nil]
      rfl
    | cons b bs ih =>
      have hb := hblocks b (List.mem_cons_self _ _)
      have ih' := ih (fun x hx => hblocks x (List.mem_cons_of_mem _ hx))
      simp only [List.flatten_cons, List.append_assoc]
      rw [build_mok_list_block_view b _ hb.1 hb.2, build_mok_list_block_view b _ hb.1 hb.2, ih']

theorem build_mok_list_skipped_list_witness :
    (∀ acc, build_mok_list_step ([ex_x509_list].flatten ++ (ex_unknown_only ++ ex_x509_list))
        ⟨[ex_x509_list].flatten.length, ex_unknown_only.length + ex_x509_list.length, acc⟩ =
      .next ⟨[ex_x509_list].flatten.length + ex_unknown_only.length, ex_x509_list.length, acc⟩) ∧
    (build_mok_list ([ex_x509_list].flatten ++ (ex_unknown_only ++ ex_x509_list))).view
        ([ex_x509_list].flatten ++ (ex_unknown_only ++ ex_x509_list)) =
      (build_mok_list ([ex_x509_list].flatten ++ ex_x509_list)).view
        ([ex_x509_list].flatten ++ ex_x509_list) :=
  build_mok_list_skipped_list [ex_x509_list] ex_unknown_only ex_x509_list
    (by decide) (by decide) (by decide) (by decide) (by decide) (by decide)

/-- C7, counterexample. In `ex_overrun ++ ex_unknown_only` the second list passes
the size checks and is of unknown type. With it the first list is indexed (its
certificate bytes run into the second list); without it decoding fails. -/
theorem build_mok_list_skipped_list_matters :
    known_type (SignatureType (ex_overrun ++ ex_unknown_only) 45) = false ∧
    build_mok_list_after (ex_overrun ++ ex_unknown_only) 2 = some ⟨74, 0, [⟨0, 3, 44⟩]⟩ ∧
    (build_mok_list (ex_overrun ++ ex_unknown_only)).view (ex_overrun ++ ex_unknown_only) =
      .done [(efi_guid_x509_cert, 3, [0x30, 0xff, 0xff])] ∧
    (build_mok_list ex_overrun).view ex_overrun = .corrupt := by
  decide

/-! ### The index -/

theorem known_type_iff (t : Guid) :
    known_type t = true ↔ (t = efi_guid_x509_cert ∨ t ∈ digest_types) := by
  simp [known_type, efi_guid_eq, digest_types, or_assoc]

theorem signature_size_digest (t : Guid) (h : t ∈ digest_types) :
    signature_size t = efi_hash_size t + 16 ∧ efi_hash_size t ≠ 0 ∧ t ≠ efi_guid_x509_cert := by
  simp only [digest_types, List.mem_cons, List.mem_singleton, List.not_mem_nil, or_false] at h
  rcases h with rfl | rfl | rfl | rfl | rfl <;> decide

theorem build_mok_list_node_eq (data : Bytes) (o : Nat) (h : 16 < SignatureSize data o) :
    build_mok_list_node data o = index_entry data o := by
  have h1 := ld32_lt data (o + 16)
  have h2 := ld32_lt data (o + 20)
  have h3 := ld32_lt data (o + 24)
  simp only [build_mok_list_node, index_entry, efi_guid_eq, decide_eq_true_eq,
    sizeof_EFI_SIGNATURE_LIST, sizeof_efi_guid_t, u32]
  simp only [SignatureListSize, SignatureHeaderSize, SignatureSize] at h ⊢
  split
  · congr 1
    omega
  · congr 1
    omega

theorem index_entry_mok_le (data : Bytes) (o : Nat) :
    (index_entry data o).mok ≤ o + 28 + SignatureHeaderSize data o + 16 := by
  unfold index_entry
  split <;> simp

/-- A pass of the loop that leaves the loop returns the index built so far. -/
theorem build_mok_list_step_done (data : Bytes) (st : BuildState) (nodes : List MokListNode)
    (h : build_mok_list_step data st = .ret (.done nodes)) :
    nodes = st.list ∧ (st.dbsize = 0 ∨ st.dbsize < SignatureListSize data st.CertList) := by
  unfold build_mok_list_step at h
  simp only [sizeof_EFI_SIGNATURE_LIST] at h
  split_ifs at h with h1 h2 h3 h4 h5 h6 h7 h8
  all_goals first
    | (cases h; exact ⟨rfl, by omega⟩)
    | (cases h)

/-- What a pass of the loop that continues appends to the index. -/
theorem build_mok_list_step_list (data : Bytes) (st st' : BuildState)
    (h : build_mok_list_step data st = .next st') :
    st'.list = st.list ++
      (if list_supported data st.CertList then [index_entry data st.CertList] else []) ∧
    (list_supported data st.CertList = true → entry_checked data st.CertList) := by
  unfold build_mok_list_step at h
  simp only [sizeof_EFI_SIGNATURE_LIST, sizeof_EFI_SIGNATURE_DATA, sizeof_efi_guid_t] at h
  split_ifs at h with h1 h2 h3 h4 h5 h6 h7 h8
  · cases h
    have hk : ¬ known_type (SignatureType data st.CertList) = true := by simpa using h5
    rw [known_type_iff] at hk
    have hs : list_supported data st.CertList = false := by
      simp only [list_supported, Bool.or_eq_false_iff, Bool.and_eq_false_iff,
        decide_eq_false_iff_not]
      exact ⟨fun e => hk (Or.inl e), Or.inl (fun e => hk (Or.inr e))⟩
    simp [hs]
  · cases h
    have hx : ¬ SignatureType data st.CertList = efi_guid_x509_cert := by
      simpa [efi_guid_eq] using h6.1
    have hs : list_supported data st.CertList = false := by
      simp only [list_supported, Bool.or_eq_false_iff, Bool.and_eq_false_iff,
        decide_eq_false_iff_not]
      refine ⟨hx, ?_⟩
      by_cases hm : SignatureType data st.CertList ∈ digest_types
      · right
        rw [← (signature_size_digest _ hm).1]
        exact h6.2
      · left; exact hm
    simp [hs]
  · cases h
    have hk : known_type (SignatureType data st.CertList) = true := by simpa using h5
    rw [known_type_iff] at hk
    have hS : 16 < SignatureSize data st.CertList := by omega
    have hs : list_supported data st.CertList = true := by
      simp only [list_supported, Bool.or_eq_true, Bool.and_eq_true, decide_eq_true_eq]
      rcases hk with hk | hk
      · left; exact hk
      · right
        refine ⟨hk, ?_⟩
        have hd := signature_size_digest _ hk
        rw [← hd.1]
        by_contra hne
        exact h6 ⟨by simp [efi_guid_eq, hd.2.2], hne⟩
    rw [build_mok_list_node_eq data _ hS] at h8 ⊢
    have hm := index_entry_mok_le data st.CertList
    refine ⟨by simp [hs], fun _ => ⟨by omega, hS, by omega, by omega⟩⟩

theorem build_mok_list_loop_index (data : Bytes) :
    ∀ (fuel : Nat) (st : BuildState) (nodes : List MokListNode),
      st.CertList + st.dbsize = data.length →
      build_mok_list_loop data fuel st = .done nodes →
      nodes = st.list ++
        ((list_offsets data fuel st.CertList).filter (list_supported data)).map
          (index_entry data) ∧
      ∀ o ∈ (list_offsets data fuel st.CertList).filter (list_supported data),
        entry_checked data o := by
  intro fuel
  induction fuel with
  | zero => intro st nodes _ h; simp [build_mok_list_loop] at h
  | succ fuel ih =>
    intro st nodes hinv h
    simp only [build_mok_list_loop] at h
    cases hs : build_mok_list_step data st with
    | ret r =>
      rw [hs] at h
      simp only at h
      subst h
      obtain ⟨e1, e2⟩ := build_mok_list_step_done data st nodes hs
      have hoff : list_offsets data (fuel + 1) st.CertList = [] := by
        simp only [list_offsets]
        rw [if_neg]
        omega
      rw [hoff, e1]
      simp
    | next st' =>
      rw [hs] at h
      simp only at h
      have hn := build_mok_list_step_next data st st' hs
      have hl := build_mok_list_step_list data st st' hs
      have hoff : list_offsets data (fuel + 1) st.CertList =
          st.CertList :: list_offsets data fuel st'.CertList := by
        simp only [list_offsets]
        rw [if_pos (by omega), hn.2.2.2.1]
      obtain ⟨e1, e2⟩ := ih st' nodes (by omega) h
      rw [hoff, e1, hl.1]
      by_cases hsup : list_supported data st.CertList = true
      · simp only [hsup, if_true, List.filter_cons_of_pos, List.map_cons, List.append_assoc,
          List.singleton_append, true_and]
        intro o ho
        simp only [List.mem_cons] at ho
        rcases ho with rfl | ho
        · exact hl.2 hsup
        · exact e2 o ho
      · simp only [hsup, if_false, List.append_nil, List.filter_cons_of_neg,
          Bool.false_eq_true, not_false_eq_true, true_and]
        exact e2

/-- C9. For every buffer that `build_mok_list` accepts, the index is the one the
specification describes: one node per supported list, in buffer order, the lists
being found by stepping `SignatureListSize` bytes from list to list; the node of an
X509 list at offset `o` is the range that starts at `o + 28 + SignatureHeaderSize
+ 16` and is `SignatureSize - 16` bytes long, the node of a hash list the range
that starts at `o + 28 + SignatureHeaderSize` and is `SignatureListSize - 28 -
SignatureHeaderSize` bytes long (as a `uint32_t`; for a buffer shorter than 2^32
bytes this is the plain difference), and `header` is `o`. Every range lies in
the buffer. -/
theorem build_mok_list_index (data : Bytes) (nodes : List MokListNode)
    (h : build_mok_list data = .done nodes) :
    nodes = index_of data ∧
    ∀ o ∈ (list_offsets data (data.length + 1) 0).filter (list_supported data),
      (index_entry data o).header = o ∧
      (index_entry data o).mok + (index_entry data o).mok_size ≤ data.length ∧
      (data.length < 4294967296 → SignatureType data o ≠ efi_guid_x509_cert →
        28 + SignatureHeaderSize data o ≤ SignatureListSize data o ∧
        (index_entry data o).mok_size =
          SignatureListSize data o - 28 - SignatureHeaderSize data o) := by
  obtain ⟨e1, e2⟩ := build_mok_list_loop_index data (data.length + 1) ⟨0, data.length, []⟩ nodes
    (by simp) h
  refine ⟨by simpa [index_of] using e1, ?_⟩
  intro o ho
  obtain ⟨c1, c2, c3, c4⟩ := e2 o ho
  refine ⟨by unfold index_entry; split <;> rfl, c4, ?_⟩
  intro hlen hx
  have h1 := ld32_lt data (o + 16)
  have h2 := ld32_lt data (o + 20)
  simp only [index_entry, hx, if_false, u32] at c4 ⊢
  simp only [SignatureListSize, SignatureHeaderSize] at c1 c4 ⊢
  omega

theorem build_mok_list_index_witness :
    [(⟨0, 3, 44⟩ : MokListNode), ⟨76, 48, 104⟩] = index_of ex_three_lists ∧
    ∀ o ∈ (list_offsets ex_three_lists (ex_three_lists.length + 1) 0).filter
        (list_supported ex_three_lists),
      (index_entry ex_three_lists o).header = o ∧
      (index_entry ex_three_lists o).mok + (index_entry ex_three_lists o).mok_size
        ≤ ex_three_lists.length ∧
      (ex_three_lists.length < 4294967296 →
        SignatureType ex_three_lists o ≠ efi_guid_x509_cert →
        28 + SignatureHeaderSize ex_three_lists o ≤ SignatureListSize ex_three_lists o ∧
        (index_entry ex_three_lists o).mok_size =
          SignatureListSize ex_three_lists o - 28 - SignatureHeaderSize ex_three_lists o) :=
  build_mok_list_index ex_three_lists [⟨0, 3, 44⟩, ⟨76, 48, 104⟩] (by decide)

/-! ### Lists as the program writes them -/

theorem enc32_length (v : Nat) : (enc32 v).length = 4 := rfl

theorem list_header_length (t : Guid) (L H S : Nat) (ht : t.length = 16) :
    (list_header t L H S).length = 28 := by
  simp [list_header, enc32_length, ht]

theorem ld32_enc32_at (A B : Bytes) (v : Nat) :
    ld32 (A ++ enc32 v ++ B) A.length = v % 4294967296 := by
  unfold ld32
  rw [List.append_assoc]
  have h := slice_append_right A (enc32 v ++ B) 0 4
  rw [Nat.add_zero] at h
  rw [h, slice_append_left (enc32 v) B 0 4 (by simp [enc32_length])]
  have : slice (enc32 v) 0 4 = enc32 v := by simp [slice, enc32]
  rw [this, le_val_enc32]

theorem list_header_fields (t : Guid) (L H S : Nat) (rest : Bytes) (ht : t.length = 16) :
    SignatureType (list_header t L H S ++ rest) 0 = t ∧
    SignatureListSize (list_header t L H S ++ rest) 0 = L % 4294967296 ∧
    SignatureHeaderSize (list_header t L H S ++ rest) 0 = H % 4294967296 ∧
    SignatureSize (list_header t L H S ++ rest) 0 = S % 4294967296 := by
  refine ⟨?_, ?_, ?_, ?_⟩
  · unfold SignatureType list_header
    simp only [List.append_assoc]
    rw [slice_append_left t _ 0 16 (by omega)]
    simp [slice, ← ht]
  · have h := ld32_enc32_at t (enc32 H ++ enc32 S ++ rest) L
    simp only [SignatureListSize, list_header, List.append_assoc, Nat.zero_add] at h ⊢
    rw [ht] at h
    exact h
  · have h := ld32_enc32_at (t ++ enc32 L) (enc32 S ++ rest) H
    simp only [SignatureHeaderSize, list_header, List.append_assoc, Nat.zero_add,
      List.length_append, enc32_length, ht] at h ⊢
    exact h
  · have h := ld32_enc32_at (t ++ enc32 L ++ enc32 H) rest S
    simp only [SignatureSize, list_header, List.append_assoc, Nat.zero_add,
      List.length_append, enc32_length, ht] at h ⊢
    exact h

/-- A supported list that lies within its own bytes is indexed by its entry. -/
theorem block_index_supported (b : Bytes)
    (hL : b.length = SignatureListSize b 0)
    (hfit : 28 + SignatureHeaderSize b 0 + SignatureSize b 0 ≤ b.length)
    (hS : 16 < SignatureSize b 0)
    (hsup : list_supported b 0 = true) :
    block_index b = some [index_entry b 0] := by
  unfold block_index
  rcases build_mok_list_step_block b hL hfit with ⟨h0, _⟩ | h | ⟨_, h⟩
  · omega
  · have hl := (build_mok_list_step_list b _ _ h).1
    simp [hsup] at hl
  · have hl := (build_mok_list_step_list b _ _ h).1
    simp only [hsup, if_true, List.nil_append] at hl
    rw [h, ← hl]

theorem mok_request_list_eq (n : Nat) (c : Bytes) :
    mok_request_list n c =
      list_header efi_guid_x509_cert (n + 44) 0 (n + 16) ++ (efi_guid_shim_bytes ++ c) := by
  simp [mok_request_list, list_header, sizeof_EFI_SIGNATURE_LIST, sizeof_EFI_SIGNATURE_DATA,
    sizeof_efi_guid_t]

/-- The list `issue_mok_request` writes for a certificate decodes to that
certificate. -/
theorem mok_request_list_block (c : Bytes) (hpos : c ≠ []) (hsz : c.length + 44 < 4294967296) :
    (mok_request_list c.length c).length = SignatureListSize (mok_request_list c.length c) 0 ∧
    28 + SignatureHeaderSize (mok_request_list c.length c) 0
      + SignatureSize (mok_request_list c.length c) 0 ≤ (mok_request_list c.length c).length ∧
    block_index (mok_request_list c.length c) = some [⟨0, c.length, 44⟩] ∧
    node_view (mok_request_list c.length c) ⟨0, c.length, 44⟩ =
      (efi_guid_x509_cert, c.length, c) := by
  have hc : 0 < c.length := List.length_pos.mpr hpos
  have hf := list_header_fields efi_guid_x509_cert (c.length + 44) 0 (c.length + 16)
    (efi_guid_shim_bytes ++ c) rfl
  have hlen : (mok_request_list c.length c).length = c.length + 44 := by
    rw [mok_request_list_eq, List.length_append,
      list_header_length efi_guid_x509_cert _ _ _ rfl]
    simp [efi_guid_shim_bytes]; omega
  rw [← mok_request_list_eq] at hf
  obtain ⟨f1, f2, f3, f4⟩ := hf
  have f2' : SignatureListSize (mok_request_list c.length c) 0 = c.length + 44 := by
    rw [f2]; omega
  have f3' : SignatureHeaderSize (mok_request_list c.length c) 0 = 0 := by rw [f3]
  have f4' : SignatureSize (mok_request_list c.length c) 0 = c.length + 16 := by
    rw [f4]; omega
  have hL : (mok_request_list c.length c).length =
      SignatureListSize (mok_request_list c.length c) 0 := by rw [hlen, f2']
  have hfit : 28 + SignatureHeaderSize (mok_request_list c.length c) 0
      + SignatureSize (mok_request_list c.length c) 0 ≤ (mok_request_list c.length c).length := by
    rw [f3', f4', hlen]; omega
  refine ⟨hL, hfit, ?_, ?_⟩
  · rw [block_index_supported _ hL hfit (by rw [f4']; omega)
      (by simp [list_supported, f1])]
    simp only [index_entry, f1, if_true, f3', f4']
    congr 2
  · simp only [node_view, f1]
    congr 2
    have h44 : (list_header efi_guid_x509_cert (c.length + 44) 0 (c.length + 16)
        ++ efi_guid_shim_bytes).length = 44 := by
      rw [List.length_append, list_header_length efi_guid_x509_cert _ _ _ rfl]; rfl
    rw [mok_request_list_eq, ← List.append_assoc]
    have h := slice_append_right (list_header efi_guid_x509_cert (c.length + 44) 0 (c.length + 16)
        ++ efi_guid_shim_bytes) c 0 c.length
    rw [h44] at h
    rw [h]
    simp [slice]

theorem build_mok_list_nil : build_mok_list [] = .done [] := rfl

theorem digest_types_facts (t : Guid) (h : t ∈ digest_types) :
    t.length = 16 ∧ 20 ≤ efi_hash_size t ∧ efi_hash_size t ≤ 64 := by
  simp only [digest_types, List.mem_cons, List.mem_singleton, List.not_mem_nil, or_false] at h
  rcases h with rfl | rfl | rfl | rfl | rfl <;> decide

theorem hash_list_length (t : Guid) (E : Bytes) (ht : t ∈ digest_types) :
    (hash_list t E).length = 28 + E.length := by
  unfold hash_list
  rw [List.length_append, list_header_length _ _ _ _ (digest_types_facts t ht).1]

theorem hash_list_fields (t : Guid) (E : Bytes) (ht : t ∈ digest_types) :
    SignatureType (hash_list t E) 0 = t ∧
    SignatureListSize (hash_list t E) 0 = (28 + E.length) % 4294967296 ∧
    SignatureHeaderSize (hash_list t E) 0 = 0 ∧
    SignatureSize (hash_list t E) 0 = efi_hash_size t + 16 := by
  have hf := list_header_fields t (sizeof_EFI_SIGNATURE_LIST + E.length) 0
    (efi_hash_size t + sizeof_efi_guid_t) E (digest_types_facts t ht).1
  have hb := (digest_types_facts t ht).2
  simp only [sizeof_EFI_SIGNATURE_LIST, sizeof_efi_guid_t] at hf
  unfold hash_list
  simp only [sizeof_EFI_SIGNATURE_LIST, sizeof_efi_guid_t]
  refine ⟨hf.1, hf.2.1, hf.2.2.1, ?_⟩
  rw [hf.2.2.2]
  omega

/-- A hash list of at least one entry whose size fits 32 bits decodes to one node:
its entry array. -/
theorem hash_list_decode (t : Guid) (E : Bytes) (ht : t ∈ digest_types)
    (hE : efi_hash_size t + 16 ≤ E.length) (hsz : 28 + E.length < 4294967296) :
    build_mok_list (hash_list t E) = .done [⟨0, E.length, 28⟩] := by
  obtain ⟨f1, f2, f3, f4⟩ := hash_list_fields t E ht
  have hlen := hash_list_length t E ht
  have hb := (digest_types_facts t ht).2
  have f2' : SignatureListSize (hash_list t E) 0 = 28 + E.length := by rw [f2]; omega
  have hL : (hash_list t E).length = SignatureListSize (hash_list t E) 0 := by rw [hlen, f2']
  have hfit : 28 + SignatureHeaderSize (hash_list t E) 0 + SignatureSize (hash_list t E) 0
      ≤ (hash_list t E).length := by rw [f3, f4, hlen]; omega
  have hx := (signature_size_digest t ht).2.2
  have hsup : list_supported (hash_list t E) 0 = true := by
    simp [list_supported, f1, f4, ht]
  have hb := build_mok_list_block (hash_list t E) [] hL hfit
  rw [List.append_nil, block_index_supported _ hL hfit (by rw [f4]; omega) hsup] at hb
  rw [hb, build_mok_list_nil]
  simp only [BuildResult.rebase, List.map_nil, List.append_nil, index_entry, f1, hx, if_false,
    f2', f3, u32]
  congr 2
  congr 1
  omega

theorem poke_zero_full (data src : Bytes) (h : data.length = src.length) :
    poke data 0 src = src := by
  simp [poke, ← h]

theorem slice_zero_full (data : Bytes) : slice data 0 data.length = data := by
  simp [slice]

theorem slice_full (data : Bytes) (n : Nat) (h : data.length = n) : slice data 0 n = data := by
  rw [← h]; exact slice_zero_full data

theorem poke_list_header (t : Guid) (L L' H S : Nat) (rest : Bytes) (ht : t.length = 16) :
    poke (list_header t L H S ++ rest) 16 (enc32 L') = list_header t L' H S ++ rest := by
  unfold poke list_header
  simp only [List.append_assoc, enc32_length]
  have h1 : List.take 16 (t ++ (enc32 L ++ (enc32 H ++ (enc32 S ++ rest)))) = t := by
    rw [← ht]; exact List.take_left _ _
  have h2 : List.drop (16 + 4) (t ++ (enc32 L ++ (enc32 H ++ (enc32 S ++ rest)))) =
      enc32 H ++ (enc32 S ++ rest) := by
    have h3 : (t ++ enc32 L).length = 16 + 4 := by simp [enc32_length, ht]
    rw [← List.append_assoc, ← h3, List.drop_left]
  rw [h1, h2]

theorem hash_request_staged_first (heap : Nat → UInt8) (t : Guid) (d : Bytes)
    (ht : t ∈ digest_types) (hd : d.length = efi_hash_size t) :
    hash_request_staged heap t d none = some (hash_list t (efi_guid_shim_bytes ++ d)) := by
  have hs : slice d 0 (efi_hash_size t) = d := by rw [← hd]; exact slice_zero_full d
  have ht16 := (digest_types_facts t ht).1
  have e : hash_request_list t d (efi_hash_size t) = hash_list t (efi_guid_shim_bytes ++ d) := by
    simp only [hash_request_list, hash_list, list_header, hs, List.length_append, hd,
      List.append_assoc]
    have : (efi_guid_shim_bytes).length = 16 := rfl
    rw [this]
    simp only [sizeof_EFI_SIGNATURE_LIST, sizeof_efi_guid_t, Nat.add_assoc]
  simp only [hash_request_staged, hash_request_buffer, find_merge_ind, Option.getD_none,
    Option.isSome_none, Bool.false_eq_true, if_false, List.append_nil, Nat.add_zero, e]
  rw [poke_zero_full]
  simp only [List.length_map, List.length_range, hash_list_length t _ ht, List.length_append,
    hd, sizeof_EFI_SIGNATURE_LIST, sizeof_efi_guid_t]
  have : (efi_guid_shim_bytes).length = 16 := rfl
  omega

theorem hash_request_staged_merge (heap : Nat → UInt8) (t : Guid) (d E : Bytes)
    (ht : t ∈ digest_types) (hd : d.length = efi_hash_size t)
    (hE : efi_hash_size t + 16 ≤ E.length) (hsz : 28 + E.length < 4294967296) :
    hash_request_staged heap t d (some (hash_list t E)) =
      some (hash_list t (E ++ (t ++ d))) := by
  have hs : slice d 0 (efi_hash_size t) = d := by rw [← hd]; exact slice_zero_full d
  have ht16 := (digest_types_facts t ht).1
  obtain ⟨f1, f2, f3, f4⟩ := hash_list_fields t E ht
  have f2' : SignatureListSize (hash_list t E) 0 = 28 + E.length := by rw [f2]; omega
  have hlen := hash_list_length t E ht
  simp only [hash_request_staged, hash_list_decode t E ht hE hsz, hash_request_buffer,
    find_merge_ind, f1, efi_guid_eq, decide_True, if_true, Option.getD_some, Option.isSome_some,
    List.take_zero, copy_lists, List.map_nil, List.flatten_nil, List.nil_append,
    List.getD_cons_zero, f2', List.drop_succ_cons, List.drop_zero, List.append_nil, hs,
    Nat.zero_add]
  have hp : poke (hash_list t E) 16
      (enc32 (28 + E.length + (efi_hash_size t + sizeof_efi_guid_t))) =
      list_header t (28 + E.length + (efi_hash_size t + sizeof_efi_guid_t)) 0
        (efi_hash_size t + sizeof_efi_guid_t) ++ E := by
    unfold hash_list
    exact poke_list_header t _ _ _ _ E ht16
  have hpl : (list_header t (28 + E.length + (efi_hash_size t + sizeof_efi_guid_t)) 0
        (efi_hash_size t + sizeof_efi_guid_t) ++ E).length = 28 + E.length := by
    rw [List.length_append, list_header_length _ _ _ _ ht16]
  have hm : slice (list_header t (28 + E.length + (efi_hash_size t + sizeof_efi_guid_t)) 0
        (efi_hash_size t + sizeof_efi_guid_t) ++ E) 0 (28 + E.length) ++ t ++ d =
      hash_list t (E ++ (t ++ d)) := by
    rw [slice_full _ _ hpl]
    unfold hash_list
    simp only [List.length_append, hd, ht16, sizeof_EFI_SIGNATURE_LIST, sizeof_efi_guid_t,
      List.append_assoc]
    have e : 28 + E.length + (efi_hash_size t + 16) = 28 + (E.length + (16 + efi_hash_size t)) := by
      omega
    rw [e]
  rw [hp, hm, poke_zero_full]
  simp only [List.length_map, List.length_range, hash_list_length t _ ht, List.length_append,
    hd, ht16, sizeof_EFI_SIGNATURE_LIST, sizeof_efi_guid_t]
  omega

theorem list_len_small (n : Nat) (h : n < 2147483648) : list_len n = (n : Int) := by
  unfold list_len
  have hm : n % 4294967296 = n := Nat.mod_eq_of_lt (by omega)
  rw [hm, if_pos h]

/-- A buffer shorter than 2^31 bytes is stored whole. -/
theorem stored_list_small (buf : Bytes) (h : buf.length < 2147483648) :
    stored_list buf = some buf := by
  have hd : data_size (list_len buf.length) = buf.length := by
    rw [list_len_small _ h]
    unfold data_size
    rw [Int.emod_eq_of_lt (Int.natCast_nonneg _) (by omega)]
    exact Int.toNat_natCast _
  unfold stored_list
  rw [hd, if_pos (Nat.le_refl _), List.take_length]

/-- The digest of every entry of an entry array, read at the offsets where
`match_hash_array` looks. -/
theorem entry_array_digests (hs : Nat) :
    ∀ (entries : List (Guid × Bytes)) (pre : Bytes),
      (∀ e ∈ entries, e.1.length = 16 ∧ e.2.length = hs) →
      (List.range entries.length).map
          (fun i => slice (pre ++ entry_array entries) (pre.length + i * (hs + 16) + 16) hs) =
        entries.map (fun e => e.2) := by
  intro entries
  induction entries with
  | nil => intro pre _; rfl
  | cons e rest ih =>
    intro pre h
    obtain ⟨h1, h2⟩ := h e (List.mem_cons_self _ _)
    have ih' := ih (pre ++ (e.1 ++ e.2)) (fun x hx => h x (List.mem_cons_of_mem _ hx))
    simp only [List.length_cons, List.range_succ_eq_map, List.map_cons, List.map_map,
      entry_array, List.flatten_cons, Nat.zero_mul, Nat.add_zero]
    congr 1
    · have e1 : pre ++ (e.1 ++ e.2 ++ (List.map (fun e => e.1 ++ e.2) rest).flatten) =
          (pre ++ e.1) ++ (e.2 ++ (List.map (fun e => e.1 ++ e.2) rest).flatten) := by
        simp [List.append_assoc]
      have e2 : pre.length + 16 = (pre ++ e.1).length + 0 := by simp [h1]
      rw [e1, e2, slice_append_right, slice_append_left _ _ _ _ (by omega)]
      exact slice_full _ _ h2
    · rw [← ih']
      apply List.map_congr_left
      intro i _
      simp only [Function.comp, entry_array, List.length_append, h1, h2, List.append_assoc,
        Nat.succ_mul]
      congr 1
      omega

/-- What `issue_hash_request` stages: for a hash string that is identified and
admitted, with the request variable readable, it hands `update_request` the buffer
`hash_request_staged` gives for the contents of the variable. -/
theorem issue_hash_request_stages (env : Env) (f : Faults) (s : Store) (hash_str : String)
    (req : MokRequest) (t : Guid) (buf : Bytes)
    (hid : identify_hash_type hash_str.toList = some (t, efi_hash_size t))
    (hvalid : is_valid_request f s t
      (hex_str_to_binary hash_str.toList (efi_hash_size t)) req = some 1)
    (hget : f.get .efi_guid_shim (req_names req) = false)
    (hst : hash_request_staged env.heap t (hex_str_to_binary hash_str.toList (efi_hash_size t))
      (s .efi_guid_shim (req_names req)) = some buf) :
    issue_hash_request env f s hash_str req =
      some (if (update_request env f s (some buf) req).1 < 0
        then (-1, (update_request env f s (some buf) req).2)
        else (0, (update_request env f s (some buf) req).2)) := by
  unfold issue_hash_request
  simp only [hid, hvalid]
  rw [if_neg (by decide)]
  unfold efi_get_variable
  simp only [hget, Bool.false_eq_true, if_false]
  cases hs : s .efi_guid_shim (req_names req) with
  | none =>
    rw [hs] at hst
    simp only [hash_request_staged, Option.some.injEq] at hst
    simp only [hst]
    split <;> rfl
  | some old =>
    rw [hs] at hst
    simp only [hash_request_staged] at hst
    cases hb : build_mok_list old with
    | corrupt => rw [hb] at hst; simp at hst
    | oob => rw [hb] at hst; simp at hst
    | nofuel => rw [hb] at hst; simp at hst
    | done l =>
      cases l with
      | nil => rw [hb] at hst; simp at hst
      | cons n ns =>
        rw [hb] at hst
        simp only [Option.some.injEq] at hst
        simp only [hb, hst]
        split <;> rfl

/-! ### What the excision may change -/

/-- `delete_data_from_list` changes no variable other than `var_name` and the
Authorization variable paired with it by name. -/
theorem delete_data_from_list_frame (f : Faults) (s s' : Store) (var_guid : Vendor)
    (var_name : String) (type : Guid) (data : Bytes) (r : Int)
    (h : delete_data_from_list f s var_guid var_name type data = some (r, s'))
    (g : Vendor) (n : String) (hn : n ≠ var_name) (hp : paired_auth var_name ≠ some n) :
    s' g n = s g n := by
  have hfr : ∀ nm, n ≠ nm → ∀ st : Store, (test_and_delete_var f st nm).2 g n = st g n :=
    fun nm hnm st => test_and_delete_var_other f st nm g n (fun hh => hnm hh.2)
  unfold delete_data_from_list at h
  split at h
  · cases h; rfl
  · split at h
    · cases h; rfl
    · cases h; rfl
    · split at h
      · cases h
      · cases h
      · cases h; rfl
      · cases h; rfl
      · split at h
        · cases h; rfl
        · split at h
          · split at h
            · rename_i auth_name hauth
              cases h
              have hne : n ≠ auth_name := fun e => hp (by rw [hauth, e])
              rw [hfr auth_name hne, hfr var_name hn]
            · cases h
              rw [hfr var_name hn]
          · rename_i x _ _
            simp only at h
            generalize (if 0 < x.remain then memmove x.var_data x.start x.end_ x.remain
              else some x.var_data) = moved at h
            cases moved with
            | none => simp at h
            | some vd =>
              simp only at h
              cases hset : efi_set_variable f s var_guid var_name (vd.take x.total) with
              | none =>
                rw [hset] at h
                cases h; rfl
              | some s1 =>
                rw [hset] at h
                simp only [Option.some.injEq, Prod.mk.injEq] at h
                obtain ⟨_, rfl⟩ := h
                unfold efi_set_variable at hset
                split at hset
                · cases hset
                · cases hset
                  exact Store.put_other _ _ _ _ _ _ (fun hh => hn hh.2)

/-- `in_pending_request` never changes the variable of the opposite queue, the one
its caller names in the message about the removal. -/
theorem in_pending_request_frame (f : Faults) (s s' : Store) (type : Guid) (data : Bytes)
    (req : MokRequest) (r : Int)
    (h : in_pending_request f s type data req = some (r, s')) :
    s' .efi_guid_shim (reverse_req_names req) = s .efi_guid_shim (reverse_req_names req) := by
  unfold in_pending_request at h
  split at h
  · cases h; rfl
  · split at h
    · cases h; rfl
    · cases h; rfl
    · split at h
      · cases h; rfl
      · split at h
        · cases h
        · rename_i ret s1 hdel
          have hs : s' = s1 := by
            split at h <;> (cases h; rfl)
          rw [hs]
          exact delete_data_from_list_frame f s s1 _ _ type data ret hdel _ _
            (by cases req <;> decide) (by cases req <;> decide)

/-! ### `match_hash_array` -/

/-- The loop of `match_hash_array` from entry `i0` over `n` entries: either no
digest in that range equals the needle and the result is -1, or the result is the
least index in the range whose digest equals the needle. -/
theorem match_hash_array_loop_spec (hash A : Bytes) (hs : Nat) :
    ∀ (n i0 : Nat),
      (match_hash_array_loop hash A hs n i0 (i0 * (hs + 16)) = -1 ∧
        ∀ j, i0 ≤ j → j < i0 + n → slice A (j * (hs + 16) + 16) hs ≠ slice hash 0 hs) ∨
      (∃ k : Nat, match_hash_array_loop hash A hs n i0 (i0 * (hs + 16)) = (k : Int) ∧
        i0 ≤ k ∧ k < i0 + n ∧ slice A (k * (hs + 16) + 16) hs = slice hash 0 hs ∧
        ∀ j, i0 ≤ j → j < k → slice A (j * (hs + 16) + 16) hs ≠ slice hash 0 hs) := by
  intro n
  induction n with
  | zero =>
    intro i0
    left
    exact ⟨rfl, fun j h1 h2 => by omega⟩
  | succ n ih =>
    intro i0
    simp only [match_hash_array_loop, sizeof_efi_guid_t]
    by_cases hm : slice A (i0 * (hs + 16) + 16) hs = slice hash 0 hs
    · rw [if_pos hm]
      right
      exact ⟨i0, rfl, le_refl _, by omega, hm, fun j h1 h2 => by omega⟩
    · rw [if_neg hm]
      have e : i0 * (hs + 16) + 16 + hs = (i0 + 1) * (hs + 16) := by
        rw [Nat.succ_mul]; omega
      rw [e]
      rcases ih (i0 + 1) with ⟨h1, h2⟩ | ⟨k, h1, h2, h3, h4, h5⟩
      · left
        refine ⟨h1, fun j hj1 hj2 => ?_⟩
        by_cases hj : j = i0
        · rw [hj]; exact hm
        · exact h2 j (by omega) (by omega)
      · right
        refine ⟨k, h1, by omega, by omega, h4, fun j hj1 hj2 => ?_⟩
        by_cases hj : j = i0
        · rw [hj]; exact hm
        · exact h5 j (by omega) hj2

/-- C13. For every digest type and every array size that is a multiple of
`entry_size = digest_size + 16`, `match_hash_array` returns the index `i` exactly
when `i` is the least index whose bytes `[i * entry_size + 16, (i + 1) *
entry_size)` equal the `digest_size` bytes of the needle, and returns -1 exactly
when no entry's digest bytes equal them; an array with other owner GUIDs and the
same digest bytes gives the same result. -/
theorem match_hash_array_least (t : Guid) (hash A : Bytes) (size : Nat)
    (ht : t ∈ digest_types) (hm : size % (efi_hash_size t + 16) = 0) :
    (∀ i : Nat, match_hash_array t hash A size = (i : Int) ↔
      (i < size / (efi_hash_size t + 16) ∧
        slice A (i * (efi_hash_size t + 16) + 16) (efi_hash_size t) =
          slice hash 0 (efi_hash_size t) ∧
        ∀ j, j < i → slice A (j * (efi_hash_size t + 16) + 16) (efi_hash_size t) ≠
          slice hash 0 (efi_hash_size t))) ∧
    (match_hash_array t hash A size = -1 ↔
      ∀ i, i < size / (efi_hash_size t + 16) →
        slice A (i * (efi_hash_size t + 16) + 16) (efi_hash_size t) ≠
          slice hash 0 (efi_hash_size t)) ∧
    (∀ A' : Bytes,
      (∀ i, i < size / (efi_hash_size t + 16) →
        slice A' (i * (efi_hash_size t + 16) + 16) (efi_hash_size t) =
          slice A (i * (efi_hash_size t + 16) + 16) (efi_hash_size t)) →
      match_hash_array t hash A' size = match_hash_array t hash A size) := by
  have hb := (digest_types_facts t ht).2
  have key : ∀ B : Bytes, match_hash_array t hash B size =
      match_hash_array_loop hash B (efi_hash_size t) (size / (efi_hash_size t + 16)) 0
        (0 * (efi_hash_size t + 16)) := by
    intro B
    unfold match_hash_array
    simp only [sizeof_efi_guid_t, Nat.zero_mul]
    rw [if_neg (by omega), if_neg (by simp [hm])]
  have spec := fun B => match_hash_array_loop_spec hash B (efi_hash_size t)
    (size / (efi_hash_size t + 16)) 0
  have hiff : ∀ B : Bytes, (∀ i : Nat, match_hash_array t hash B size = (i : Int) ↔
      (i < size / (efi_hash_size t + 16) ∧
        slice B (i * (efi_hash_size t + 16) + 16) (efi_hash_size t) =
          slice hash 0 (efi_hash_size t) ∧
        ∀ j, j < i → slice B (j * (efi_hash_size t + 16) + 16) (efi_hash_size t) ≠
          slice hash 0 (efi_hash_size t))) ∧
      (match_hash_array t hash B size = -1 ↔
        ∀ i, i < size / (efi_hash_size t + 16) →
          slice B (i * (efi_hash_size t + 16) + 16) (efi_hash_size t) ≠
            slice hash 0 (efi_hash_size t)) := by
    intro B
    rw [key B]
    rcases spec B with ⟨h1, h2⟩ | ⟨k, h1, h2, h3, h4, h5⟩
    · rw [h1]
      constructor
      · intro i
        constructor
        · intro h; omega
        · rintro ⟨hi, hmatch, _⟩
          exact absurd hmatch (h2 i (by omega) (by omega))
      · constructor
        · intro _ i hi
          exact h2 i (by omega) (by omega)
        · intro _; rfl
    · rw [h1]
      constructor
      · intro i
        constructor
        · intro h
          have hk : k = i := by exact_mod_cast h
          subst hk
          exact ⟨by omega, h4, fun j hj => h5 j (by omega) hj⟩
        · rintro ⟨hi, hmatch, hleast⟩
          have hk : k = i := by
            rcases Nat.lt_trichotomy k i with hlt | heq | hgt
            · exact absurd h4 (hleast k hlt)
            · exact heq
            · exact absurd hmatch (h5 i (by omega) hgt)
          rw [hk]
      · constructor
        · intro h; omega
        · intro h
          exact absurd h4 (h k (by omega))
  refine ⟨(hiff A).1, (hiff A).2, ?_⟩
  intro A' hsame
  rw [key A']
  rcases spec A' with ⟨h1, h2⟩ | ⟨k, h1, h2, h3, h4, h5⟩
  · rw [h1]
    symm
    rw [(hiff A).2]
    intro i hi
    rw [← hsame i hi]
    exact h2 i (by omega) (by omega)
  · rw [h1]
    symm
    rw [(hiff A).1 k]
    refine ⟨by omega, by rw [← hsame k (by omega)]; exact h4, fun j hj => ?_⟩
    rw [← hsame j (by omega)]
    exact h5 j (by omega) hj

/-- Witness for C13: a SHA256 array of two entries (96 bytes) searched for
`ex_digest2`, which is entry 1. -/
theorem match_hash_array_least_witness :
    efi_guid_sha256 ∈ digest_types ∧ 96 % (efi_hash_size efi_guid_sha256 + 16) = 0 ∧
    (∀ i : Nat, match_hash_array efi_guid_sha256 ex_digest2 ex_array2 96 = (i : Int) ↔
      (i < 96 / (efi_hash_size efi_guid_sha256 + 16) ∧
        slice ex_array2 (i * (efi_hash_size efi_guid_sha256 + 16) + 16)
            (efi_hash_size efi_guid_sha256) =
          slice ex_digest2 0 (efi_hash_size efi_guid_sha256) ∧
        ∀ j, j < i → slice ex_array2 (j * (efi_hash_size efi_guid_sha256 + 16) + 16)
            (efi_hash_size efi_guid_sha256) ≠
          slice ex_digest2 0 (efi_hash_size efi_guid_sha256))) :=
  ⟨by decide, by decide,
   (match_hash_array_least efi_guid_sha256 ex_digest2 ex_array2 96 (by decide) (by decide)).1⟩

/-! ### Hash arrays of a size that is not a multiple of the entry size -/

/-- An array size that is not a multiple of the entry size makes `match_hash_array`
return -1, the value it also returns when no digest matches. -/
theorem match_hash_array_bad_size (t : Guid) (hash A : Bytes) (size : Nat)
    (hm : size % (efi_hash_size t + 16) ≠ 0) : match_hash_array t hash A size = -1 := by
  unfold match_hash_array
  simp only [sizeof_efi_guid_t]
  by_cases h0 : efi_hash_size t = 0
  · rw [if_pos h0]
  · rw [if_neg h0, if_pos hm]

theorem digest_types_not_x509 (t : Guid) (h : t ∈ digest_types) :
    efi_guid_eq t efi_guid_x509_cert = false := by
  simp only [digest_types, List.mem_cons, List.mem_singleton, List.not_mem_nil, or_false] at h
  rcases h with rfl | rfl | rfl | rfl | rfl <;> decide

/-- C14 (amended). A hash list whose array size is not a multiple of the entry
size is treated as not containing the needle: `match_hash_array` returns -1 for
it, the value of "no match", and the loops of `is_duplicate` and of
`delete_data_from_list` go on with the next list. -/
theorem hash_array_bad_size_continues (t : Guid) (data var_data : Bytes)
    (node : MokListNode) (rest : List MokListNode) (ht : t ∈ digest_types)
    (htype : SignatureType var_data node.header = t)
    (hbad : node.mok_size % (efi_hash_size t + 16) ≠ 0) :
    match_hash_array t data (var_data.drop node.mok) node.mok_size = -1 ∧
    is_duplicate_loop t data var_data (node :: rest) =
      is_duplicate_loop t data var_data rest ∧
    ∀ total remain : Nat,
      delete_data_from_list_loop t data var_data total remain (node :: rest) =
        delete_data_from_list_loop t data var_data total
          (u32 ((remain : Int) - SignatureListSize var_data node.header)) rest := by
  have hm := match_hash_array_bad_size t data (var_data.drop node.mok) node.mok_size hbad
  have hx := digest_types_not_x509 t ht
  have he : efi_guid_eq (SignatureType var_data node.header) t = true := by
    rw [htype]; simp [efi_guid_eq]
  refine ⟨hm, ?_, ?_⟩
  · rw [is_duplicate_loop]
    simp [he, hx, hm]
  · intro total remain
    rw [delete_data_from_list_loop]
    simp [he, hx, hm]

/-- Witness for C14 (amended): `ex_odd_hash_list` in front of the SHA256 list
that holds `ex_digest`. -/
theorem hash_array_bad_size_continues_witness :
    efi_guid_sha256 ∈ digest_types ∧
    SignatureType (ex_odd_hash_list ++ ex_sha256_list)
      (MokListNode.mk 0 50 28).header = efi_guid_sha256 ∧
    (MokListNode.mk 0 50 28).mok_size % (efi_hash_size efi_guid_sha256 + 16) ≠ 0 ∧
    (match_hash_array efi_guid_sha256 ex_digest
        ((ex_odd_hash_list ++ ex_sha256_list).drop (MokListNode.mk 0 50 28).mok)
        (MokListNode.mk 0 50 28).mok_size = -1 ∧
     is_duplicate_loop efi_guid_sha256 ex_digest (ex_odd_hash_list ++ ex_sha256_list)
        (MokListNode.mk 0 50 28 :: [MokListNode.mk 78 48 106]) =
      is_duplicate_loop efi_guid_sha256 ex_digest (ex_odd_hash_list ++ ex_sha256_list)
        [MokListNode.mk 78 48 106] ∧
     ∀ total remain : Nat,
      delete_data_from_list_loop efi_guid_sha256 ex_digest
          (ex_odd_hash_list ++ ex_sha256_list) total remain
          (MokListNode.mk 0 50 28 :: [MokListNode.mk 78 48 106]) =
        delete_data_from_list_loop efi_guid_sha256 ex_digest
          (ex_odd_hash_list ++ ex_sha256_list) total
          (u32 ((remain : Int) - SignatureListSize (ex_odd_hash_list ++ ex_sha256_list)
            (MokListNode.mk 0 50 28).header)) [MokListNode.mk 78 48 106]) :=
  ⟨by decide, by decide, by decide,
   hash_array_bad_size_continues efi_guid_sha256 ex_digest
     (ex_odd_hash_list ++ ex_sha256_list) (MokListNode.mk 0 50 28) [MokListNode.mk 78 48 106]
     (by decide) (by decide) (by decide)⟩

/-- C14 (counterexample). `MokNew` holds a SHA256 list whose array of 50 bytes is
not a multiple of 48, followed by the SHA256 list of `ex_digest`. The index has
both lists; `is_duplicate` reports `ex_digest` present, and
`delete_data_from_list` removes it and writes the variable back, holding the
first list. Neither operation is aborted. -/
theorem hash_array_bad_size_not_aborted :
    build_mok_list (ex_odd_hash_list ++ ex_sha256_list) =
      .done [MokListNode.mk 0 50 28, MokListNode.mk 78 48 106] ∧
    50 % signature_size efi_guid_sha256 ≠ 0 ∧
    is_duplicate Faults.none ex_store_odd efi_guid_sha256 ex_digest
      .efi_guid_shim "MokNew" = some 1 ∧
    observe ["MokNew", "MokAuth"]
      (delete_data_from_list Faults.none ex_store_odd .efi_guid_shim "MokNew"
        efi_guid_sha256 ex_digest) =
      some (1, [some ex_odd_hash_list, some ex_auth_old]) := by
  decide

/-! ### Removal of an entry by `delete_data_from_list` -/

/-- C15 (failing input). `MokNew` holds a SHA256 list with a signature header of
4 bytes and the single entry `ex_digest`, followed by `ex_x509_list`. The test for
"only one hash in the list" compares the list size with 28 + 48 and fails for the
list of 80 bytes, so 48 bytes from offset 28 are cut out and the list size is
lowered to 32: the variable written keeps a list header, the last 4 digest bytes
and `ex_x509_list`, and is not `ex_x509_list`. With a list of unknown type in
front of the matched list, `remain` counts the unknown list as well and `memmove`
reads beyond the buffer, which has no defined result. -/
theorem delete_data_from_list_one_hash_header :
    build_mok_list (ex_sha256_hdr4 ++ ex_x509_list) =
      .done [MokListNode.mk 0 48 32, MokListNode.mk 80 3 124] ∧
    observe ["MokNew"]
      (delete_data_from_list Faults.none ex_store_hdr4 .efi_guid_shim "MokNew"
        efi_guid_sha256 ex_digest) =
      some (1, [some (list_header efi_guid_sha256 32 4 48 ++ [0xcc, 0xdd, 0xee, 0xff] ++
                  ex_x509_list)]) ∧
    list_header efi_guid_sha256 32 4 48 ++ [0xcc, 0xdd, 0xee, 0xff] ++ ex_x509_list ≠
      ex_x509_list ∧
    build_mok_list (ex_unknown_only ++ ex_x509_list ++ ex_x509_list) =
      .done [MokListNode.mk 29 3 73, MokListNode.mk 76 3 120] ∧
    (delete_data_from_list Faults.none ex_store_unknown_front .efi_guid_shim "MokNew"
        efi_guid_x509_cert ex_cert_X).isNone = true := by
  decide

/-- C16 (failing input). `MokNew` holds a SHA256 list with a signature header of
4 bytes and the two entries `ex_digest`, `ex_digest2`. Removing `ex_digest2`
(entry 1) cuts 48 bytes from offset 28 + 48, which ignores the signature header:
the entry that stays loses the last 4 bytes of its digest to those of the removed
one, so the variable written is not the list with the entry `ex_digest`. -/
theorem delete_data_from_list_entry_header :
    build_mok_list ex_sha256_hdr4_two = .done [MokListNode.mk 0 96 32] ∧
    match_hash_array efi_guid_sha256 ex_digest2 (ex_sha256_hdr4_two.drop 32) 96 = 1 ∧
    observe ["MokNew"]
      (delete_data_from_list Faults.none ex_store_hdr4_two .efi_guid_shim "MokNew"
        efi_guid_sha256 ex_digest2) =
      some (1, [some (list_header efi_guid_sha256 80 4 48 ++ [0xde, 0xad, 0xbe, 0xef] ++
                  efi_guid_shim_bytes ++ ex_digest.take 28 ++ [0xab, 0xab, 0xab, 0xab])]) ∧
    list_header efi_guid_sha256 80 4 48 ++ [0xde, 0xad, 0xbe, 0xef] ++
        efi_guid_shim_bytes ++ ex_digest.take 28 ++ [0xab, 0xab, 0xab, 0xab] ≠
      list_header efi_guid_sha256 80 4 48 ++ [0xde, 0xad, 0xbe, 0xef] ++
        efi_guid_shim_bytes ++ ex_digest := by
  decide

/-- C17 (failing input). `MokNew` holds `ex_x509_list` followed by a list of
unknown type. Removing certificate X leaves 29 bytes, so `total` is not 0: the
variable is written back holding the unknown list only, which decodes to no
entry, and `MokAuth` stays. For the store of C15 the variable written holds a
list of total size 32 = 28 + header size without any entry, and it no longer
decodes. -/
theorem delete_data_from_list_leaves_no_entry :
    observe ["MokNew", "MokAuth"]
      (delete_data_from_list Faults.none ex_store_cert_unknown .efi_guid_shim "MokNew"
        efi_guid_x509_cert ex_cert_X) =
      some (1, [some ex_unknown_only, some ex_auth_old]) ∧
    build_mok_list ex_unknown_only = .done [] ∧
    observe ["MokNew", "MokAuth"]
      (delete_data_from_list Faults.none ex_store_hdr4 .efi_guid_shim "MokNew"
        efi_guid_sha256 ex_digest) =
      some (1, [some (list_header efi_guid_sha256 32 4 48 ++ [0xcc, 0xdd, 0xee, 0xff] ++
                  ex_x509_list), some ex_auth_old]) ∧
    SignatureListSize (list_header efi_guid_sha256 32 4 48 ++ [0xcc, 0xdd, 0xee, 0xff] ++
        ex_x509_list) 0 = 28 + 4 ∧
    build_mok_list (list_header efi_guid_sha256 32 4 48 ++ [0xcc, 0xdd, 0xee, 0xff] ++
        ex_x509_list) = .corrupt := by
  decide

/-! ### Truncated buffers -/

/-- C11 (failing input). The buffer of two X509 lists (94 bytes) is accepted with
two nodes. Cut to its first 57 bytes, the second pass of the loop evaluates
`dbsize >= CertList->SignatureListSize` with 10 bytes left: the field lies at
bytes 63..66, beyond the 57 bytes supplied, and the check of `CertList + 1`
against `end` comes only after it. The result is neither a corrupt-data failure
nor a list of nodes. -/
theorem build_mok_list_truncated_reads_past_end :
    build_mok_list (ex_x509_list ++ ex_x509_list) =
      .done [MokListNode.mk 0 3 44, MokListNode.mk 47 3 91] ∧
    57 ≤ (ex_x509_list ++ ex_x509_list).length ∧
    build_mok_list_after ((ex_x509_list ++ ex_x509_list).take 57) 1 =
      some { CertList := 47, dbsize := 10, list := [MokListNode.mk 0 3 44] } ∧
    inb ((ex_x509_list ++ ex_x509_list).take 57) (47 + 16) 4 = false ∧
    build_mok_list ((ex_x509_list ++ ex_x509_list).take 57) = .oob := by
  decide

/-! ### What is checked of an indexed list -/

theorem index_entry_header (data : Bytes) (o : Nat) : (index_entry data o).header = o := by
  unfold index_entry
  split <;> rfl

/-- C12 (amended). Every list that `build_mok_list` indexes has
`total_size > entry_size > 16`; its header, its signature header and the first 17
bytes of its entry lie in the buffer, and so does the indexed range; a list that
is not of type X509 is of a digest type with `entry_size = digest_size + 16`.
(Whether the entry lies within `total_size`, and whether a hash array is a
multiple of the entry size, is not checked here.) -/
theorem build_mok_list_indexed_checks (data : Bytes) (nodes : List MokListNode)
    (h : build_mok_list data = .done nodes) :
    ∀ node ∈ nodes,
      SignatureSize data node.header < SignatureListSize data node.header ∧
      16 < SignatureSize data node.header ∧
      node.header + 28 + SignatureHeaderSize data node.header + 17 ≤ data.length ∧
      node.mok + node.mok_size ≤ data.length ∧
      (SignatureType data node.header ≠ efi_guid_x509_cert →
        SignatureType data node.header ∈ digest_types ∧
        SignatureSize data node.header =
          efi_hash_size (SignatureType data node.header) + 16) := by
  obtain ⟨e1, e2⟩ := build_mok_list_loop_index data (data.length + 1) ⟨0, data.length, []⟩ nodes
    (by simp) h
  intro node hn
  rw [e1] at hn
  simp only [List.nil_append, List.mem_map] at hn
  obtain ⟨o, ho, rfl⟩ := hn
  obtain ⟨c1, c2, c3, c4⟩ := e2 o ho
  rw [index_entry_header]
  refine ⟨c3, c2, c1, c4, ?_⟩
  intro hx
  have hs := (List.mem_filter.mp ho).2
  simp only [list_supported, hx, decide_False, Bool.false_or, Bool.and_eq_true,
    decide_eq_true_eq] at hs
  exact hs

/-- Witness for C12 (amended): the buffer of an X509 list, a list of unknown type
and a SHA256 list. -/
theorem build_mok_list_indexed_checks_witness :
    build_mok_list ex_three_lists = .done [⟨0, 3, 44⟩, ⟨76, 48, 104⟩] ∧
    ∀ node ∈ [(⟨0, 3, 44⟩ : MokListNode), ⟨76, 48, 104⟩],
      SignatureSize ex_three_lists node.header < SignatureListSize ex_three_lists node.header ∧
      16 < SignatureSize ex_three_lists node.header ∧
      node.header + 28 + SignatureHeaderSize ex_three_lists node.header + 17
        ≤ ex_three_lists.length ∧
      node.mok + node.mok_size ≤ ex_three_lists.length ∧
      (SignatureType ex_three_lists node.header ≠ efi_guid_x509_cert →
        SignatureType ex_three_lists node.header ∈ digest_types ∧
        SignatureSize ex_three_lists node.header =
          efi_hash_size (SignatureType ex_three_lists node.header) + 16) :=
  ⟨by decide, build_mok_list_indexed_checks ex_three_lists [⟨0, 3, 44⟩, ⟨76, 48, 104⟩]
    (by decide)⟩

/-- C12 (counterexample). The X509 list of `ex_overrun` (total size 45, header
size 0, entry size 19) is indexed although 28 + 0 + 19 > 45: its certificate runs
into the list that follows. The SHA256 list `ex_odd_hash_list` (total size 78,
entry size 48) is indexed although its array of 50 bytes is not a multiple of 48. -/
theorem build_mok_list_indexes_overrun :
    build_mok_list (ex_overrun ++ ex_unknown_only) = .done [⟨0, 3, 44⟩] ∧
    SignatureType (ex_overrun ++ ex_unknown_only) 0 = efi_guid_x509_cert ∧
    ¬ (28 + SignatureHeaderSize (ex_overrun ++ ex_unknown_only) 0 +
        SignatureSize (ex_overrun ++ ex_unknown_only) 0 ≤
      SignatureListSize (ex_overrun ++ ex_unknown_only) 0) ∧
    build_mok_list ex_odd_hash_list = .done [⟨0, 50, 28⟩] ∧
    SignatureType ex_odd_hash_list 0 = efi_guid_sha256 ∧
    (SignatureListSize ex_odd_hash_list 0 - 28 - SignatureHeaderSize ex_odd_hash_list 0) %
      SignatureSize ex_odd_hash_list 0 ≠ 0 := by
  decide

/-! ### `is_duplicate` -/

theorem build_mok_list_step_ne_nofuel (data : Bytes) (st : BuildState) :
    build_mok_list_step data st ≠ .ret .nofuel := by
  intro h
  unfold build_mok_list_step at h
  simp only [sizeof_EFI_SIGNATURE_LIST] at h
  split_ifs at h
  all_goals cases h

theorem build_mok_list_loop_ne_nofuel (data : Bytes) :
    ∀ (fuel : Nat) (st : BuildState), st.dbsize < fuel →
      build_mok_list_loop data fuel st ≠ .nofuel := by
  intro fuel
  induction fuel with
  | zero => intro st h; omega
  | succ k ih =>
    intro st hlt
    simp only [build_mok_list_loop]
    cases hs : build_mok_list_step data st with
    | ret r =>
      intro hr
      simp only at hr
      rw [hr] at hs
      exact build_mok_list_step_ne_nofuel data st hs
    | next st' =>
      have hn := build_mok_list_step_next data st st' hs
      exact ih st' (by omega)

/-- The iteration bound of `build_mok_list` is never reached: the function
returns for every buffer. -/
theorem build_mok_list_ne_nofuel (data : Bytes) : build_mok_list data ≠ .nofuel :=
  build_mok_list_loop_ne_nofuel data (data.length + 1) ⟨0, data.length, []⟩ (by simp)

/-- The loop of `is_duplicate` returns 1 exactly when some node of the needle's
type holds the needle. -/
theorem is_duplicate_loop_iff (type : Guid) (data var_data : Bytes) (l : List MokListNode) :
    is_duplicate_loop type data var_data l = 1 ↔
      ∃ node ∈ l, SignatureType var_data node.header = type ∧
        (if type = efi_guid_x509_cert then
           node.mok_size = data.length ∧ slice var_data node.mok data.length = data
         else 0 ≤ match_hash_array type data (var_data.drop node.mok) node.mok_size) := by
  induction l with
  | nil => simp [is_duplicate_loop]
  | cons node rest ih =>
    rw [is_duplicate_loop]
    simp only [List.mem_cons, exists_eq_or_imp, efi_guid_eq, Bool.not_eq_true',
      decide_eq_false_iff_not, decide_eq_true_eq, ge_iff_le]
    by_cases ht : SignatureType var_data node.header = type
    · rw [if_neg (by simpa using ht)]
      by_cases hx : type = efi_guid_x509_cert
      · rw [if_pos hx, if_pos hx]
        by_cases hsz : node.mok_size = data.length
        · rw [if_neg (by simpa using hsz)]
          by_cases hm : slice var_data node.mok data.length = data
          · rw [if_pos hm]
            simp [ht, hsz, hm]
          · rw [if_neg hm, ih]
            simp [hm]
        · rw [if_pos hsz, ih]
          simp [hsz]
      · rw [if_neg hx, if_neg hx]
        by_cases hm : 0 ≤ match_hash_array type data (var_data.drop node.mok) node.mok_size
        · rw [if_pos hm]
          simp [ht, hm]
        · rw [if_neg hm, ih]
          simp [hm]
    · rw [if_pos (by simpa using ht), ih]
      simp [ht]

/-- The results of `is_duplicate` on the contents on which `build_mok_list` stays
within the buffer: whenever `is_duplicate` has a defined result the result is 0
or 1, and it has none exactly when `build_mok_list` reads beyond the variable's
bytes. It returns 0 when the variable is absent, when it cannot be read and when
its content fails to decode; otherwise, for a needle that is not empty, it
returns 1 exactly when some indexed list of the needle's type holds the needle
(X509: same length and equal bytes; digest type: `match_hash_array` finds it),
and 0 if none does. -/
theorem is_duplicate_reports_no_error (f : Faults) (s : Store) (type : Guid) (data : Bytes)
    (vendor : Vendor) (db_name : String) :
    (is_duplicate f s type data vendor db_name = none ∨
      is_duplicate f s type data vendor db_name = some 0 ∨
      is_duplicate f s type data vendor db_name = some 1) ∧
    (is_duplicate f s type data vendor db_name = none ↔
      data ≠ [] ∧ ∃ var_data, efi_get_variable f s vendor db_name = .ok var_data ∧
        build_mok_list var_data = .oob) ∧
    (data = [] → is_duplicate f s type data vendor db_name = some 0) ∧
    (efi_get_variable f s vendor db_name = .enoent →
      is_duplicate f s type data vendor db_name = some 0) ∧
    (efi_get_variable f s vendor db_name = .error →
      is_duplicate f s type data vendor db_name = some 0) ∧
    (∀ var_data, efi_get_variable f s vendor db_name = .ok var_data →
      build_mok_list var_data = .corrupt →
      is_duplicate f s type data vendor db_name = some 0) ∧
    (∀ var_data nodes, efi_get_variable f s vendor db_name = .ok var_data →
      build_mok_list var_data = .done nodes → data ≠ [] →
      ∃ r, is_duplicate f s type data vendor db_name = some r ∧ (r = 1 ∨ r = 0) ∧
        (r = 1 ↔ ∃ node ∈ nodes, SignatureType var_data node.header = type ∧
          (if type = efi_guid_x509_cert then
             node.mok_size = data.length ∧ slice var_data node.mok data.length = data
           else 0 ≤ match_hash_array type data (var_data.drop node.mok) node.mok_size))) := by
  refine ⟨is_duplicate_cases f s type data vendor db_name, ?_, ?_, ?_, ?_, ?_, ?_⟩
  · unfold is_duplicate
    by_cases hd : data = []
    · simp [hd]
    · have hl : ¬ data.length = 0 := by simpa using hd
      rw [if_neg hl]
      cases hg : efi_get_variable f s vendor db_name with
      | enoent => simp [hd]
      | error => simp [hd]
      | ok var_data =>
        simp only
        cases hb : build_mok_list var_data with
        | oob => simp [hd, hb]
        | nofuel => exact absurd hb (build_mok_list_ne_nofuel var_data)
        | corrupt => simp [hd, hb]
        | done list =>
          cases list with
          | nil => simp [hd, hb]
          | cons n ns => simp [hd, hb]
  · intro hd
    simp [is_duplicate, hd]
  · intro hg
    unfold is_duplicate
    rw [hg]
    split <;> rfl
  · intro hg
    unfold is_duplicate
    rw [hg]
    split <;> rfl
  · intro var_data hg hb
    unfold is_duplicate
    rw [hg]
    simp only [hb]
    split <;> rfl
  · intro var_data nodes hg hb hd
    have hl : ¬ data.length = 0 := by simpa using hd
    unfold is_duplicate
    rw [if_neg hl, hg]
    simp only [hb]
    cases nodes with
    | nil => exact ⟨0, rfl, Or.inr rfl, by simp⟩
    | cons n ns =>
      refine ⟨is_duplicate_loop type data var_data (n :: ns), rfl, ?_, ?_⟩
      · rcases is_duplicate_loop_cases type data var_data (n :: ns) with h | h
        · right; exact h
        · left; exact h
      · exact is_duplicate_loop_iff type data var_data (n :: ns)

/-- An instance: `ex_digest` looked up in `MokNew` of `ex_store_odd`. -/
theorem is_duplicate_reports_no_error_witness :
    ∃ r, is_duplicate Faults.none ex_store_odd efi_guid_sha256 ex_digest
        .efi_guid_shim "MokNew" = some r ∧ (r = 1 ∨ r = 0) ∧
      (r = 1 ↔ ∃ node ∈ [MokListNode.mk 0 50 28, MokListNode.mk 78 48 106],
        SignatureType (ex_odd_hash_list ++ ex_sha256_list) node.header = efi_guid_sha256 ∧
        (if efi_guid_sha256 = efi_guid_x509_cert then
           node.mok_size = ex_digest.length ∧
           slice (ex_odd_hash_list ++ ex_sha256_list) node.mok ex_digest.length = ex_digest
         else 0 ≤ match_hash_array efi_guid_sha256 ex_digest
           ((ex_odd_hash_list ++ ex_sha256_list).drop node.mok) node.mok_size)) :=
  (is_duplicate_reports_no_error Faults.none ex_store_odd efi_guid_sha256 ex_digest
    .efi_guid_shim "MokNew").2.2.2.2.2.2 (ex_odd_hash_list ++ ex_sha256_list)
    [MokListNode.mk 0 50 28, MokListNode.mk 78 48 106] (by decide) (by decide) (by decide)

/-- C18 (failing input). `MokNew` holds the first 57 bytes of two X509 lists of 47
bytes each: the list of certificate X, then 10 bytes. `is_duplicate` calls
`build_mok_list`, whose loop condition reads `SignatureListSize` at bytes 63..66,
beyond the 57 bytes of the variable: the call has no defined result, for the
certificate X (which the first list holds) as for a digest. It returns neither
"not present" for a content that fails to decode nor "present". -/
theorem is_duplicate_reads_past_end :
    ex_store_truncated .efi_guid_shim "MokNew" = some ((ex_x509_list ++ ex_x509_list).take 57) ∧
    ((ex_x509_list ++ ex_x509_list).take 57).length = 57 ∧
    inb ((ex_x509_list ++ ex_x509_list).take 57) (47 + 16) 4 = false ∧
    build_mok_list ((ex_x509_list ++ ex_x509_list).take 57) = .oob ∧
    is_duplicate Faults.none ex_store_truncated efi_guid_x509_cert ex_cert_X
      .efi_guid_shim "MokNew" = none ∧
    is_duplicate Faults.none ex_store_truncated efi_guid_sha256 ex_digest
      .efi_guid_shim "MokNew" = none := by
  decide

/-! ### Admission and the opposite queue -/

/-- `update_request` changes no variable other than the request variable and its
Authorization variable. -/
theorem update_request_frame (env : Env) (f : Faults) (s : Store) (new_list : Option Bytes)
    (req : MokRequest) (g : Vendor) (n : String)
    (h1 : n ≠ req_names req) (h2 : n ≠ auth_names req) :
    (update_request env f s new_list req).2 g n = s g n := by
  have hr : ∀ st : Store, (test_and_delete_var f st (req_names req)).2 g n = st g n :=
    fun st => test_and_delete_var_other f st _ g n (fun hh => h1 hh.2)
  have hset : ∀ (st st' : Store) (nm : String) (d : Bytes), n ≠ nm →
      efi_set_variable f st .efi_guid_shim nm d = some st' → st' g n = st g n := by
    intro st st' nm d hne hs
    unfold efi_set_variable at hs
    split at hs
    · cases hs
    · cases hs
      exact Store.put_other _ _ _ _ _ _ (fun hh => hne hh.2)
  unfold update_request
  cases ha : env.auth_step new_list with
  | none => rfl
  | some p =>
    obtain ⟨pw_crypt, auth⟩ := p
    simp only
    cases new_list with
    | none =>
      simp only
      cases h3 : efi_set_variable f (test_and_delete_var f s (req_names req)).2 .efi_guid_shim
          (auth_names req) (if (!env.use_simple_hash) = true then pw_crypt else auth) with
      | none => simp only; rw [hr, hr]
      | some s2 => simp only; rw [hset _ _ _ _ h2 h3, hr]
    | some data =>
      simp only
      cases h4 : efi_set_variable f s .efi_guid_shim (req_names req) data with
      | none => rfl
      | some s1 =>
        simp only
        cases h3 : efi_set_variable f s1 .efi_guid_shim (auth_names req)
            (if (!env.use_simple_hash) = true then pw_crypt else auth) with
        | none => simp only; rw [hr, hset _ _ _ _ h1 h4]
        | some s2 => simp only; rw [hset _ _ _ _ h2 h3, hset _ _ _ _ h1 h4]

theorem enc_cert_eq (c : Bytes) : enc_cert c = mok_request_list c.length c := by
  rw [mok_request_list_eq, enc_cert, List.append_assoc]

theorem enc_cert_length (c : Bytes) : (enc_cert c).length = c.length + 44 := by
  unfold enc_cert
  rw [List.length_append, List.length_append, list_header_length efi_guid_x509_cert _ _ _ rfl]
  simp [efi_guid_shim_bytes]
  omega

/-- The loop of `issue_mok_request` over valid certificate files builds the lists
of the admitted certificates, in order, and reaches the store `admitted_certs`
gives. -/
theorem issue_mok_request_loop_batch (env : Env) (f : Faults) (req : MokRequest) :
    ∀ (certs : List Bytes) (s : Store) (built : Bytes) (adm : List Bytes) (s' : Store),
      (∀ c ∈ certs, c.length < 4294967296 ∧ env.is_valid_cert c = true) →
      admitted_certs f req certs s = some (adm, s') →
      issue_mok_request_loop env f req (certs.map fun c => ⟨some c.length, some c⟩) s built =
        some (some (built ++ (adm.map enc_cert).flatten), s') := by
  intro certs
  induction certs with
  | nil =>
    intro s built adm s' _ h
    simp only [admitted_certs, Option.some.injEq, Prod.mk.injEq] at h
    obtain ⟨rfl, rfl⟩ := h
    simp [issue_mok_request_loop]
  | cons c cs ih =>
    intro s built adm s' hv h
    obtain ⟨h1, h2⟩ := hv c (List.mem_cons_self _ _)
    have hrest : ∀ x ∈ cs, x.length < 4294967296 ∧ env.is_valid_cert x = true :=
      fun x hx => hv x (List.mem_cons_of_mem _ hx)
    have hmod : c.length % 2 ^ 32 = c.length := Nat.mod_eq_of_lt (by norm_num; exact h1)
    simp only [List.map_cons, issue_mok_request_loop, Option.getD_some, hmod,
      Nat.lt_irrefl, if_false, List.take_length, h2, Bool.not_true, Bool.false_eq_true]
    rw [admitted_certs] at h
    cases hq : is_valid_request f s efi_guid_x509_cert c req with
    | none => rw [hq] at h; cases h
    | some valid =>
      rw [hq] at h
      simp only at h ⊢
      by_cases hz : valid ≠ 0
      · rw [if_pos hz] at h ⊢
        cases ha : admitted_certs f req cs s with
        | none => rw [ha] at h; cases h
        | some p =>
          obtain ⟨adm1, s1⟩ := p
          rw [ha] at h
          simp only [Option.some.injEq, Prod.mk.injEq] at h
          obtain ⟨rfl, rfl⟩ := h
          rw [ih s _ adm1 s1 hrest ha, ← enc_cert_eq]
          simp [List.append_assoc]
      · rw [if_neg hz] at h ⊢
        cases hp : in_pending_request f s efi_guid_x509_cert c req with
        | none => rw [hp] at h; cases h
        | some p =>
          obtain ⟨r, s1⟩ := p
          rw [hp] at h
          simp only at h ⊢
          exact ih s1 built adm s' hrest h

/-- The admitted certificates are a sublist of the batch: they keep its order. -/
theorem admitted_certs_sublist (f : Faults) (req : MokRequest) :
    ∀ (certs : List Bytes) (s : Store) (adm : List Bytes) (s' : Store),
      admitted_certs f req certs s = some (adm, s') → adm.Sublist certs := by
  intro certs
  induction certs with
  | nil =>
    intro s adm s' h
    simp only [admitted_certs, Option.some.injEq, Prod.mk.injEq] at h
    rw [← h.1]
  | cons c cs ih =>
    intro s adm s' h
    rw [admitted_certs] at h
    cases hq : is_valid_request f s efi_guid_x509_cert c req with
    | none => rw [hq] at h; cases h
    | some valid =>
      rw [hq] at h
      simp only at h
      by_cases hz : valid ≠ 0
      · rw [if_pos hz] at h
        cases ha : admitted_certs f req cs s with
        | none => rw [ha] at h; cases h
        | some p =>
          obtain ⟨adm1, s1⟩ := p
          rw [ha] at h
          simp only [Option.some.injEq, Prod.mk.injEq] at h
          obtain ⟨rfl, rfl⟩ := h
          exact (ih s adm1 s1 ha).cons₂ c
      · rw [if_neg hz] at h
        cases hp : in_pending_request f s efi_guid_x509_cert c req with
        | none => rw [hp] at h; cases h
        | some p =>
          obtain ⟨r, s1⟩ := p
          rw [hp] at h
          simp only at h
          exact (ih s1 adm s' h).cons c

/-- The fields of the list the specification describes for a certificate. -/
theorem enc_cert_fields (c : Bytes) (hc : c.length + 44 < 4294967296) :
    SignatureType (enc_cert c) 0 = efi_guid_x509_cert ∧
    SignatureListSize (enc_cert c) 0 = c.length + 44 ∧
    SignatureHeaderSize (enc_cert c) 0 = 0 ∧
    SignatureSize (enc_cert c) 0 = c.length + 16 ∧
    slice (enc_cert c) 28 16 = efi_guid_shim_bytes ∧
    (enc_cert c).drop 44 = c ∧
    (enc_cert c).length = c.length + 44 := by
  have hf := list_header_fields efi_guid_x509_cert (c.length + 44) 0 (c.length + 16)
    (efi_guid_shim_bytes ++ c) rfl
  have hl := list_header_length efi_guid_x509_cert (c.length + 44) 0 (c.length + 16) rfl
  have e : enc_cert c = list_header efi_guid_x509_cert (c.length + 44) 0 (c.length + 16) ++
      (efi_guid_shim_bytes ++ c) := by rw [enc_cert, List.append_assoc]
  rw [← e] at hf
  refine ⟨hf.1, ?_, ?_, ?_, ?_, ?_, enc_cert_length c⟩
  · rw [hf.2.1]; omega
  · rw [hf.2.2.1]
  · rw [hf.2.2.2]; omega
  · rw [e]
    have h := slice_append_right (list_header efi_guid_x509_cert (c.length + 44) 0
      (c.length + 16)) (efi_guid_shim_bytes ++ c) 0 16
    rw [hl] at h
    rw [h, slice_append_left efi_guid_shim_bytes c 0 16 (by decide)]
    rfl
  · rw [e, ← List.append_assoc]
    have h44 : (list_header efi_guid_x509_cert (c.length + 44) 0 (c.length + 16) ++
        efi_guid_shim_bytes).length = 44 := by
      rw [List.length_append, hl]; rfl
    exact List.drop_left' h44

theorem slice_take (B : Bytes) (t o n : Nat) (h : o + n ≤ t) :
    slice (B.take t) o n = slice B o n := by
  unfold slice
  rw [List.drop_take, List.take_take]
  congr 1
  omega

theorem SignatureType_take (B : Bytes) (t o : Nat) (h : o + 28 ≤ t) :
    SignatureType (B.take t) o = SignatureType B o := by
  unfold SignatureType
  exact slice_take B t o 16 (by omega)

theorem SignatureListSize_take (B : Bytes) (t o : Nat) (h : o + 20 ≤ t) :
    SignatureListSize (B.take t) o = SignatureListSize B o := by
  unfold SignatureListSize ld32
  rw [slice_take B t (o + 16) 4 (by omega)]

theorem SignatureHeaderSize_take (B : Bytes) (t o : Nat) (h : o + 28 ≤ t) :
    SignatureHeaderSize (B.take t) o = SignatureHeaderSize B o := by
  unfold SignatureHeaderSize ld32
  rw [slice_take B t (o + 20) 4 (by omega)]

theorem SignatureSize_take (B : Bytes) (t o : Nat) (h : o + 28 ≤ t) :
    SignatureSize (B.take t) o = SignatureSize B o := by
  unfold SignatureSize ld32
  rw [slice_take B t (o + 24) 4 (by omega)]

theorem list_supported_take (B : Bytes) (t o : Nat) (h : o + 28 ≤ t) :
    list_supported (B.take t) o = list_supported B o := by
  simp only [list_supported, SignatureType_take B t o h, SignatureSize_take B t o h]

theorem index_entry_take (B : Bytes) (t o : Nat) (h : o + 28 ≤ t) :
    index_entry (B.take t) o = index_entry B o := by
  simp only [index_entry, SignatureType_take B t o h, SignatureSize_take B t o h,
    SignatureHeaderSize_take B t o h, SignatureListSize_take B t o (by omega)]

/-- The nodes a run returns begin with the nodes it started from. -/
theorem build_mok_list_from_prefix (data : Bytes) (st : BuildState) (nodes : List MokListNode)
    (hinv : st.CertList + st.dbsize = data.length)
    (h : build_mok_list_from data st = .done nodes) : st.list <+: nodes := by
  obtain ⟨e1, _⟩ := build_mok_list_loop_index data (st.dbsize + 1) st nodes hinv h
  rw [e1]
  exact List.prefix_append _ _

/-- A run on the first `t` bytes of `B` beside a run on `B` that returns nodes:
from the same offset with the same nodes so far, the truncated run reports
corrupt data, reads beyond the `t` bytes, or returns a prefix of those nodes. -/
theorem build_mok_list_from_take (B : Bytes) (t : Nat) (ht : t ≤ B.length) :
    ∀ (n : Nat) (st st' : BuildState) (nodes : List MokListNode),
      st.dbsize = n → st.CertList + st.dbsize = B.length →
      st'.CertList = st.CertList → st'.list = st.list → st'.CertList + st'.dbsize = t →
      build_mok_list_from B st = .done nodes →
      build_mok_list_from (B.take t) st' = .corrupt ∨
      build_mok_list_from (B.take t) st' = .oob ∨
      ∃ pre, build_mok_list_from (B.take t) st' = .done pre ∧ pre <+: nodes := by
  intro n
  induction n using Nat.strong_induction_on with
  | _ n ih =>
    intro st st' nodes hn hinv hC hl hinv' h
    have hlen : (B.take t).length = t := by rw [List.length_take]; omega
    have hpre := build_mok_list_from_prefix B st nodes hinv h
    rw [build_mok_list_from_eq] at h ⊢
    cases hs' : build_mok_list_step (B.take t) st' with
    | ret r =>
      simp only
      cases r with
      | corrupt => left; rfl
      | oob => right; left; rfl
      | nofuel => exact absurd hs' (build_mok_list_step_ne_nofuel _ _)
      | done l =>
        right; right
        have hd := (build_mok_list_step_done _ _ _ hs').1
        exact ⟨l, rfl, by rw [hd, hl]; exact hpre⟩
    | next st1' =>
      simp only
      have hn' := build_mok_list_step_next _ _ _ hs'
      have hl' := (build_mok_list_step_list _ _ _ hs').1
      rw [hlen] at hn'
      have h28 : st'.CertList + 28 ≤ t := hn'.2.2.1
      have hL : SignatureListSize (B.take t) st'.CertList = SignatureListSize B st.CertList := by
        rw [SignatureListSize_take B t _ (by omega), hC]
      rw [hL] at hn'
      rw [list_supported_take B t _ h28, index_entry_take B t _ h28, hC, hl] at hl'
      cases hs : build_mok_list_step B st with
      | ret r =>
        rw [hs] at h
        simp only at h
        rw [h] at hs
        have hd := (build_mok_list_step_done _ _ _ hs).2
        omega
      | next st1 =>
        rw [hs] at h
        simp only at h
        have hn1 := build_mok_list_step_next _ _ _ hs
        have hl1 := (build_mok_list_step_list _ _ _ hs).1
        exact ih st1.dbsize (by omega) st1 st1' nodes rfl (by omega) (by omega)
          (by rw [hl', hl1]) (by omega) h

/-- A pass reads beyond the buffer only in the loop condition, with bytes left but
fewer than the 20 that reach the end of `SignatureListSize`. -/
theorem build_mok_list_step_oob (data : Bytes) (st : BuildState)
    (h : build_mok_list_step data st = .ret .oob) :
    st.dbsize ≠ 0 ∧ data.length < st.CertList + 20 := by
  unfold build_mok_list_step at h
  simp only [sizeof_EFI_SIGNATURE_LIST] at h
  split_ifs at h with h1 h2 h3 h4 h5 h6 h7 h8
  all_goals first
    | (cases h; simp only [inb, Bool.not_eq_true', decide_eq_false_iff_not] at h2;
       exact ⟨h1, by omega⟩)
    | (cases h)

theorem build_mok_list_loop_oob (data : Bytes) :
    ∀ (fuel : Nat) (st : BuildState), st.CertList + st.dbsize = data.length →
      build_mok_list_loop data fuel st = .oob →
      ∃ o, o < data.length ∧ data.length < o + 20 := by
  intro fuel
  induction fuel with
  | zero => intro st _ h; simp [build_mok_list_loop] at h
  | succ k ih =>
    intro st hinv h
    simp only [build_mok_list_loop] at h
    cases hs : build_mok_list_step data st with
    | ret r =>
      rw [hs] at h
      simp only at h
      rw [h] at hs
      have ho := build_mok_list_step_oob data st hs
      exact ⟨st.CertList, by omega, ho.2⟩
    | next st' =>
      rw [hs] at h
      simp only at h
      have hn := build_mok_list_step_next data st st' hs
      exact ih st' (by omega) h

/-- Decoding the first `t` bytes of a buffer that `build_mok_list` accepts: the
result is a corrupt-data failure, or a prefix of the nodes of the whole buffer
with every range inside the `t` bytes, or the loop condition reads
`SignatureListSize` beyond the `t` bytes. -/
theorem build_mok_list_take (B : Bytes) (nodes : List MokListNode) (t : Nat)
    (h : build_mok_list B = .done nodes) (ht : t ≤ B.length) :
    build_mok_list (B.take t) = .corrupt ∨
    (build_mok_list (B.take t) = .oob ∧ ∃ o, o < t ∧ t < o + 20) ∨
    ∃ pre, build_mok_list (B.take t) = .done pre ∧ pre <+: nodes ∧
      ∀ node ∈ pre, node.mok + node.mok_size ≤ t := by
  have hlen : (B.take t).length = t := by rw [List.length_take]; omega
  rw [build_mok_list_eq_from] at h
  rcases build_mok_list_from_take B t ht B.length ⟨0, B.length, []⟩ ⟨0, t, []⟩ nodes rfl
    (by simp) rfl rfl (by simp) h with h1 | h1 | ⟨pre, h1, h2⟩
  · left
    rw [build_mok_list_eq_from, hlen]
    exact h1
  · right; left
    have e : build_mok_list (B.take t) = .oob := by
      rw [build_mok_list_eq_from, hlen]; exact h1
    refine ⟨e, ?_⟩
    have ho := build_mok_list_loop_oob (B.take t) ((B.take t).length + 1)
      ⟨0, (B.take t).length, []⟩ (by simp) e
    rw [hlen] at ho
    exact ho
  · right; right
    have e : build_mok_list (B.take t) = .done pre := by
      rw [build_mok_list_eq_from, hlen]; exact h1
    refine ⟨pre, e, h2, ?_⟩
    obtain ⟨e1, e2⟩ := build_mok_list_loop_index (B.take t) ((B.take t).length + 1)
      ⟨0, (B.take t).length, []⟩ pre (by simp) e
    intro node hn
    rw [e1] at hn
    simp only [List.nil_append, List.mem_map] at hn
    obtain ⟨o, ho, rfl⟩ := hn
    have c := (e2 o ho).2.2.2
    rw [hlen] at c
    exact c

/-! ### `revoke_request` -/

/-- `test_and_delete_var` on a variable whose size lookup does not fail: the
result is 0. -/
theorem test_and_delete_var_ok (f : Faults) (s : Store) (name : String)
    (hsize : f.size .efi_guid_shim name = false) :
    (test_and_delete_var f s name).1 = 0 := by
  unfold test_and_delete_var efi_get_variable_size
  cases hs : s .efi_guid_shim name <;> simp [hsize]

/-- `test_and_delete_var` on a variable that does not exist changes nothing. -/
theorem test_and_delete_var_none (f : Faults) (s : Store) (name : String)
    (hsize : f.size .efi_guid_shim name = false) (hs : s .efi_guid_shim name = none) :
    test_and_delete_var f s name = (0, s) := by
  unfold test_and_delete_var efi_get_variable_size
  simp [hsize, hs]

/-- C21. For every queue and every store, when the size lookups and the deletions
of the two variables of the queue are not made to fail, `revoke_request` returns
0, leaves neither the data variable nor its Authorization variable in the store
and changes no other variable; a second `revoke_request` returns 0 and leaves
the store as the first one left it. -/
theorem revoke_request_idempotent (f : Faults) (s : Store) (req : MokRequest)
    (h1 : f.size .efi_guid_shim (req_names req) = false)
    (h2 : f.size .efi_guid_shim (auth_names req) = false)
    (h3 : f.del .efi_guid_shim (req_names req) = false)
    (h4 : f.del .efi_guid_shim (auth_names req) = false) :
    (revoke_request f s req).1 = 0 ∧
    (revoke_request f s req).2 .efi_guid_shim (req_names req) = none ∧
    (revoke_request f s req).2 .efi_guid_shim (auth_names req) = none ∧
    (∀ (g : Vendor) (n : String),
      ¬ (g = .efi_guid_shim ∧ (n = req_names req ∨ n = auth_names req)) →
      (revoke_request f s req).2 g n = s g n) ∧
    revoke_request f (revoke_request f s req).2 req = (0, (revoke_request f s req).2) := by
  have hne : req_names req ≠ auth_names req := by cases req <;> decide
  have hrev : ∀ st : Store, revoke_request f st req =
      (0, (test_and_delete_var f (test_and_delete_var f st (req_names req)).2
        (auth_names req)).2) := by
    intro st
    unfold revoke_request
    simp only [test_and_delete_var_ok f _ _ h1, test_and_delete_var_ok f _ _ h2]
    rfl
  have hreq : (revoke_request f s req).2 .efi_guid_shim (req_names req) = none := by
    rw [hrev]
    simp only
    rw [test_and_delete_var_other f _ _ _ _ (fun h => hne h.2)]
    exact test_and_delete_var_absent f s _ h3
  have hauth : (revoke_request f s req).2 .efi_guid_shim (auth_names req) = none := by
    rw [hrev]
    exact test_and_delete_var_absent f _ _ h4
  refine ⟨by rw [hrev], hreq, hauth, ?_, ?_⟩
  · intro g n hn
    rw [hrev]
    simp only
    rw [test_and_delete_var_other f _ _ _ _ (fun h => hn ⟨h.1, Or.inr h.2⟩),
      test_and_delete_var_other f _ _ _ _ (fun h => hn ⟨h.1, Or.inl h.2⟩)]
  · rw [hrev (revoke_request f s req).2]
    rw [test_and_delete_var_none f _ _ h1 hreq]
    simp only
    rw [test_and_delete_var_none f _ _ h2 hauth]

/-- Witness for C21: the enrolment of X pending in `ex_store_enroll_pending` is
revoked. -/
theorem revoke_request_idempotent_witness :
    Faults.none.size .efi_guid_shim (req_names .ENROLL_MOK) = false ∧
    Faults.none.size .efi_guid_shim (auth_names .ENROLL_MOK) = false ∧
    Faults.none.del .efi_guid_shim (req_names .ENROLL_MOK) = false ∧
    Faults.none.del .efi_guid_shim (auth_names .ENROLL_MOK) = false ∧
    ex_store_enroll_pending .efi_guid_shim (req_names .ENROLL_MOK) ≠ none ∧
    (revoke_request Faults.none ex_store_enroll_pending .ENROLL_MOK).1 = 0 ∧
    (revoke_request Faults.none ex_store_enroll_pending .ENROLL_MOK).2 .efi_guid_shim
      (req_names .ENROLL_MOK) = none ∧
    (revoke_request Faults.none ex_store_enroll_pending .ENROLL_MOK).2 .efi_guid_shim
      (auth_names .ENROLL_MOK) = none ∧
    revoke_request Faults.none
        (revoke_request Faults.none ex_store_enroll_pending .ENROLL_MOK).2 .ENROLL_MOK =
      (0, (revoke_request Faults.none ex_store_enroll_pending .ENROLL_MOK).2) :=
  ⟨by decide, by decide, by decide, by decide, by decide,
   (revoke_request_idempotent Faults.none ex_store_enroll_pending .ENROLL_MOK
      (by decide) (by decide) (by decide) (by decide)).1,
   (revoke_request_idempotent Faults.none ex_store_enroll_pending .ENROLL_MOK
      (by decide) (by decide) (by decide) (by decide)).2.1,
   (revoke_request_idempotent Faults.none ex_store_enroll_pending .ENROLL_MOK
      (by decide) (by decide) (by decide) (by decide)).2.2.1,
   (revoke_request_idempotent Faults.none ex_store_enroll_pending .ENROLL_MOK
      (by decide) (by decide) (by decide) (by decide)).2.2.2.2⟩

/-! ### Termination of `build_mok_list` -/

/-- Every pass of the loop that continues has consumed at least one byte: after
`n` passes at most `data.length - n` bytes are left. -/
theorem build_mok_list_after_bound (data : Bytes) :
    ∀ (n : Nat) (st : BuildState), build_mok_list_after data n = some st →
      n + st.dbsize ≤ data.length := by
  intro n
  induction n with
  | zero =>
    intro st h
    simp only [build_mok_list_after, Option.some.injEq] at h
    rw [← h]
    simp
  | succ k ih =>
    intro st h
    simp only [build_mok_list_after] at h
    cases hk : build_mok_list_after data k with
    | none => rw [hk] at h; cases h
    | some st0 =>
      rw [hk] at h
      simp only at h
      cases hs : build_mok_list_step data st0 with
      | ret r => rw [hs] at h; cases h
      | next st1 =>
        rw [hs] at h
        simp only [Option.some.injEq] at h
        subst h
        have hn := build_mok_list_step_next data st0 st1 hs
        have := ih st0 hk
        omega

/-- C28. `build_mok_list` terminates on every buffer: a pass of the loop that
does not return consumes `total_size` bytes with `0 < total_size <= dbsize`, so
the bytes left strictly decrease; after `n` passes at most `data.length - n` bytes
are left, so there are at most `data.length` passes; the iteration bound of the
model is never reached, and every larger bound gives the same result. -/
theorem build_mok_list_terminates (data : Bytes) :
    (∀ st st' : BuildState, build_mok_list_step data st = .next st' →
      0 < SignatureListSize data st.CertList ∧
      SignatureListSize data st.CertList ≤ st.dbsize ∧
      st'.dbsize = st.dbsize - SignatureListSize data st.CertList ∧
      st'.dbsize < st.dbsize) ∧
    (∀ (n : Nat) (st : BuildState), build_mok_list_after data n = some st →
      n + st.dbsize ≤ data.length ∧ n ≤ data.length) ∧
    build_mok_list data ≠ .nofuel ∧
    (∀ fuel : Nat, data.length < fuel →
      build_mok_list_loop data fuel ⟨0, data.length, []⟩ = build_mok_list data) := by
  refine ⟨?_, ?_, build_mok_list_ne_nofuel data, ?_⟩
  · intro st st' h
    have hn := build_mok_list_step_next data st st' h
    exact ⟨hn.1, hn.2.1, hn.2.2.2.2, by omega⟩
  · intro n st h
    have := build_mok_list_after_bound data n st h
    exact ⟨this, by omega⟩
  · intro fuel hlt
    rw [build_mok_list_loop_fuel data fuel ⟨0, data.length, []⟩ hlt, build_mok_list_eq_from]

/-! ### `issue_hash_request` on a variable that is already staged -/

/-- With an admissible hash and a request variable whose content `build_mok_list`
rejects, `issue_hash_request` returns 0 and leaves the store as it is. -/
theorem issue_hash_request_corrupt (env : Env) (f : Faults) (s : Store) (hash_str : String)
    (req : MokRequest) (t : Guid) (n : Nat) (old : Bytes)
    (hid : identify_hash_type hash_str.toList = some (t, n))
    (hvalid : is_valid_request f s t (hex_str_to_binary hash_str.toList n) req = some 1)
    (hget : efi_get_variable f s .efi_guid_shim (req_names req) = .ok old)
    (hbad : build_mok_list old = .corrupt) :
    issue_hash_request env f s hash_str req = some (0, s) := by
  unfold issue_hash_request
  simp only [hid, hvalid]
  rw [if_neg (by decide), hget]
  simp only [hbad]

/-- C27 (failing input). `MokNew` holds `ex_bad_size`, which `build_mok_list`
rejects as corrupt, and the SHA256 hash of `ex_hash_str` is admissible for
enrolment. `issue_hash_request` leaves through `goto error` while `ret` still
holds the 0 of the successful `efi_get_variable`: nothing is written, and the
status returned is 0, not a failure. -/
theorem issue_hash_request_corrupt_returns_zero :
    build_mok_list ex_bad_size = .corrupt ∧
    is_valid_request Faults.none ex_store_corrupt_pending efi_guid_sha256 ex_digest
      .ENROLL_MOK = some 1 ∧
    observe ["MokNew", "MokAuth"]
      (issue_hash_request ex_env Faults.none ex_store_corrupt_pending ex_hash_str
        .ENROLL_MOK) =
      some (0, [some ex_bad_size, some ex_auth_old]) := by
  decide

/-- C29 (failing input). `MokNew` holds the SHA256 list of `ex_digest`, created by
the new-list path with owner `efi_guid_shim`. Enrolling `ex_digest2` takes the
merge path, which copies `hash_type` to the place of the owner: the entry added
carries the 16 bytes of the SHA256 type GUID, not the shim GUID. -/
theorem issue_hash_request_merge_owner :
    slice ex_sha256_list 28 16 = efi_guid_shim_bytes ∧
    is_valid_request Faults.none ex_store_hash_pending efi_guid_sha256 ex_digest2
      .ENROLL_MOK = some 1 ∧
    observe ["MokNew"]
      (issue_hash_request ex_env Faults.none ex_store_hash_pending ex_hash_str2
        .ENROLL_MOK) =
      some (0, [some (hash_list efi_guid_sha256
        (efi_guid_shim_bytes ++ ex_digest ++ (efi_guid_sha256 ++ ex_digest2)))]) ∧
    slice (hash_list efi_guid_sha256
        (efi_guid_shim_bytes ++ ex_digest ++ (efi_guid_sha256 ++ ex_digest2))) (28 + 48) 16 =
      efi_guid_sha256 ∧
    efi_guid_sha256 ≠ efi_guid_shim_bytes := by
  decide

/-- C25 (failing input). `MokNew` holds a list of unknown type (29 bytes) followed
by the SHA256 list of `ex_digest` (76 bytes), and fresh memory holds the byte
`0x5a`. Enrolling `ex_digest2` takes the merge path, which copies the indexed
lists only: the 153 bytes written are the merged SHA256 list followed by 29 bytes
of the fresh memory; the list of unknown type is gone. -/
theorem issue_hash_request_merge_drops_unknown :
    build_mok_list (ex_unknown_only ++ ex_sha256_list) = .done [⟨29, 48, 57⟩] ∧
    is_valid_request Faults.none ex_store_unknown_hash efi_guid_sha256 ex_digest2
      .ENROLL_MOK = some 1 ∧
    observe ["MokNew"]
      (issue_hash_request ex_env_heap Faults.none ex_store_unknown_hash ex_hash_str2
        .ENROLL_MOK) =
      some (0, [some (hash_list efi_guid_sha256
          (efi_guid_shim_bytes ++ ex_digest ++ (efi_guid_sha256 ++ ex_digest2)) ++
        List.replicate 29 0x5a)]) ∧
    ex_unknown_only.length = 29 := by
  decide

theorem hex_str_to_binary_length :
    ∀ (n : Nat) (l : List Char), 2 * n ≤ l.length → (hex_str_to_binary l n).length = n := by
  intro n
  induction n with
  | zero =>
    intro l _
    cases l with
    | nil => rfl
    | cons c1 r =>
      cases r with
      | nil => rfl
      | cons c2 r2 => rfl
  | succ k ih =>
    intro l h
    cases l with
    | nil => simp at h
    | cons c1 r =>
      cases r with
      | nil => simp at h; omega
      | cons c2 r2 =>
        simp only [hex_str_to_binary, List.length_cons]
        rw [ih r2 (by simp only [List.length_cons] at h; omega)]

/-- A hash string that `identify_hash_type` accepts is one of the digest types,
of twice as many digits as the digest has bytes. -/
theorem identify_hash_type_some (l : List Char) (t : Guid) (n : Nat)
    (h : identify_hash_type l = some (t, n)) :
    t ∈ digest_types ∧ n = efi_hash_size t ∧ l.length = 2 * n := by
  unfold identify_hash_type at h
  simp only [SHA224_DIGEST_LENGTH, SHA256_DIGEST_LENGTH, SHA384_DIGEST_LENGTH,
    SHA512_DIGEST_LENGTH] at h
  split_ifs at h with h0 h1 h2 h3 h4
  all_goals
    simp only [Option.some.injEq, Prod.mk.injEq] at h
    obtain ⟨rfl, rfl⟩ := h
    refine ⟨by decide, by decide, by omega⟩

theorem hash_digest_length (l : List Char) (t : Guid) (n : Nat)
    (h : identify_hash_type l = some (t, n)) :
    (hex_str_to_binary l n).length = efi_hash_size t := by
  obtain ⟨_, h2, h3⟩ := identify_hash_type_some l t n h
  rw [hex_str_to_binary_length n l (by omega), h2]

/-- C24 (amended). Merge scenario: when the request variable holds one hash list
of type `t` with the single entry `[H1]` and an admissible hash `H2` of type `t`
is submitted, the buffer handed to `update_request` is exactly one list of type
`t` whose entries are `[H1, H2]` in that order (the new entry last, its owner
bytes being those of `t`), with `total_size` increased by one entry width; it
decodes to a single node. -/
theorem issue_hash_request_merge_appends (env : Env) (f : Faults) (s : Store)
    (hash_str : String) (req : MokRequest) (t : Guid) (o1 h1 : Bytes)
    (hid : identify_hash_type hash_str.toList = some (t, efi_hash_size t))
    (ho : o1.length = 16) (hh : h1.length = efi_hash_size t)
    (hvar : s .efi_guid_shim (req_names req) = some (hash_list t (o1 ++ h1)))
    (hget : f.get .efi_guid_shim (req_names req) = false)
    (hvalid : is_valid_request f s t
      (hex_str_to_binary hash_str.toList (efi_hash_size t)) req = some 1) :
    issue_hash_request env f s hash_str req =
      some (if (update_request env f s (some (hash_list t ((o1 ++ h1) ++
                (t ++ hex_str_to_binary hash_str.toList (efi_hash_size t))))) req).1 < 0
        then (-1, (update_request env f s (some (hash_list t ((o1 ++ h1) ++
                (t ++ hex_str_to_binary hash_str.toList (efi_hash_size t))))) req).2)
        else (0, (update_request env f s (some (hash_list t ((o1 ++ h1) ++
                (t ++ hex_str_to_binary hash_str.toList (efi_hash_size t))))) req).2)) ∧
    build_mok_list (hash_list t ((o1 ++ h1) ++
        (t ++ hex_str_to_binary hash_str.toList (efi_hash_size t)))) =
      .done [⟨0, 2 * (efi_hash_size t + 16), 28⟩] ∧
    SignatureListSize (hash_list t ((o1 ++ h1) ++
        (t ++ hex_str_to_binary hash_str.toList (efi_hash_size t)))) 0 =
      SignatureListSize (hash_list t (o1 ++ h1)) 0 + (efi_hash_size t + 16) ∧
    slice (hash_list t ((o1 ++ h1) ++
        (t ++ hex_str_to_binary hash_str.toList (efi_hash_size t)))) (28 + 16)
        (efi_hash_size t) = h1 ∧
    slice (hash_list t ((o1 ++ h1) ++
        (t ++ hex_str_to_binary hash_str.toList (efi_hash_size t))))
        (28 + (efi_hash_size t + 16) + 16) (efi_hash_size t) =
      hex_str_to_binary hash_str.toList (efi_hash_size t) := by
  obtain ⟨ht, _, _⟩ := identify_hash_type_some _ _ _ hid
  have hd := hash_digest_length _ _ _ hid
  have ht16 := (digest_types_facts t ht).1
  have hb := (digest_types_facts t ht).2
  generalize hg : hex_str_to_binary hash_str.toList (efi_hash_size t) = h2 at hd hvalid ⊢
  have hE1 : (o1 ++ h1).length = efi_hash_size t + 16 := by
    rw [List.length_append, ho, hh]; omega
  have hE2 : ((o1 ++ h1) ++ (t ++ h2)).length = 2 * (efi_hash_size t + 16) := by
    rw [List.length_append, hE1, List.length_append, ht16, hd]; omega
  have hst : hash_request_staged env.heap t h2 (s .efi_guid_shim (req_names req)) =
      some (hash_list t ((o1 ++ h1) ++ (t ++ h2))) := by
    rw [hvar]
    exact hash_request_staged_merge env.heap t h2 (o1 ++ h1) ht hd (by omega) (by omega)
  have hdec := hash_list_decode t ((o1 ++ h1) ++ (t ++ h2)) ht (by omega) (by omega)
  rw [hE2] at hdec
  have hf1 := (hash_list_fields t (o1 ++ h1) ht).2.1
  have hf2 := (hash_list_fields t ((o1 ++ h1) ++ (t ++ h2)) ht).2.1
  rw [hE1] at hf1
  rw [hE2] at hf2
  have hent : (o1 ++ h1) ++ (t ++ h2) = entry_array [(o1, h1), (t, h2)] := by
    simp [entry_array]
  have hsl := entry_array_digests (efi_hash_size t) [(o1, h1), (t, h2)]
    (list_header t (sizeof_EFI_SIGNATURE_LIST + ((o1 ++ h1) ++ (t ++ h2)).length) 0
      (efi_hash_size t + sizeof_efi_guid_t))
    (by
      intro e he
      simp only [List.mem_cons, List.mem_singleton, List.not_mem_nil, or_false] at he
      rcases he with rfl | rfl
      · exact ⟨ho, hh⟩
      · exact ⟨ht16, hd⟩)
  rw [← hent, list_header_length t _ _ _ ht16] at hsl
  simp only [List.length_cons, List.length_nil, List.range_succ, List.range_zero, List.nil_append,
    List.map_cons, List.map_nil, List.cons_append, List.cons.injEq, and_true, Nat.zero_mul,
    Nat.add_zero, Nat.one_mul] at hsl
  refine ⟨?_, hdec, ?_, ?_, ?_⟩
  · exact issue_hash_request_stages env f s hash_str req t _ hid
      (by rw [hg]; exact hvalid) hget (by rw [hg]; exact hst)
  · rw [hf1, hf2]; omega
  · exact hsl.1
  · exact hsl.2

/-- Witness for C24 (amended): `MokNew` holds the SHA256 list of `ex_digest` and
`ex_digest2` is enrolled. -/
theorem issue_hash_request_merge_appends_witness :
    identify_hash_type ex_hash_str2.toList =
      some (efi_guid_sha256, efi_hash_size efi_guid_sha256) ∧
    efi_guid_shim_bytes.length = 16 ∧ ex_digest.length = efi_hash_size efi_guid_sha256 ∧
    ex_store_hash_pending .efi_guid_shim (req_names .ENROLL_MOK) =
      some (hash_list efi_guid_sha256 (efi_guid_shim_bytes ++ ex_digest)) ∧
    Faults.none.get .efi_guid_shim (req_names .ENROLL_MOK) = false ∧
    is_valid_request Faults.none ex_store_hash_pending efi_guid_sha256
      (hex_str_to_binary ex_hash_str2.toList (efi_hash_size efi_guid_sha256))
      .ENROLL_MOK = some 1 ∧
    build_mok_list (hash_list efi_guid_sha256 ((efi_guid_shim_bytes ++ ex_digest) ++
        (efi_guid_sha256 ++
          hex_str_to_binary ex_hash_str2.toList (efi_hash_size efi_guid_sha256)))) =
      .done [⟨0, 2 * (efi_hash_size efi_guid_sha256 + 16), 28⟩] ∧
    slice (hash_list efi_guid_sha256 ((efi_guid_shim_bytes ++ ex_digest) ++
        (efi_guid_sha256 ++
          hex_str_to_binary ex_hash_str2.toList (efi_hash_size efi_guid_sha256)))) (28 + 16)
        (efi_hash_size efi_guid_sha256) = ex_digest ∧
    slice (hash_list efi_guid_sha256 ((efi_guid_shim_bytes ++ ex_digest) ++
        (efi_guid_sha256 ++
          hex_str_to_binary ex_hash_str2.toList (efi_hash_size efi_guid_sha256))))
        (28 + (efi_hash_size efi_guid_sha256 + 16) + 16) (efi_hash_size efi_guid_sha256) =
      hex_str_to_binary ex_hash_str2.toList (efi_hash_size efi_guid_sha256) :=
  ⟨by decide, by decide, by decide, by decide, by decide, by decide,
   (issue_hash_request_merge_appends ex_env Faults.none ex_store_hash_pending ex_hash_str2
      .ENROLL_MOK efi_guid_sha256 efi_guid_shim_bytes ex_digest (by decide) (by decide)
      (by decide) (by decide) (by decide) (by decide)).2.1,
   (issue_hash_request_merge_appends ex_env Faults.none ex_store_hash_pending ex_hash_str2
      .ENROLL_MOK efi_guid_sha256 efi_guid_shim_bytes ex_digest (by decide) (by decide)
      (by decide) (by decide) (by decide) (by decide)).2.2.2⟩

/-- C24 (counterexample). `MokNew` holds one SHA256 list with the entry H1 =
`ex_digest`; the admissible hash H2 = `ex_digest2` is enrolled. The list written
has H1 as entry 0 and H2 as entry 1: the new entry is last, not first. -/
theorem issue_hash_request_merge_order :
    is_valid_request Faults.none ex_store_hash_pending efi_guid_sha256 ex_digest2
      .ENROLL_MOK = some 1 ∧
    observe ["MokNew"]
      (issue_hash_request ex_env Faults.none ex_store_hash_pending ex_hash_str2
        .ENROLL_MOK) =
      some (0, [some (list_header efi_guid_sha256 124 0 48 ++
        (efi_guid_shim_bytes ++ ex_digest) ++ (efi_guid_sha256 ++ ex_digest2))]) ∧
    list_header efi_guid_sha256 124 0 48 ++
        (efi_guid_shim_bytes ++ ex_digest) ++ (efi_guid_sha256 ++ ex_digest2) ≠
      list_header efi_guid_sha256 124 0 48 ++
        (efi_guid_shim_bytes ++ ex_digest2) ++ (efi_guid_shim_bytes ++ ex_digest) ∧
    list_header efi_guid_sha256 124 0 48 ++
        (efi_guid_shim_bytes ++ ex_digest) ++ (efi_guid_sha256 ++ ex_digest2) ≠
      list_header efi_guid_sha256 124 0 48 ++
        (efi_guid_sha256 ++ ex_digest2) ++ (efi_guid_shim_bytes ++ ex_digest) := by
  decide

/-! ### `generate_auth` -/

theorem efichar_bytes_length (plat : Platform) (hw : 0 < plat.sizeof_wchar_t) (c : UInt8) :
    (efichar_bytes plat c).length = plat.sizeof_wchar_t := by
  simp only [efichar_bytes, sizeof_efi_char16_t, List.length_cons, List.length_replicate]
  omega

theorem efichar_flatten_length (plat : Platform) (hw : 0 < plat.sizeof_wchar_t) (l : Bytes) :
    ((l.map (efichar_bytes plat)).flatten).length = l.length * plat.sizeof_wchar_t := by
  induction l with
  | nil => simp
  | cons c cs ih =>
    simp only [List.map_cons, List.flatten_cons, List.length_append, List.length_cons, ih,
      efichar_bytes_length plat hw, Nat.succ_mul]
    omega

theorem strlen_eq_length (s : Bytes) (h : ∀ c ∈ s, c ≠ 0) : strlen s = s.length := by
  unfold strlen
  rw [List.takeWhile_eq_self_iff.mpr]
  intro c hc
  simpa using h c hc

/-- What `generate_auth` hashes for a password of 1 to 256 characters entered at
the prompt (`pw_len` is its length): the new list, then the characters of the
password except the last one, each as one `efi_char16_t`. -/
theorem generate_auth_input_eq (plat : Platform) (hw : 0 < plat.sizeof_wchar_t)
    (new_list : Option Bytes) (pw : Bytes) (hnul : ∀ c ∈ pw, c ≠ 0)
    (h1 : 1 ≤ pw.length) (h2 : pw.length ≤ 256) :
    generate_auth_input plat new_list pw pw.length =
      new_list.getD [] ++ ((pw.take (pw.length - 1)).map (efichar_bytes plat)).flatten := by
  have hdiv : pw.length * plat.sizeof_wchar_t / plat.sizeof_wchar_t = pw.length :=
    Nat.mul_div_cancel _ hw
  have hb : (pw.length + 18446744073709551616 - 1) % 18446744073709551616 = pw.length - 1 := by
    omega
  have hs : pw.length % 4294967296 = pw.length := by omega
  have hmin : min pw.length (pw.length - 1) = pw.length - 1 := by omega
  have hl : ((pw.take (pw.length - 1)).map (efichar_bytes plat)).flatten.length =
      (pw.length - 1) * plat.sizeof_wchar_t := by
    rw [efichar_flatten_length plat hw, List.length_take,
      Nat.min_eq_left (Nat.sub_le _ _)]
  simp only [generate_auth_input, efichar_from_char, sizeof_efi_char16_t,
    strlen_eq_length pw hnul, hdiv, hb, hs, hmin]
  rw [← hl, List.take_left]
  cases new_list <;> rfl

/-- C22 (failing input). For the password `ab` (`pw_len = 2`) and any staged
buffer, `generate_auth` hashes the buffer followed by the single character `a`:
`efichar_from_char` is given `pw_len * sizeof (efi_char16_t)` as the size of the
destination and keeps one element of it for the terminator, so the last character
is not converted; with a `wchar_t` of 4 bytes a character takes 4 bytes. Neither
input is the buffer followed by the UTF-16LE encoding of `ab`. For a password of
one character the digest is that of the buffer alone. -/
theorem generate_auth_drops_last_character (sha256 : Bytes → Bytes) (buf : Bytes) :
    generate_auth sha256 ex_plat32 (some buf) (some [0x61, 0x62]) 2 =
      some (sha256 (buf ++ [0x61, 0, 0, 0])) ∧
    generate_auth sha256 ex_plat16 (some buf) (some [0x61, 0x62]) 2 =
      some (sha256 (buf ++ [0x61, 0])) ∧
    utf16le [0x61, 0x62] = [0x61, 0, 0x62, 0] ∧
    buf ++ [0x61, 0, 0, 0] ≠ buf ++ utf16le [0x61, 0x62] ∧
    buf ++ [0x61, 0] ≠ buf ++ utf16le [0x61, 0x62] ∧
    generate_auth sha256 ex_plat32 (some buf) (some [0x61]) 1 = some (sha256 (buf ++ [])) ∧
    generate_auth sha256 ex_plat16 (some buf) (some [0x61]) 1 = some (sha256 (buf ++ [])) := by
  have key : ∀ (plat : Platform), 0 < plat.sizeof_wchar_t → ∀ pw : Bytes,
      (∀ c ∈ pw, c ≠ 0) → 1 ≤ pw.length → pw.length ≤ 256 →
      generate_auth sha256 plat (some buf) (some pw) pw.length =
        some (sha256 (buf ++ ((pw.take (pw.length - 1)).map (efichar_bytes plat)).flatten)) := by
    intro plat hw pw h0 h1 h2
    simp only [generate_auth, generate_auth_input_eq plat hw (some buf) pw h0 h1 h2,
      Option.getD_some]
  have k1 := key ex_plat32 (by decide) [0x61, 0x62] (by decide) (by decide) (by decide)
  have k2 := key ex_plat16 (by decide) [0x61, 0x62] (by decide) (by decide) (by decide)
  have k3 := key ex_plat32 (by decide) [0x61] (by decide) (by decide) (by decide)
  have k4 := key ex_plat16 (by decide) [0x61] (by decide) (by decide) (by decide)
  have e1 : ((List.take ([0x61, 0x62] : Bytes).length.pred [0x61, 0x62]).map
      (efichar_bytes ex_plat32)).flatten = [0x61, 0, 0, 0] := by decide
  have e2 : ((List.take ([0x61, 0x62] : Bytes).length.pred [0x61, 0x62]).map
      (efichar_bytes ex_plat16)).flatten = [0x61, 0] := by decide
  have e3 : ((List.take ([0x61] : Bytes).length.pred [0x61]).map
      (efichar_bytes ex_plat32)).flatten = [] := by decide
  have e4 : ((List.take ([0x61] : Bytes).length.pred [0x61]).map
      (efichar_bytes ex_plat16)).flatten = [] := by decide
  simp only [Nat.pred_eq_sub_one] at e1 e2 e3 e4
  rw [e1] at k1
  rw [e2] at k2
  rw [e3] at k3
  rw [e4] at k4
  refine ⟨k1, k2, by decide, ?_, ?_, k3, k4⟩
  · simp only [ne_eq, List.append_cancel_left_eq]
    decide
  · simp only [ne_eq, List.append_cancel_left_eq]
    decide

/-- On a platform whose `wchar_t` has 2 bytes, the characters of an ASCII
password are converted to their UTF-16LE encoding. -/
theorem efichar_utf16le (pw : Bytes) (h : ∀ c ∈ pw, c.toNat < 128) :
    (pw.map (efichar_bytes ex_plat16)).flatten = utf16le pw := by
  induction pw with
  | nil => rfl
  | cons c cs ih =>
    have hc := h c (List.mem_cons_self _ _)
    have e : efichar_bytes ex_plat16 c = [c, 0] := by
      simp only [efichar_bytes, sizeof_efi_char16_t, ex_plat16, List.replicate]
      have : ¬ (True ∧ 128 ≤ c.toNat) := by omega
      simp [this]
    simp only [List.map_cons, List.flatten_cons, utf16le, e]
    rw [ih (fun x hx => h x (List.mem_cons_of_mem _ hx))]
    rfl

/-! ### The bytes written to the Authorization variable -/

/-- The store `update_request` leaves when no call fails: the new list in the
request variable, and in the Authorization variable the password record, or the
array `auth` when `use_simple_hash` is set. -/
theorem update_request_written (env : Env) (s : Store) (data pw_crypt auth : Bytes)
    (req : MokRequest) (hstep : env.auth_step (some data) = some (pw_crypt, auth)) :
    update_request env Faults.none s (some data) req =
      (0, (s.put .efi_guid_shim (req_names req) (some data)).put .efi_guid_shim
        (auth_names req) (some (if env.use_simple_hash then auth else pw_crypt))) := by
  cases hf : env.use_simple_hash <;>
    simp [update_request, hstep, efi_set_variable, Faults.none, hf]

/-- C30 (failing input). With the options `--hash-file` and `--simple-hash`
(and without `--root-pw`), `main` leaves `use_simple_hash` set and adds no
`HELP`; `update_request` decodes the record of the hash file into `pw_crypt`,
never stores to `auth`, and then writes `auth` because `use_simple_hash` is set:
the Authorization variable receives the 32 bytes the local array happened to
hold, whatever the record is. -/
theorem update_request_hash_file_simple_hash (env : Env) (s : Store)
    (record junk buf : Bytes) (req : MokRequest) :
    main_use_simple_hash false true = true ∧
    main_help true false = false ∧
    update_request_auth_step true (ex_source_hash_file record junk) (some buf) =
      some (record, junk) ∧
    update_request (env.with_source (main_use_simple_hash false true)
        (ex_source_hash_file record junk)) Faults.none s (some buf) req =
      (0, (s.put .efi_guid_shim (req_names req) (some buf)).put .efi_guid_shim
        (auth_names req) (some junk)) ∧
    (update_request (env.with_source (main_use_simple_hash false true)
        (ex_source_hash_file record junk)) Faults.none s (some buf) req).2
      .efi_guid_shim (auth_names req) = some junk := by
  have h1 : main_use_simple_hash false true = true := by decide
  have h3 : update_request_auth_step true (ex_source_hash_file record junk) (some buf) =
      some (record, junk) := rfl
  have h4 := update_request_written (env.with_source true (ex_source_hash_file record junk)) s
    buf record junk req h3
  simp only [Env.with_source, if_true] at h4
  refine ⟨h1, by decide, h3, ?_, ?_⟩
  · rw [h1]; exact h4
  · rw [h1, show (env.with_source true (ex_source_hash_file record junk)) = _ from rfl]
    simp only [Env.with_source] at h4 ⊢
    rw [h4]
    exact Store.put_same _ _ _ _

/-- In every other combination `main` can pass (a hash file without
`use_simple_hash`; the root password, for which `main` clears `use_simple_hash`;
a typed password in either mode), the value chosen for the Authorization
variable is derived from the password source: the record of the hash file or of
the shadow entry, the record `generate_hash` makes, or the digest of
`generate_auth`. -/
theorem update_request_auth_derived (src : PasswordSource) (flag : Bool)
    (new_list : Option Bytes) (p : Bytes × Bytes)
    (h : update_request_auth_step flag src new_list = some p)
    (hfile : src.hash_file.isSome = true → flag = false)
    (hroot : src.root_pw = true → flag = false) :
    src.hash_file = some (some (if flag then p.2 else p.1)) ∨
    (src.hash_file = none ∧ src.root_pw = true ∧
      src.shadow = some (if flag then p.2 else p.1)) ∨
    (∃ pw, src.hash_file = none ∧ src.root_pw = false ∧ src.typed = some pw ∧ flag = false ∧
      src.generate_hash pw = some (if flag then p.2 else p.1)) ∨
    (∃ pw, src.hash_file = none ∧ src.root_pw = false ∧ src.typed = some pw ∧ flag = true ∧
      generate_auth src.sha256 src.plat new_list (some pw) pw.length =
        some (if flag then p.2 else p.1)) := by
  unfold update_request_auth_step at h
  cases hf : src.hash_file with
  | some r =>
    have hfl := hfile (by rw [hf]; rfl)
    rw [hf] at h
    cases r with
    | none => cases h
    | some record =>
      simp only [Option.some.injEq] at h
      left
      rw [← h, hfl]
      rfl
  | none =>
    rw [hf] at h
    simp only at h
    cases hr : src.root_pw with
    | true =>
      have hfl := hroot hr
      rw [hr] at h
      simp only [if_true] at h
      cases hs : src.shadow with
      | none => rw [hs] at h; cases h
      | some record =>
        rw [hs] at h
        simp only [Option.some.injEq] at h
        right; left
        rw [← h, hfl]
        exact ⟨rfl, rfl, rfl⟩
    | false =>
      rw [hr] at h
      simp only [Bool.false_eq_true, if_false] at h
      cases ht : src.typed with
      | none => rw [ht] at h; cases h
      | some pw =>
        rw [ht] at h
        simp only at h
        cases flag with
        | false =>
          simp only [Bool.not_false, if_true] at h
          cases hg : src.generate_hash pw with
          | none => rw [hg] at h; cases h
          | some record =>
            rw [hg] at h
            simp only [Option.some.injEq] at h
            right; right; left
            exact ⟨pw, rfl, rfl, rfl, rfl, by rw [← h]; exact hg⟩
        | true =>
          simp only [Bool.not_true, Bool.false_eq_true, if_false] at h
          cases hg : generate_auth src.sha256 src.plat new_list (some pw) pw.length with
          | none => rw [hg] at h; cases h
          | some digest =>
            rw [hg] at h
            simp only [Option.some.injEq] at h
            right; right; right
            exact ⟨pw, rfl, rfl, rfl, rfl, by rw [← h]; exact hg⟩

/-! ### Buffers made of lists that lie within their own bytes -/

theorem block_nodes_shift (k : Nat) :
    ∀ (bs : List Bytes) (o : Nat),
      (block_nodes bs o).map (MokListNode.shift k) = block_nodes bs (o + k) := by
  intro bs
  induction bs with
  | nil => intro o; rfl
  | cons b bs ih =>
    intro o
    simp only [block_nodes, List.map_cons, MokListNode.shift_shift, ih]
    congr 2
    omega

theorem block_nodes_append :
    ∀ (xs ys : List Bytes) (o : Nat),
      block_nodes (xs ++ ys) o = block_nodes xs o ++ block_nodes ys (o + xs.flatten.length) := by
  intro xs
  induction xs with
  | nil => intro ys o; simp [block_nodes]
  | cons b bs ih =>
    intro ys o
    rw [List.cons_append]
    show (index_entry b 0).shift o :: block_nodes (bs ++ ys) (o + b.length) = _
    rw [ih ys (o + b.length)]
    simp only [block_nodes, List.cons_append, List.flatten_cons, List.length_append,
      Nat.add_assoc]

theorem block_nodes_length (bs : List Bytes) (o : Nat) :
    (block_nodes bs o).length = bs.length := by
  induction bs generalizing o with
  | nil => rfl
  | cons b bs ih => simp [block_nodes, ih]

/-- Decoding a buffer that begins with lists lying within their own bytes: their
nodes, then the decoding of the rest. -/
theorem build_mok_list_blocks :
    ∀ (blocks : List Bytes) (R : Bytes), (∀ b ∈ blocks, list_wf b) →
      build_mok_list (blocks.flatten ++ R) =
        (build_mok_list R).rebase blocks.flatten.length (block_nodes blocks 0) := by
  intro blocks
  induction blocks with
  | nil =>
    intro R _
    simp only [List.flatten_nil, List.nil_append, List.length_nil, block_nodes]
    exact (BuildResult.rebase_zero _).symm
  | cons b bs ih =>
    intro R h
    obtain ⟨hL, hfit, hS, hsup⟩ := h b (List.mem_cons_self _ _)
    have hrest : ∀ x ∈ bs, list_wf x := fun x hx => h x (List.mem_cons_of_mem _ hx)
    rw [List.flatten_cons, List.append_assoc, build_mok_list_block b _ hL hfit,
      block_index_supported b hL hfit hS hsup]
    simp only
    rw [ih R hrest, BuildResult.rebase_rebase, block_nodes_shift]
    simp only [block_nodes, MokListNode.shift_zero, List.length_append, List.singleton_append,
      Nat.zero_add]
    rw [Nat.add_comm]

/-- The header fields of a list inside a buffer are those of the list. -/
theorem fields_in_context (A b R : Bytes) (h : 28 ≤ b.length) :
    SignatureType (A ++ b ++ R) A.length = SignatureType b 0 ∧
    SignatureListSize (A ++ b ++ R) A.length = SignatureListSize b 0 ∧
    SignatureHeaderSize (A ++ b ++ R) A.length = SignatureHeaderSize b 0 ∧
    SignatureSize (A ++ b ++ R) A.length = SignatureSize b 0 := by
  have e : (A ++ b ++ R).drop A.length = b ++ R := by
    rw [List.append_assoc, List.drop_left]
  refine ⟨?_, ?_, ?_, ?_⟩
  · have := SignatureType_drop (A ++ b ++ R) A.length 0
    rw [e, SignatureType_append b R h] at this
    exact this.symm
  · have := SignatureListSize_drop (A ++ b ++ R) A.length 0
    rw [e, SignatureListSize_append b R h] at this
    exact this.symm
  · have := SignatureHeaderSize_drop (A ++ b ++ R) A.length 0
    rw [e, SignatureHeaderSize_append b R h] at this
    exact this.symm
  · have := SignatureSize_drop (A ++ b ++ R) A.length 0
    rw [e, SignatureSize_append b R h] at this
    exact this.symm

theorem slice_in_context (A b R : Bytes) : slice (A ++ b ++ R) A.length b.length = b := by
  have h := slice_append_right A (b ++ R) 0 b.length
  rw [Nat.add_zero, ← List.append_assoc] at h
  rw [h, slice_append_left b R 0 b.length (by omega)]
  exact slice_zero_full b

theorem poke_in_context (A b R src : Bytes) (k : Nat) (h : k + src.length ≤ b.length) :
    poke (A ++ b ++ R) (A.length + k) src = A ++ poke b k src ++ R := by
  unfold poke
  have h1 : List.take (A.length + k) (A ++ b ++ R) = A ++ List.take k b := by
    rw [List.append_assoc, List.take_append, List.take_append_of_le_length (by omega)]
  have h2 : List.drop (A.length + k + src.length) (A ++ b ++ R) =
      List.drop (k + src.length) b ++ R := by
    rw [List.append_assoc, Nat.add_assoc, List.drop_append,
      List.drop_append_of_le_length (by omega)]
  rw [h1, h2]
  simp only [List.append_assoc]

theorem poke_length (b src : Bytes) (k : Nat) (h : k + src.length ≤ b.length) :
    (poke b k src).length = b.length := by
  unfold poke
  simp only [List.length_append, List.length_take, List.length_drop]
  omega

theorem block_nodes_cons (b : Bytes) (bs : List Bytes) (o : Nat) :
    block_nodes (b :: bs) o = (index_entry b 0).shift o :: block_nodes bs (o + b.length) := rfl

theorem shift_index_entry_header (b : Bytes) (o : Nat) :
    ((index_entry b 0).shift o).header = o := by
  simp [MokListNode.shift, index_entry_header]

/-- The first list of type `t` among lists of other types is where
`issue_hash_request` merges. -/
theorem find_merge_ind_blocks (t : Guid) (b : Bytes) (post : List Bytes)
    (hb : 28 ≤ b.length) (ht : SignatureType b 0 = t) :
    ∀ (pre : List Bytes) (A : Bytes) (k : Nat),
      (∀ x ∈ pre, 28 ≤ x.length ∧ SignatureType x 0 ≠ t) →
      find_merge_ind (A ++ (pre ++ b :: post).flatten) t
        (block_nodes (pre ++ b :: post) A.length) k = some (k + pre.length) := by
  intro pre
  induction pre with
  | nil =>
    intro A k _
    have hf := (fields_in_context A b post.flatten hb).1
    rw [List.nil_append, List.flatten_cons, block_nodes_cons, find_merge_ind,
      shift_index_entry_header, ← List.append_assoc, hf, ht]
    simp [efi_guid_eq]
  | cons x pre ih =>
    intro A k h
    obtain ⟨hx, hne⟩ := h x (List.mem_cons_self _ _)
    have hf := (fields_in_context A x (pre ++ b :: post).flatten hx).1
    have hneq : efi_guid_eq (SignatureType x 0) t = false := by simp [efi_guid_eq, hne]
    have hrec := ih (A ++ x) (k + 1) (fun y hy => h y (List.mem_cons_of_mem _ hy))
    rw [List.length_append] at hrec
    rw [List.cons_append, List.flatten_cons, block_nodes_cons, find_merge_ind,
      shift_index_entry_header, ← List.append_assoc, hf, hneq]
    simp only [Bool.false_eq_true, if_false]
    rw [hrec, List.length_cons]
    congr 1
    omega

/-- Copying the indexed lists of a run of lists gives the bytes of those lists. -/
theorem copy_lists_blocks :
    ∀ (bs : List Bytes) (A R : Bytes),
      (∀ x ∈ bs, 28 ≤ x.length ∧ x.length = SignatureListSize x 0) →
      copy_lists (A ++ bs.flatten ++ R) (block_nodes bs A.length) = bs.flatten := by
  intro bs
  induction bs with
  | nil => intro A R _; rfl
  | cons x xs ih =>
    intro A R h
    obtain ⟨hx, hL⟩ := h x (List.mem_cons_self _ _)
    have e : A ++ (x :: xs).flatten ++ R = A ++ x ++ (xs.flatten ++ R) := by
      simp [List.append_assoc]
    have e2 : A ++ x ++ (xs.flatten ++ R) = (A ++ x) ++ xs.flatten ++ R := by
      simp [List.append_assoc]
    have hf := (fields_in_context A x (xs.flatten ++ R) hx).2.1
    have hs := slice_in_context A x (xs.flatten ++ R)
    have hrec := ih (A ++ x) R (fun y hy => h y (List.mem_cons_of_mem _ hy))
    rw [List.length_append, ← e2] at hrec
    rw [e, block_nodes_cons]
    unfold copy_lists at hrec ⊢
    rw [List.map_cons, List.flatten_cons, hrec, shift_index_entry_header, hf, ← hL, hs,
      List.flatten_cons]

/-- The merge path of `issue_hash_request` on a buffer made of lists that are as
long as their `total_size`: the lists in front of the first list of type `t`, that
list with `total_size` raised and the new entry appended, and the lists behind
it. -/
theorem hash_request_buffer_merge (heap : Nat → UInt8) (t d b : Bytes) (pre post : List Bytes)
    (hpre : ∀ x ∈ pre, 28 ≤ x.length ∧ x.length = SignatureListSize x 0 ∧
      SignatureType x 0 ≠ t)
    (hpost : ∀ x ∈ post, 28 ≤ x.length ∧ x.length = SignatureListSize x 0)
    (hb : 28 ≤ b.length) (hbL : b.length = SignatureListSize b 0)
    (hbt : SignatureType b 0 = t) (hd : d.length = efi_hash_size t) (ht16 : t.length = 16) :
    hash_request_buffer heap t d (efi_hash_size t) (some (pre ++ b :: post).flatten)
        (block_nodes (pre ++ b :: post) 0) =
      pre.flatten ++ merged_list t d b ++ post.flatten := by
  have hold : (pre ++ b :: post).flatten = pre.flatten ++ b ++ post.flatten := by
    simp [List.append_assoc]
  have hfind : find_merge_ind (pre ++ b :: post).flatten t
      (block_nodes (pre ++ b :: post) 0) 0 = some pre.length := by
    have := find_merge_ind_blocks t b post hb hbt pre [] 0
      (fun x hx => ⟨(hpre x hx).1, (hpre x hx).2.2⟩)
    simpa using this
  have hnodes : block_nodes (pre ++ b :: post) 0 =
      block_nodes pre 0 ++ ((index_entry b 0).shift pre.flatten.length ::
        block_nodes post (pre.flatten.length + b.length)) := by
    rw [block_nodes_append, Nat.zero_add, block_nodes_cons]
  have htake : (block_nodes (pre ++ b :: post) 0).take pre.length = block_nodes pre 0 := by
    rw [hnodes]
    exact List.take_left' (block_nodes_length pre 0)
  have hdrop : (block_nodes (pre ++ b :: post) 0).drop (pre.length + 1) =
      block_nodes post (pre.flatten.length + b.length) := by
    rw [hnodes, ← block_nodes_length pre 0, ← List.drop_drop, List.drop_left]
    rfl
  have hget : (block_nodes (pre ++ b :: post) 0).getD pre.length ⟨0, 0, 0⟩ =
      (index_entry b 0).shift pre.flatten.length := by
    rw [hnodes, List.getD_eq_getElem?_getD, List.getElem?_append_right
      (by rw [block_nodes_length]), block_nodes_length]
    simp
  have hL : SignatureListSize (pre.flatten ++ b ++ post.flatten) pre.flatten.length =
      b.length := by
    rw [(fields_in_context pre.flatten b post.flatten hb).2.1, ← hbL]
  have hbefore : copy_lists (pre.flatten ++ b ++ post.flatten) (block_nodes pre 0) =
      pre.flatten := by
    have := copy_lists_blocks pre [] (b ++ post.flatten)
      (fun x hx => ⟨(hpre x hx).1, (hpre x hx).2.1⟩)
    simpa [List.append_assoc] using this
  have hpoke : poke (pre.flatten ++ b ++ post.flatten) (pre.flatten.length + 16)
      (enc32 (b.length + (efi_hash_size t + 16))) =
      pre.flatten ++ poke b 16 (enc32 (b.length + (efi_hash_size t + 16))) ++ post.flatten :=
    poke_in_context _ _ _ _ _ (by rw [enc32_length]; omega)
  have hpl : (poke b 16 (enc32 (b.length + (efi_hash_size t + 16)))).length = b.length :=
    poke_length _ _ _ (by rw [enc32_length]; omega)
  have hslice : slice (pre.flatten ++ poke b 16 (enc32 (b.length + (efi_hash_size t + 16))) ++
      post.flatten) pre.flatten.length b.length =
      poke b 16 (enc32 (b.length + (efi_hash_size t + 16))) := by
    have := slice_in_context pre.flatten
      (poke b 16 (enc32 (b.length + (efi_hash_size t + 16)))) post.flatten
    rw [hpl] at this
    exact this
  have hafter : copy_lists (pre.flatten ++ poke b 16
      (enc32 (b.length + (efi_hash_size t + 16))) ++ post.flatten)
      (block_nodes post (pre.flatten.length + b.length)) = post.flatten := by
    have := copy_lists_blocks post
      (pre.flatten ++ poke b 16 (enc32 (b.length + (efi_hash_size t + 16)))) [] hpost
    rw [List.length_append, hpl, List.append_nil] at this
    exact this
  have hsd : slice d 0 (efi_hash_size t) = d := slice_full d _ hd
  unfold hash_request_buffer
  simp only [Option.getD_some, Option.isSome_some, if_true, hfind, htake, hdrop, hget,
    shift_index_entry_header, sizeof_EFI_SIGNATURE_LIST, sizeof_efi_guid_t]
  rw [hold, hL, hbefore, hpoke, hslice, hafter, hsd]
  rw [poke_zero_full]
  · simp only [merged_list, ← hbL, List.append_assoc]
  · simp only [List.length_map, List.length_range, List.length_append, hpl, ht16, hd]
    omega

/-! ### Finding a needle in a buffer made of lists -/

theorem match_hash_array_loop_take (hash A : Bytes) (hs size : Nat) :
    ∀ (n i ptr : Nat), ptr + n * (hs + 16) ≤ size →
      match_hash_array_loop hash (A.take size) hs n i ptr =
        match_hash_array_loop hash A hs n i ptr := by
  intro n
  induction n with
  | zero => intro i ptr _; rfl
  | succ k ih =>
    intro i ptr h
    rw [Nat.succ_mul] at h
    simp only [match_hash_array_loop, sizeof_efi_guid_t]
    rw [slice_take A size (ptr + 16) hs (by omega), ih (i + 1) (ptr + 16 + hs) (by omega)]

/-- `match_hash_array` reads the first `array_size` bytes of the array only. -/
theorem match_hash_array_take (t hash A : Bytes) (size : Nat) :
    match_hash_array t hash (A.take size) size = match_hash_array t hash A size := by
  unfold match_hash_array
  simp only [sizeof_efi_guid_t]
  split
  · rfl
  · split
    · rfl
    · exact match_hash_array_loop_take hash A _ size _ 0 0
        (by rw [Nat.zero_add]; exact Nat.div_mul_le_self _ _)

/-- The loop of `is_duplicate` returns 1 exactly when what some node denotes holds
the needle. -/
theorem is_duplicate_loop_view (type : Guid) (data var_data : Bytes)
    (l : List MokListNode) :
    is_duplicate_loop type data var_data l = 1 ↔
      ∃ v ∈ l.map (node_view var_data), view_holds type data v := by
  rw [is_duplicate_loop_iff]
  simp only [List.mem_map, exists_exists_and_eq_and, view_holds, node_view]
  constructor
  · rintro ⟨node, hn, ht, hc⟩
    refine ⟨node, hn, ht, ?_⟩
    by_cases hx : type = efi_guid_x509_cert
    · rw [if_pos hx] at hc ⊢
      exact ⟨hc.1, by rw [hc.1]; exact hc.2⟩
    · rw [if_neg hx] at hc ⊢
      unfold slice
      rw [match_hash_array_take]
      exact hc
  · rintro ⟨node, hn, ht, hc⟩
    refine ⟨node, hn, ht, ?_⟩
    by_cases hx : type = efi_guid_x509_cert
    · rw [if_pos hx] at hc ⊢
      exact ⟨hc.1, by rw [← hc.1]; exact hc.2⟩
    · rw [if_neg hx] at hc ⊢
      unfold slice at hc
      rw [match_hash_array_take] at hc
      exact hc

theorem index_entry_within (b : Bytes) (h : list_wf b) :
    (index_entry b 0).header + 16 ≤ b.length ∧
    (index_entry b 0).mok + (index_entry b 0).mok_size ≤ b.length := by
  obtain ⟨hL, hfit, hS, _⟩ := h
  have hw := build_mok_list_node_within b hL hfit hS
  rw [build_mok_list_node_eq b 0 hS] at hw
  rw [hw.1]
  exact ⟨by omega, hw.2⟩

/-- In a buffer made of lists that lie within their own bytes, every node denotes
what the node of its list denotes. -/
theorem block_nodes_view :
    ∀ (bs : List Bytes) (A R : Bytes), (∀ b ∈ bs, list_wf b) →
      (block_nodes bs A.length).map (node_view (A ++ bs.flatten ++ R)) = bs.map block_view := by
  intro bs
  induction bs with
  | nil => intro A R _; rfl
  | cons b bs ih =>
    intro A R h
    have hb := index_entry_within b (h b (List.mem_cons_self _ _))
    have e1 : A ++ (b :: bs).flatten ++ R = A ++ (b ++ (bs.flatten ++ R)) := by
      simp [List.append_assoc]
    have e2 : A ++ (b :: bs).flatten ++ R = (A ++ b) ++ bs.flatten ++ R := by
      simp [List.append_assoc]
    have hrec := ih (A ++ b) R (fun x hx => h x (List.mem_cons_of_mem _ hx))
    rw [List.length_append, ← e2] at hrec
    rw [block_nodes_cons, List.map_cons, List.map_cons, hrec]
    congr 1
    rw [e1, node_view_shift, node_view_append b _ _ hb.1 hb.2]
    rfl

/-- `is_duplicate` finds a needle that a list of the variable holds, when the
variable begins with lists that lie within their own bytes and the rest decodes. -/
theorem is_duplicate_blocks (f : Faults) (s : Store) (type : Guid) (data : Bytes)
    (vendor : Vendor) (name : String) (blocks : List Bytes) (R : Bytes)
    (nodesR : List MokListNode)
    (hget : efi_get_variable f s vendor name = .ok (blocks.flatten ++ R))
    (hwf : ∀ b ∈ blocks, list_wf b) (hR : build_mok_list R = .done nodesR)
    (hd : data ≠ []) (hex : ∃ b ∈ blocks, view_holds type data (block_view b)) :
    is_duplicate f s type data vendor name = some 1 := by
  have hl : ¬ data.length = 0 := by simpa using hd
  have hbuild := build_mok_list_blocks blocks R hwf
  rw [hR] at hbuild
  simp only [BuildResult.rebase] at hbuild
  have hloop : is_duplicate_loop type data (blocks.flatten ++ R)
      (block_nodes blocks 0 ++ nodesR.map (MokListNode.shift blocks.flatten.length)) = 1 := by
    rw [is_duplicate_loop_view]
    obtain ⟨b, hb, hv⟩ := hex
    refine ⟨block_view b, ?_, hv⟩
    rw [List.map_append]
    apply List.mem_append_left
    have hv2 := block_nodes_view blocks [] R hwf
    simp only [List.nil_append, List.length_nil] at hv2
    rw [hv2]
    exact List.mem_map_of_mem _ hb
  unfold is_duplicate
  rw [if_neg hl, hget]
  simp only [hbuild]
  cases hn : block_nodes blocks 0 ++ nodesR.map (MokListNode.shift blocks.flatten.length) with
  | nil =>
    rw [hn] at hloop
    simp [is_duplicate_loop] at hloop
  | cons n ns =>
    rw [hn] at hloop
    simp only [hloop]

/-! ### The list that receives a merged hash -/

theorem slice_poke_before (b src : Bytes) (k o n : Nat) (h : o + n ≤ k) (hk : k ≤ b.length) :
    slice (poke b k src) o n = slice b o n := by
  unfold poke
  rw [List.append_assoc, slice_append_left _ _ _ _ (by rw [List.length_take]; omega),
    slice_take b k o n h]

theorem slice_poke_at (b src : Bytes) (k : Nat) (hk : k ≤ b.length) :
    slice (poke b k src) k src.length = src := by
  unfold poke
  have hl : (List.take k b).length = k := by rw [List.length_take]; omega
  have h := slice_append_right (List.take k b) (src ++ List.drop (k + src.length) b) 0 src.length
  rw [hl, Nat.add_zero] at h
  rw [List.append_assoc, h, slice_append_left _ _ _ _ (by omega)]
  exact slice_zero_full src

theorem drop_poke_after (b src : Bytes) (k o : Nat) (h : k + src.length ≤ o)
    (hk : k + src.length ≤ b.length) :
    (poke b k src).drop o = b.drop o := by
  unfold poke
  have hl : (List.take k b ++ src).length = k + src.length := by
    rw [List.length_append, List.length_take]; omega
  obtain ⟨j, rfl⟩ : ∃ j, o = (k + src.length) + j := ⟨o - (k + src.length), by omega⟩
  rw [← hl, List.drop_append, hl, List.drop_drop]

theorem slice_poke_after (b src : Bytes) (k o n : Nat) (h : k + src.length ≤ o)
    (hk : k + src.length ≤ b.length) :
    slice (poke b k src) o n = slice b o n := by
  unfold slice
  rw [drop_poke_after b src k o h hk]

/-- The header fields of a list whose `total_size` field has been overwritten. -/
theorem poke_total_size_fields (b : Bytes) (v : Nat) (hb : 28 ≤ b.length) :
    SignatureType (poke b 16 (enc32 v)) 0 = SignatureType b 0 ∧
    SignatureListSize (poke b 16 (enc32 v)) 0 = v % 4294967296 ∧
    SignatureHeaderSize (poke b 16 (enc32 v)) 0 = SignatureHeaderSize b 0 ∧
    SignatureSize (poke b 16 (enc32 v)) 0 = SignatureSize b 0 := by
  refine ⟨?_, ?_, ?_, ?_⟩
  · unfold SignatureType
    exact slice_poke_before b _ 16 0 16 (by omega) (by omega)
  · unfold SignatureListSize ld32
    have h := slice_poke_at b (enc32 v) 16 (by omega)
    rw [enc32_length] at h
    rw [Nat.zero_add, h, le_val_enc32]
  · unfold SignatureHeaderSize ld32
    rw [slice_poke_after b _ 16 (0 + 20) 4 (by rw [enc32_length]) (by rw [enc32_length]; omega)]
  · unfold SignatureSize ld32
    rw [slice_poke_after b _ 16 (0 + 24) 4 (by rw [enc32_length]; omega) (by rw [enc32_length]; omega)]

/-- The list a hash request has been merged into is again a list that lies within
its own bytes, of the same type; its entry array is the old one followed by the
new entry. -/
theorem merged_list_facts (t d b : Bytes) (hwf : list_wf b) (hbt : SignatureType b 0 = t)
    (ht : t ∈ digest_types) (hd : d.length = efi_hash_size t)
    (hsz : b.length + (efi_hash_size t + 16) < 4294967296) :
    (merged_list t d b).length = b.length + (efi_hash_size t + 16) ∧
    list_wf (merged_list t d b) ∧
    SignatureType (merged_list t d b) 0 = t ∧
    block_view (merged_list t d b) =
      (t, b.length - 28 - SignatureHeaderSize b 0 + (efi_hash_size t + 16),
       b.drop (28 + SignatureHeaderSize b 0) ++ t ++ d) := by
  obtain ⟨hL, hfit, hS, hsup⟩ := hwf
  have ht16 := (digest_types_facts t ht).1
  have hx := (signature_size_digest t ht).2.2
  have hb28 : 28 ≤ b.length := by omega
  obtain ⟨p1, p2, p3, p4⟩ := poke_total_size_fields b
    (SignatureListSize b 0 + (efi_hash_size t + 16)) hb28
  have hpl : (poke b 16 (enc32 (SignatureListSize b 0 + (efi_hash_size t + 16)))).length =
      b.length := poke_length _ _ _ (by rw [enc32_length]; omega)
  have hlen : (merged_list t d b).length = b.length + (efi_hash_size t + 16) := by
    simp only [merged_list, List.length_append, hpl, ht16, hd]
    omega
  have hm : merged_list t d b =
      poke b 16 (enc32 (SignatureListSize b 0 + (efi_hash_size t + 16))) ++ (t ++ d) := by
    simp [merged_list, List.append_assoc]
  have f1 : SignatureType (merged_list t d b) 0 = t := by
    rw [hm, SignatureType_append _ _ (by omega), p1, hbt]
  have f2 : SignatureListSize (merged_list t d b) 0 = b.length + (efi_hash_size t + 16) := by
    rw [hm, SignatureListSize_append _ _ (by omega), p2, ← hL]
    omega
  have f3 : SignatureHeaderSize (merged_list t d b) 0 = SignatureHeaderSize b 0 := by
    rw [hm, SignatureHeaderSize_append _ _ (by omega), p3]
  have f4 : SignatureSize (merged_list t d b) 0 = SignatureSize b 0 := by
    rw [hm, SignatureSize_append _ _ (by omega), p4]
  have hsup' : list_supported (merged_list t d b) 0 = true := by
    simp only [list_supported, f1, f4] at hsup ⊢
    rw [hbt] at hsup
    exact hsup
  refine ⟨hlen, ⟨by rw [hlen, f2], by rw [f3, f4, hlen]; omega, by rw [f4]; exact hS, hsup'⟩,
    f1, ?_⟩
  have hdrop : (merged_list t d b).drop (28 + SignatureHeaderSize b 0) =
      b.drop (28 + SignatureHeaderSize b 0) ++ t ++ d := by
    rw [hm, List.drop_append_of_le_length (by omega),
      drop_poke_after b _ 16 _ (by rw [enc32_length]; omega) (by rw [enc32_length]; omega),
      List.append_assoc]
  have hdl : (b.drop (28 + SignatureHeaderSize b 0) ++ t ++ d).length =
      b.length - 28 - SignatureHeaderSize b 0 + (efi_hash_size t + 16) := by
    simp only [List.length_append, List.length_drop, ht16, hd]
    omega
  have hmok : u32 ((b.length + (efi_hash_size t + 16) : Nat) - 28 - SignatureHeaderSize b 0) =
      b.length - 28 - SignatureHeaderSize b 0 + (efi_hash_size t + 16) := by
    unfold u32
    omega
  simp only [block_view, node_view, index_entry, f1, hx, if_false, f2, f3, Nat.zero_add]
  refine Prod.ext rfl (Prod.ext ?_ ?_)
  · exact hmok
  · simp only
    unfold slice
    rw [hdrop, hmok, ← hdl, List.take_length]

/-- An entry array of whole entries whose last entry holds the digest `d`:
`match_hash_array` finds `d`. -/
theorem match_hash_array_last (t d X o : Bytes) (n : Nat) (ht : t ∈ digest_types)
    (hX : X.length = n * (efi_hash_size t + 16)) (ho : o.length = 16) :
    0 ≤ match_hash_array t d (X ++ o ++ d) (X.length + (efi_hash_size t + 16)) := by
  have hb := (digest_types_facts t ht).2
  have hsize : X.length + (efi_hash_size t + 16) = (n + 1) * (efi_hash_size t + 16) := by
    rw [hX, Nat.succ_mul]
  have hdiv : (n + 1) * (efi_hash_size t + 16) / (efi_hash_size t + 16) = n + 1 :=
    Nat.mul_div_cancel _ (by omega)
  have hmod : (n + 1) * (efi_hash_size t + 16) % (efi_hash_size t + 16) = 0 :=
    Nat.mul_mod_left _ _
  have hlast : slice (X ++ o ++ d) (n * (efi_hash_size t + 16) + 16) (efi_hash_size t) =
      slice d 0 (efi_hash_size t) := by
    have hl : (X ++ o).length = n * (efi_hash_size t + 16) + 16 := by
      rw [List.length_append, hX, ho]
    have := slice_append_right (X ++ o) d 0 (efi_hash_size t)
    rw [hl, Nat.add_zero] at this
    exact this
  unfold match_hash_array
  simp only [sizeof_efi_guid_t]
  rw [if_neg (by omega), hsize, if_neg (by simp [hmod]), hdiv]
  have hspec := match_hash_array_loop_spec d (X ++ o ++ d) (efi_hash_size t) (n + 1) 0
  rw [Nat.zero_mul] at hspec
  rcases hspec with ⟨_, h2⟩ | ⟨k, h1, _⟩
  · exact absurd hlast (h2 n (by omega) (by omega))
  · rw [h1]
    exact Int.natCast_nonneg k

/-- The list written for a certificate lies within its own bytes and denotes the
certificate. -/
theorem enc_cert_block (c : Bytes) (hpos : c ≠ []) (hsz : c.length + 44 < 4294967296) :
    list_wf (enc_cert c) ∧ block_view (enc_cert c) = (efi_guid_x509_cert, c.length, c) := by
  obtain ⟨b1, b2, b3, b4⟩ := mok_request_list_block c hpos hsz
  rw [← enc_cert_eq] at b1 b2 b3 b4
  obtain ⟨f1, _, _, f4, _⟩ := enc_cert_fields c hsz
  have hc : 0 < c.length := List.length_pos.mpr hpos
  have hS : 16 < SignatureSize (enc_cert c) 0 := by rw [f4]; omega
  have hsup : list_supported (enc_cert c) 0 = true := by simp [list_supported, f1]
  have hi := block_index_supported (enc_cert c) b1 b2 hS hsup
  rw [b3] at hi
  simp only [Option.some.injEq, List.cons.injEq, and_true] at hi
  refine ⟨⟨b1, b2, hS, hsup⟩, ?_⟩
  rw [block_view, ← hi, b4]

/-- A hash list with header size 0 and at least one entry lies within its own
bytes and denotes its entry array. -/
theorem hash_list_block (t E : Bytes) (ht : t ∈ digest_types)
    (hE : efi_hash_size t + 16 ≤ E.length) (hsz : 28 + E.length < 4294967296) :
    list_wf (hash_list t E) ∧ block_view (hash_list t E) = (t, E.length, E) := by
  obtain ⟨f1, f2, f3, f4⟩ := hash_list_fields t E ht
  have hlen := hash_list_length t E ht
  have hb := (digest_types_facts t ht).2
  have ht16 := (digest_types_facts t ht).1
  have hx := (signature_size_digest t ht).2.2
  have f2' : SignatureListSize (hash_list t E) 0 = 28 + E.length := by rw [f2]; omega
  have hsup : list_supported (hash_list t E) 0 = true := by
    simp [list_supported, f1, f4, ht]
  refine ⟨⟨by rw [hlen, f2'], by rw [f3, f4, hlen]; omega, by rw [f4]; omega, hsup⟩, ?_⟩
  have hmok : u32 ((28 + E.length : Nat) - 28 - (0 : Nat)) = E.length := by
    unfold u32
    omega
  have hsl : slice (hash_list t E) 28 E.length = E := by
    unfold hash_list
    have h := slice_append_right (list_header t (sizeof_EFI_SIGNATURE_LIST + E.length) 0
      (efi_hash_size t + sizeof_efi_guid_t)) E 0 E.length
    rw [list_header_length t _ _ _ ht16, Nat.add_zero] at h
    rw [h]
    exact slice_zero_full E
  simp only [block_view, node_view, index_entry, f1, hx, if_false, f2', f3, Nat.zero_add,
    Nat.add_zero]
  refine Prod.ext rfl (Prod.ext ?_ ?_)
  · exact hmok
  · simp only
    rw [hmok, hsl]

/-! ### What `issue_hash_request` stages on a variable that decodes -/

theorem hash_request_list_eq (t d : Bytes) (hd : d.length = efi_hash_size t) :
    hash_request_list t d (efi_hash_size t) = hash_list t (efi_guid_shim_bytes ++ d) := by
  have hs : slice d 0 (efi_hash_size t) = d := slice_full d _ hd
  simp only [hash_request_list, hash_list, list_header, hs, List.length_append, hd,
    List.append_assoc]
  have : (efi_guid_shim_bytes).length = 16 := rfl
  rw [this]
  simp only [sizeof_EFI_SIGNATURE_LIST, sizeof_efi_guid_t, Nat.add_assoc]

/-- The new-list path: when the request variable decodes to at least one node and
none of its indexed lists has type `t`, the buffer staged is a new list with the
single entry, followed by the whole old content. -/
theorem hash_request_staged_new (heap : Nat → UInt8) (t d old : Bytes)
    (n : MokListNode) (ns : List MokListNode) (ht : t ∈ digest_types)
    (hd : d.length = efi_hash_size t) (hold : build_mok_list old = .done (n :: ns))
    (hnone : find_merge_ind old t (n :: ns) 0 = none) :
    hash_request_staged heap t d (some old) =
      some (hash_list t (efi_guid_shim_bytes ++ d) ++ old) := by
  have hlen : (hash_list t (efi_guid_shim_bytes ++ d)).length = 28 + (16 + efi_hash_size t) := by
    rw [hash_list_length t _ ht, List.length_append, hd]
    rfl
  simp only [hash_request_staged, hold, hash_request_buffer, hnone, Option.getD_some,
    Option.isSome_some, if_true, hash_request_list_eq t d hd]
  rw [poke_zero_full]
  simp only [List.length_map, List.length_range, List.length_append, hlen,
    sizeof_EFI_SIGNATURE_LIST, sizeof_efi_guid_t]
  omega

/-- The merge path on a variable made of lists that lie within their own bytes:
the lists in front of the first list of type `t`, that list with the entry
appended and `total_size` raised, and the lists behind it. -/
theorem hash_request_staged_blocks (heap : Nat → UInt8) (t d b : Bytes)
    (pre post : List Bytes) (ht : t ∈ digest_types) (hd : d.length = efi_hash_size t)
    (hwf : ∀ x ∈ pre ++ b :: post, list_wf x)
    (hpre : ∀ x ∈ pre, SignatureType x 0 ≠ t) (hbt : SignatureType b 0 = t) :
    hash_request_staged heap t d (some (pre ++ b :: post).flatten) =
      some (pre.flatten ++ merged_list t d b ++ post.flatten) := by
  have ht16 := (digest_types_facts t ht).1
  have hlens : ∀ x ∈ pre ++ b :: post, 28 ≤ x.length ∧ x.length = SignatureListSize x 0 := by
    intro x hx
    obtain ⟨h1, h2, h3, _⟩ := hwf x hx
    exact ⟨by omega, h1⟩
  have hbuild := build_mok_list_blocks (pre ++ b :: post) [] hwf
  rw [List.append_nil, build_mok_list_nil] at hbuild
  simp only [BuildResult.rebase, List.map_nil, List.append_nil] at hbuild
  have hmerge := hash_request_buffer_merge heap t d b pre post
    (fun x hx => ⟨(hlens x (List.mem_append_left _ hx)).1,
      (hlens x (List.mem_append_left _ hx)).2, hpre x hx⟩)
    (fun x hx => hlens x (List.mem_append_right _ (List.mem_cons_of_mem _ hx)))
    (hlens b (List.mem_append_right _ (List.mem_cons_self _ _))).1
    (hlens b (List.mem_append_right _ (List.mem_cons_self _ _))).2 hbt hd ht16
  cases hn : block_nodes (pre ++ b :: post) 0 with
  | nil =>
    have := block_nodes_length (pre ++ b :: post) 0
    rw [hn] at this
    simp at this
    omega
  | cons n ns =>
    rw [hn] at hbuild hmerge
    simp only [hash_request_staged, hbuild, hmerge]

/-! ### A staged entry is not admitted again -/

theorem is_duplicate_congr (f : Faults) (s s1 : Store) (type : Guid) (data : Bytes)
    (vendor : Vendor) (name : String) (h : s1 vendor name = s vendor name) :
    is_duplicate f s1 type data vendor name = is_duplicate f s type data vendor name := by
  unfold is_duplicate efi_get_variable
  rw [h]

/-- An entry that was admitted is not admitted once `is_duplicate` finds it in the
data variable of the request, the variables looked at before being unchanged. -/
theorem is_valid_request_staged (f : Faults) (s s1 : Store) (type : Guid) (E : Bytes)
    (req : MokRequest) (hadm : is_valid_request f s type E req = some 1)
    (hframe : ∀ (vendor : Vendor) (name : String),
      ¬ (name = req_names req ∨ name = auth_names req ∨ name = var_names req ∨
          paired_auth (var_names req) = some name) →
      s1 vendor name = s vendor name)
    (hdup : is_duplicate f s1 type E .efi_guid_shim (req_names req) = some 1) :
    is_valid_request f s1 type E req = some 0 := by
  cases req
  · -- DELETE_MOK
    unfold is_valid_request at hadm ⊢
    rw [bind_eq_zero_iff _ _ (is_duplicate_cases _ _ _ _ _ _), bind_ne_zero_iff] at hadm
    have h1 := is_duplicate_congr f s s1 type E .efi_guid_shim "MokListRT"
      (hframe _ _ (by simp [req_names, auth_names, var_names, paired_auth]))
    simp only [req_names] at hdup
    rw [h1, hadm.1, hdup]
    rfl
  · -- ENROLL_MOK
    unfold is_valid_request at hadm ⊢
    simp only [bind_ne_zero_iff, and_true] at hadm
    obtain ⟨a1, a2, a3, a4, _⟩ := hadm
    have h1 := is_duplicate_congr f s s1 type E .efi_guid_global "PK"
      (hframe _ _ (by simp [req_names, auth_names, var_names, paired_auth]))
    have h2 := is_duplicate_congr f s s1 type E .efi_guid_global "KEK"
      (hframe _ _ (by simp [req_names, auth_names, var_names, paired_auth]))
    have h3 := is_duplicate_congr f s s1 type E .efi_guid_security "db"
      (hframe _ _ (by simp [req_names, auth_names, var_names, paired_auth]))
    have h4 := is_duplicate_congr f s s1 type E .efi_guid_shim "MokListRT"
      (hframe _ _ (by simp [req_names, auth_names, var_names, paired_auth]))
    simp only [req_names] at hdup
    rw [h1, h2, h3, h4, a1, a2, a3, a4, hdup]
    rfl
  · -- DELETE_BLACKLIST
    unfold is_valid_request at hadm ⊢
    rw [bind_eq_zero_iff _ _ (is_duplicate_cases _ _ _ _ _ _), bind_ne_zero_iff] at hadm
    have h1 := is_duplicate_congr f s s1 type E .efi_guid_shim "MokListXRT"
      (hframe _ _ (by simp [req_names, auth_names, var_names, paired_auth]))
    simp only [req_names] at hdup
    rw [h1, hadm.1, hdup]
    rfl
  · -- ENROLL_BLACKLIST
    unfold is_valid_request at hadm ⊢
    simp only [bind_ne_zero_iff, and_true] at hadm
    obtain ⟨a1, _⟩ := hadm
    have h1 := is_duplicate_congr f s s1 type E .efi_guid_shim "MokListXRT"
      (hframe _ _ (by simp [req_names, auth_names, var_names, paired_auth]))
    simp only [req_names] at hdup
    rw [h1, a1, hdup]
    rfl

/-- A successful `update_request` leaves the new list in the data variable. -/
theorem update_request_ok (env : Env) (f : Faults) (s : Store) (data : Bytes)
    (req : MokRequest) (h : (update_request env f s (some data) req).1 = 0) :
    (update_request env f s (some data) req).2 .efi_guid_shim (req_names req) = some data := by
  have hne : req_names req ≠ auth_names req := by cases req <;> decide
  unfold update_request at h ⊢
  cases ha : env.auth_step (some data) with
  | none => rw [ha] at h; simp at h
  | some p =>
    obtain ⟨pw_crypt, auth⟩ := p
    rw [ha] at h
    simp only at h ⊢
    cases hs : efi_set_variable f s .efi_guid_shim (req_names req) data with
    | none => rw [hs] at h; simp at h
    | some s1 =>
      rw [hs] at h
      simp only at h ⊢
      unfold efi_set_variable at hs
      split at hs
      · cases hs
      · simp only [Option.some.injEq] at hs
        subst hs
        cases hs2 : efi_set_variable f (s.put .efi_guid_shim (req_names req) (some data))
            .efi_guid_shim (auth_names req)
            (if (!env.use_simple_hash) = true then pw_crypt else auth) with
        | none => rw [hs2] at h; simp at h
        | some s2 =>
          simp only
          unfold efi_set_variable at hs2
          split at hs2
          · cases hs2
          · simp only [Option.some.injEq] at hs2
            subst hs2
            rw [Store.put_other _ _ _ _ _ _ (fun hh => hne hh.2), Store.put_same]

/-- `in_pending_request` changes no variable other than the one it excises from
and the Authorization variable paired with that one by name. -/
theorem in_pending_request_frame_var (f : Faults) (s s' : Store) (type : Guid) (data : Bytes)
    (req : MokRequest) (r : Int)
    (h : in_pending_request f s type data req = some (r, s'))
    (g : Vendor) (n : String) (hn : n ≠ var_names req)
    (hp : paired_auth (var_names req) ≠ some n) :
    s' g n = s g n := by
  unfold in_pending_request at h
  split at h
  · cases h; rfl
  · split at h
    · cases h; rfl
    · cases h; rfl
    · split at h
      · cases h; rfl
      · split at h
        · cases h
        · rename_i ret s1 hdel
          have hs : s' = s1 := by
            split at h <;> (cases h; rfl)
          rw [hs]
          exact delete_data_from_list_frame f s s1 _ _ type data ret hdel g n hn hp

/-- When the variable `in_pending_request` would excise from does not exist, the
call returns and leaves the store as it is. -/
theorem in_pending_request_absent (f : Faults) (s : Store) (type : Guid) (data : Bytes)
    (req : MokRequest) (hs : s .efi_guid_shim (var_names req) = none) :
    ∃ r, in_pending_request f s type data req = some (r, s) := by
  have hdel : delete_data_from_list f s .efi_guid_shim (var_names req) type data = some (0, s) ∨
      delete_data_from_list f s .efi_guid_shim (var_names req) type data = some (-1, s) := by
    unfold delete_data_from_list efi_get_variable
    rw [hs]
    by_cases hd : data.length = 0
    · left; rw [if_pos hd]
    · rw [if_neg hd]
      cases f.get .efi_guid_shim (var_names req)
      · left; rfl
      · right; rfl
  unfold in_pending_request
  split
  · exact ⟨0, rfl⟩
  · split
    · exact ⟨0, rfl⟩
    · exact ⟨0, rfl⟩
    · split
      · exact ⟨0, rfl⟩
      · rcases hdel with h | h
        · rw [h]; exact ⟨0, rfl⟩
        · rw [h]; exact ⟨-1, rfl⟩

theorem is_valid_request_01 (f : Faults) (s : Store) (type : Guid) (mok : Bytes)
    (req : MokRequest) (r : Int) (h : is_valid_request f s type mok req = some r) :
    r = 0 ∨ r = 1 := by
  revert h
  cases req <;> unfold is_valid_request
  · exact bind_eq_zero_01 _ _ _ (bind_ne_zero_01 _ _ _ (fun h => Or.inr (Option.some.inj h).symm))
  · exact bind_ne_zero_01 _ _ _ (bind_ne_zero_01 _ _ _ (bind_ne_zero_01 _ _ _
      (bind_ne_zero_01 _ _ _ (bind_ne_zero_01 _ _ _ (fun h => Or.inr (Option.some.inj h).symm)))))
  · exact bind_eq_zero_01 _ _ _ (bind_ne_zero_01 _ _ _ (fun h => Or.inr (Option.some.inj h).symm))
  · exact bind_ne_zero_01 _ _ _ (bind_ne_zero_01 _ _ _ (fun h => Or.inr (Option.some.inj h).symm))

/-- Every admitted certificate of a batch was admitted by `is_valid_request` in a
store that differs from the final one at most in the variable
`in_pending_request` excises from and its paired Authorization variable. -/
theorem admitted_certs_mem (f : Faults) (req : MokRequest) :
    ∀ (certs : List Bytes) (s : Store) (adm : List Bytes) (s' : Store),
      admitted_certs f req certs s = some (adm, s') →
      (∀ (g : Vendor) (n : String), n ≠ var_names req →
        paired_auth (var_names req) ≠ some n → s' g n = s g n) ∧
      ∀ E ∈ adm, ∃ s0 : Store, is_valid_request f s0 efi_guid_x509_cert E req = some 1 ∧
        ∀ (g : Vendor) (n : String), n ≠ var_names req →
          paired_auth (var_names req) ≠ some n → s' g n = s0 g n := by
  intro certs
  induction certs with
  | nil =>
    intro s adm s' h
    simp only [admitted_certs, Option.some.injEq, Prod.mk.injEq] at h
    obtain ⟨rfl, rfl⟩ := h
    exact ⟨fun _ _ _ _ => rfl, fun E hE => by simp at hE⟩
  | cons c cs ih =>
    intro s adm s' h
    rw [admitted_certs] at h
    cases hq : is_valid_request f s efi_guid_x509_cert c req with
    | none => rw [hq] at h; cases h
    | some valid =>
      rw [hq] at h
      simp only at h
      by_cases hz : valid ≠ 0
      · rw [if_pos hz] at h
        cases ha : admitted_certs f req cs s with
        | none => rw [ha] at h; cases h
        | some p =>
          obtain ⟨adm1, s1⟩ := p
          rw [ha] at h
          simp only [Option.some.injEq, Prod.mk.injEq] at h
          obtain ⟨rfl, rfl⟩ := h
          obtain ⟨i1, i2⟩ := ih s adm1 s1 ha
          refine ⟨i1, ?_⟩
          intro E hE
          rcases List.mem_cons.mp hE with rfl | hE'
          · have h01 := is_valid_request_01 f s _ _ req valid hq
            have hv : valid = 1 := by
              rcases h01 with h0 | h1
              · exact absurd h0 hz
              · exact h1
            rw [hv] at hq
            exact ⟨s, hq, i1⟩
          · exact i2 E hE'
      · rw [if_neg hz] at h
        cases hp : in_pending_request f s efi_guid_x509_cert c req with
        | none => rw [hp] at h; cases h
        | some p =>
          obtain ⟨r, s1⟩ := p
          rw [hp] at h
          simp only at h
          obtain ⟨i1, i2⟩ := ih s1 adm s' h
          have hfr := in_pending_request_frame_var f s s1 _ _ req r hp
          exact ⟨fun g n h1 h2 => by rw [i1 g n h1 h2, hfr g n h1 h2], i2⟩

/-- A hash request for a digest that is not admitted stages nothing: it returns 0
and changes at most the variable `in_pending_request` excises from (and its
paired Authorization variable). -/
theorem issue_hash_request_not_admitted (env : Env) (f : Faults) (s : Store)
    (hash_str : String) (req : MokRequest) (t : Guid) (n : Nat)
    (hid : identify_hash_type hash_str.toList = some (t, n))
    (hnv : is_valid_request f s t (hex_str_to_binary hash_str.toList n) req = some 0) :
    (∀ (r : Int) (s2 : Store), issue_hash_request env f s hash_str req = some (r, s2) →
      r = 0 ∧ ∀ (g : Vendor) (m : String), m ≠ var_names req →
        paired_auth (var_names req) ≠ some m → s2 g m = s g m) ∧
    (s .efi_guid_shim (var_names req) = none →
      issue_hash_request env f s hash_str req = some (0, s)) := by
  have key : issue_hash_request env f s hash_str req =
      match in_pending_request f s t (hex_str_to_binary hash_str.toList n) req with
      | none => none
      | some (_, s') => some (0, s') := by
    unfold issue_hash_request
    simp only [hid, hnv, if_true]
  constructor
  · intro r s2 h
    rw [key] at h
    cases hp : in_pending_request f s t (hex_str_to_binary hash_str.toList n) req with
    | none => rw [hp] at h; cases h
    | some p =>
      obtain ⟨r0, s0⟩ := p
      rw [hp] at h
      simp only [Option.some.injEq, Prod.mk.injEq] at h
      obtain ⟨rfl, rfl⟩ := h
      exact ⟨rfl, in_pending_request_frame_var f s s0 _ _ req r0 hp⟩
  · intro habs
    obtain ⟨r0, hr⟩ := in_pending_request_absent f s t
      (hex_str_to_binary hash_str.toList n) req habs
    rw [key, hr]

/-- A request for one certificate that is not admitted stages nothing. -/
theorem issue_mok_request_not_admitted (env : Env) (f : Faults) (s : Store) (E : Bytes)
    (req : MokRequest) (hE : E.length < 4294967296) (hv : env.is_valid_cert E = true)
    (hget : f.get .efi_guid_shim (req_names req) = false)
    (hnv : is_valid_request f s efi_guid_x509_cert E req = some 0) :
    (∀ (r : Int) (s2 : Store),
      issue_mok_request env f s [⟨some E.length, some E⟩] req = some (r, s2) →
      r = 0 ∧ ∀ (g : Vendor) (m : String), m ≠ var_names req →
        paired_auth (var_names req) ≠ some m → s2 g m = s g m) ∧
    (s .efi_guid_shim (var_names req) = none →
      issue_mok_request env f s [⟨some E.length, some E⟩] req = some (0, s)) := by
  have hmod : E.length % 2 ^ 32 = E.length := Nat.mod_eq_of_lt (by norm_num; exact hE)
  have hloop : issue_mok_request_loop env f req [⟨some E.length, some E⟩] s [] =
      match in_pending_request f s efi_guid_x509_cert E req with
      | none => none
      | some (_, s') => some (some [], s') := by
    simp only [issue_mok_request_loop, Option.getD_some, hmod, Nat.lt_irrefl, if_false,
      List.take_length, hv, Bool.not_true, Bool.false_eq_true, hnv, ne_eq, not_true_eq_false]
  have key : issue_mok_request env f s [⟨some E.length, some E⟩] req =
      match in_pending_request f s efi_guid_x509_cert E req with
      | none => none
      | some (_, s') => some (0, s') := by
    unfold issue_mok_request efi_get_variable
    simp only [List.any_cons, List.any_nil, Option.isNone_some, Bool.or_false,
      Bool.false_eq_true, if_false, hget, hloop]
    cases hs : s .efi_guid_shim (req_names req) <;>
      cases hp : in_pending_request f s efi_guid_x509_cert E req <;> simp
  constructor
  · intro r s2 h
    rw [key] at h
    cases hp : in_pending_request f s efi_guid_x509_cert E req with
    | none => rw [hp] at h; cases h
    | some p =>
      obtain ⟨r0, s0⟩ := p
      rw [hp] at h
      simp only [Option.some.injEq, Prod.mk.injEq] at h
      obtain ⟨rfl, rfl⟩ := h
      exact ⟨rfl, in_pending_request_frame_var f s s0 _ _ req r0 hp⟩
  · intro habs
    obtain ⟨r0, hr⟩ := in_pending_request_absent f s efi_guid_x509_cert E req habs
    rw [key, hr]

theorem view_holds_last (t d X o : Bytes) (n : Nat) (ht : t ∈ digest_types)
    (hX : X.length = n * (efi_hash_size t + 16)) (ho : o.length = 16) :
    view_holds t d (t, X.length + (efi_hash_size t + 16), X ++ o ++ d) := by
  have hx := (signature_size_digest t ht).2.2
  refine ⟨rfl, ?_⟩
  rw [if_neg hx]
  exact match_hash_array_last t d X o n ht hX ho

/-- `is_duplicate` finds a digest in a variable that begins with the new list made
for it. -/
theorem is_duplicate_new_list (f : Faults) (s : Store) (t d R : Bytes) (name : String)
    (nodesR : List MokListNode) (ht : t ∈ digest_types) (hd : d.length = efi_hash_size t)
    (hget : efi_get_variable f s .efi_guid_shim name =
      .ok (hash_list t (efi_guid_shim_bytes ++ d) ++ R))
    (hR : build_mok_list R = .done nodesR) :
    is_duplicate f s t d .efi_guid_shim name = some 1 := by
  have hb := (digest_types_facts t ht).2
  have ho : efi_guid_shim_bytes.length = 16 := rfl
  have hE : (efi_guid_shim_bytes ++ d).length = efi_hash_size t + 16 := by
    rw [List.length_append, ho, hd]; omega
  obtain ⟨hwf, hview⟩ := hash_list_block t (efi_guid_shim_bytes ++ d) ht (by omega) (by omega)
  have hdne : d ≠ [] := by
    intro h0
    rw [h0] at hd
    simp at hd
    omega
  have hv := view_holds_last t d [] efi_guid_shim_bytes 0 ht (by simp) ho
  simp only [List.nil_append, List.length_nil, Nat.zero_add] at hv
  refine is_duplicate_blocks f s t d .efi_guid_shim name
    [hash_list t (efi_guid_shim_bytes ++ d)] R nodesR (by simpa using hget)
    (by simpa using hwf) hR hdne ⟨_, List.mem_singleton_self _, ?_⟩
  rw [hview, hE]
  exact hv

/-- `is_duplicate` finds a digest in a variable made of lists that lie within
their own bytes, one of which is the list the digest has been merged into, when
the entry array of that list was a multiple of the entry size. -/
theorem is_duplicate_merged (f : Faults) (s : Store) (t d b : Bytes) (name : String)
    (pre post : List Bytes) (ht : t ∈ digest_types) (hd : d.length = efi_hash_size t)
    (hwf : ∀ x ∈ pre ++ b :: post, list_wf x) (hbt : SignatureType b 0 = t)
    (hmult : (b.length - 28 - SignatureHeaderSize b 0) % (efi_hash_size t + 16) = 0)
    (hsz : b.length + (efi_hash_size t + 16) < 4294967296)
    (hget : efi_get_variable f s .efi_guid_shim name =
      .ok (pre.flatten ++ merged_list t d b ++ post.flatten)) :
    is_duplicate f s t d .efi_guid_shim name = some 1 := by
  have hb := (digest_types_facts t ht).2
  have ht16 := (digest_types_facts t ht).1
  have hwfb := hwf b (List.mem_append_right _ (List.mem_cons_self _ _))
  obtain ⟨_, hwfm, _, hview⟩ := merged_list_facts t d b hwfb hbt ht hd hsz
  have hdne : d ≠ [] := by
    intro h0
    rw [h0] at hd
    simp at hd
    omega
  obtain ⟨hL, hfit, _, _⟩ := hwfb
  have hXl : (b.drop (28 + SignatureHeaderSize b 0)).length =
      b.length - 28 - SignatureHeaderSize b 0 := by
    rw [List.length_drop]; omega
  have hX : (b.drop (28 + SignatureHeaderSize b 0)).length =
      ((b.length - 28 - SignatureHeaderSize b 0) / (efi_hash_size t + 16)) *
        (efi_hash_size t + 16) := by
    rw [hXl, Nat.div_mul_cancel (Nat.dvd_of_mod_eq_zero hmult)]
  have hv := view_holds_last t d (b.drop (28 + SignatureHeaderSize b 0)) t _ ht hX ht16
  rw [hXl] at hv
  have hflat : (pre ++ merged_list t d b :: post).flatten ++ [] =
      pre.flatten ++ merged_list t d b ++ post.flatten := by
    simp [List.append_assoc]
  refine is_duplicate_blocks f s t d .efi_guid_shim name
    (pre ++ merged_list t d b :: post) [] [] (by rw [hflat]; exact hget) ?_
    build_mok_list_nil hdne ⟨merged_list t d b, by simp, by rw [hview]; exact hv⟩
  intro x hx
  rcases List.mem_append.mp hx with h1 | h1
  · exact hwf x (List.mem_append_left _ h1)
  · rcases List.mem_cons.mp h1 with rfl | h2
    · exact hwfm
    · exact hwf x (List.mem_append_right _ (List.mem_cons_of_mem _ h2))

/-- `is_duplicate` finds a certificate in a variable that begins with the lists
written for a batch that contains it. -/
theorem is_duplicate_cert_lists (f : Faults) (s : Store) (E R : Bytes) (name : String)
    (adm : List Bytes) (nodesR : List MokListNode)
    (hadm : ∀ c ∈ adm, c ≠ [] ∧ c.length + 44 < 4294967296) (hE : E ∈ adm)
    (hget : efi_get_variable f s .efi_guid_shim name = .ok ((adm.map enc_cert).flatten ++ R))
    (hR : build_mok_list R = .done nodesR) :
    is_duplicate f s efi_guid_x509_cert E .efi_guid_shim name = some 1 := by
  refine is_duplicate_blocks f s efi_guid_x509_cert E .efi_guid_shim name
    (adm.map enc_cert) R nodesR hget ?_ hR (hadm E hE).1
    ⟨enc_cert E, List.mem_map_of_mem _ hE, ?_⟩
  · intro b hb
    obtain ⟨c, hc, rfl⟩ := List.mem_map.mp hb
    exact (enc_cert_block c (hadm c hc).1 (hadm c hc).2).1
  · rw [(enc_cert_block E (hadm E hE).1 (hadm E hE).2).2]
    exact ⟨rfl, by simp⟩

/-! ### The buffer of a hash request, case by case -/

theorem find_merge_ind_none (old t : Bytes) :
    ∀ (nodes : List MokListNode) (i : Nat),
      (∀ node ∈ nodes, SignatureType old node.header ≠ t) →
      find_merge_ind old t nodes i = none := by
  intro nodes
  induction nodes with
  | nil => intro _ _; rfl
  | cons n ns ih =>
    intro i h
    have hn : efi_guid_eq (SignatureType old n.header) t = false := by
      simp [efi_guid_eq, h n (List.mem_cons_self _ _)]
    simp only [find_merge_ind, hn, Bool.false_eq_true, if_false]
    exact ih (i + 1) (fun node hm => h node (List.mem_cons_of_mem _ hm))

theorem staged_result_eq (env : Env) (f : Faults) (s : Store) (buf : Bytes) (req : MokRequest) :
    staged_result env f s buf req =
      some (if (update_request env f s (some buf) req).1 < 0
        then (-1, (update_request env f s (some buf) req).2)
        else (0, (update_request env f s (some buf) req).2)) := rfl

theorem merged_list_total_size (t d b : Bytes) (hb : 28 ≤ b.length) :
    SignatureListSize (merged_list t d b) 0 =
      (SignatureListSize b 0 + (efi_hash_size t + 16)) % 4294967296 := by
  have hpl : (poke b 16 (enc32 (SignatureListSize b 0 + (efi_hash_size t + 16)))).length =
      b.length := poke_length _ _ _ (by rw [enc32_length]; omega)
  unfold merged_list
  rw [SignatureListSize_append _ _ (by rw [List.length_append, hpl]; omega),
    SignatureListSize_append _ _ (by rw [hpl]; exact hb)]
  exact (poke_total_size_fields b _ hb).2.1

/-- The buffer of a hash request where no list is skipped by `build_mok_list`. For
an admitted hash of digest type `t` with digest `d`, the request variable being
readable, `issue_hash_request` hands `update_request`:
when the variable is absent, a new list (type `t`, `header_size = 0`,
`entry_size = digest_size + 16`, `total_size = 28 + entry_size`) holding the
single entry, owner `efi_guid_shim`; when the variable decodes to at least one
indexed list and no indexed list has type `t`, that new list followed by the whole
old content; when the variable is a sequence of supported lists each lying within
its own bytes and `b` is the first of type `t`, the lists in front of `b`
unchanged, then `b` with its `total_size` field set to the old value plus
`entry_size` (modulo `2 ^ 32`) and the entry (16 bytes of `t`, then `d`) after
its last byte, then the lists behind `b` unchanged. -/
theorem issue_hash_request_buffer (env : Env) (f : Faults) (s : Store) (hash_str : String)
    (req : MokRequest) (t : Guid)
    (hid : identify_hash_type hash_str.toList = some (t, efi_hash_size t))
    (hvalid : is_valid_request f s t
      (hex_str_to_binary hash_str.toList (efi_hash_size t)) req = some 1)
    (hget : f.get .efi_guid_shim (req_names req) = false) :
    (s .efi_guid_shim (req_names req) = none →
      issue_hash_request env f s hash_str req =
        staged_result env f s (hash_list t (efi_guid_shim_bytes ++
          hex_str_to_binary hash_str.toList (efi_hash_size t))) req) ∧
    (∀ (old : Bytes) (n : MokListNode) (ns : List MokListNode),
      s .efi_guid_shim (req_names req) = some old →
      build_mok_list old = .done (n :: ns) →
      (∀ node ∈ n :: ns, SignatureType old node.header ≠ t) →
      issue_hash_request env f s hash_str req =
        staged_result env f s (hash_list t (efi_guid_shim_bytes ++
          hex_str_to_binary hash_str.toList (efi_hash_size t)) ++ old) req) ∧
    (∀ (pre : List Bytes) (b : Bytes) (post : List Bytes),
      s .efi_guid_shim (req_names req) = some (pre ++ b :: post).flatten →
      (∀ x ∈ pre ++ b :: post, list_wf x) →
      (∀ x ∈ pre, SignatureType x 0 ≠ t) →
      SignatureType b 0 = t →
      issue_hash_request env f s hash_str req =
        staged_result env f s (pre.flatten ++
          merged_list t (hex_str_to_binary hash_str.toList (efi_hash_size t)) b ++
          post.flatten) req ∧
      merged_list t (hex_str_to_binary hash_str.toList (efi_hash_size t)) b =
        poke b 16 (enc32 (SignatureListSize b 0 + (efi_hash_size t + 16))) ++ t ++
          hex_str_to_binary hash_str.toList (efi_hash_size t) ∧
      SignatureListSize
          (merged_list t (hex_str_to_binary hash_str.toList (efi_hash_size t)) b) 0 =
        (SignatureListSize b 0 + (efi_hash_size t + 16)) % 4294967296) ∧
    SignatureType (hash_list t (efi_guid_shim_bytes ++
      hex_str_to_binary hash_str.toList (efi_hash_size t))) 0 = t ∧
    SignatureListSize (hash_list t (efi_guid_shim_bytes ++
      hex_str_to_binary hash_str.toList (efi_hash_size t))) 0 = 28 + (efi_hash_size t + 16) ∧
    SignatureHeaderSize (hash_list t (efi_guid_shim_bytes ++
      hex_str_to_binary hash_str.toList (efi_hash_size t))) 0 = 0 ∧
    SignatureSize (hash_list t (efi_guid_shim_bytes ++
      hex_str_to_binary hash_str.toList (efi_hash_size t))) 0 = efi_hash_size t + 16 ∧
    (hash_list t (efi_guid_shim_bytes ++
      hex_str_to_binary hash_str.toList (efi_hash_size t))).drop 28 =
      efi_guid_shim_bytes ++ hex_str_to_binary hash_str.toList (efi_hash_size t) := by
  obtain ⟨ht, _, _⟩ := identify_hash_type_some _ _ _ hid
  have hd := hash_digest_length _ _ _ hid
  have ht16 := (digest_types_facts t ht).1
  have hb := (digest_types_facts t ht).2
  generalize hg : hex_str_to_binary hash_str.toList (efi_hash_size t) = d at hd hvalid ⊢
  have ho : efi_guid_shim_bytes.length = 16 := rfl
  have hE : (efi_guid_shim_bytes ++ d).length = efi_hash_size t + 16 := by
    rw [List.length_append, ho, hd]; omega
  obtain ⟨f1, f2, f3, f4⟩ := hash_list_fields t (efi_guid_shim_bytes ++ d) ht
  refine ⟨?_, ?_, ?_, f1, ?_, f3, f4, ?_⟩
  · intro habs
    rw [staged_result_eq]
    refine issue_hash_request_stages env f s hash_str req t _ hid (by rw [hg]; exact hvalid)
      hget ?_
    rw [hg, habs]
    exact hash_request_staged_first env.heap t d ht hd
  · intro old n ns hold hbuild hno
    rw [staged_result_eq]
    refine issue_hash_request_stages env f s hash_str req t _ hid (by rw [hg]; exact hvalid)
      hget ?_
    rw [hg, hold]
    exact hash_request_staged_new env.heap t d old n ns ht hd hbuild
      (find_merge_ind_none old t (n :: ns) 0 hno)
  · intro pre b post hold hwf hpre hbt
    have hb28 : 28 ≤ b.length := by
      obtain ⟨_, h2, _, _⟩ := hwf b (List.mem_append_right _ (List.mem_cons_self _ _))
      omega
    refine ⟨?_, rfl, merged_list_total_size t d b hb28⟩
    rw [staged_result_eq]
    refine issue_hash_request_stages env f s hash_str req t _ hid (by rw [hg]; exact hvalid)
      hget ?_
    rw [hg, hold]
    exact hash_request_staged_blocks env.heap t d b pre post ht hd hwf hpre hbt
  · rw [f2, hE]
    omega
  · unfold hash_list
    exact List.drop_left' (list_header_length _ _ _ _ ht16)

/-- An instance: `MokNew` holds the X509 list of X, the SHA256 list of
`ex_digest` and the X509 list of Y; the digest `ex_digest2` is merged into the
second list and the other two lists are staged unchanged. -/
theorem issue_hash_request_buffer_witness :
    identify_hash_type ex_hash_str2.toList =
      some (efi_guid_sha256, efi_hash_size efi_guid_sha256) ∧
    is_valid_request Faults.none ex_store_mixed efi_guid_sha256
      (hex_str_to_binary ex_hash_str2.toList (efi_hash_size efi_guid_sha256)) .ENROLL_MOK =
      some 1 ∧
    Faults.none.get .efi_guid_shim (req_names .ENROLL_MOK) = false ∧
    issue_hash_request ex_env Faults.none ex_store_mixed ex_hash_str2 .ENROLL_MOK =
      staged_result ex_env Faults.none ex_store_mixed ([ex_x509_list].flatten ++
        merged_list efi_guid_sha256
          (hex_str_to_binary ex_hash_str2.toList (efi_hash_size efi_guid_sha256))
          ex_sha256_list ++
        [enc_cert ex_cert_Y].flatten) .ENROLL_MOK :=
  ⟨by decide, by decide, by decide,
   ((issue_hash_request_buffer ex_env Faults.none ex_store_mixed ex_hash_str2 .ENROLL_MOK
      efi_guid_sha256 (by decide) (by decide) (by decide)).2.2.1
      [ex_x509_list] ex_sha256_list [enc_cert ex_cert_Y]
      (by decide) (by decide) (by decide) (by decide)).1⟩

/-- C23 (failing inputs). First input: `MokNew` holds the SHA256 list of
`ex_digest` (76 bytes) followed by a list of unrecognised type (29 bytes), and
fresh memory holds the byte `0x5a`. The content decodes and its indexed list has
type SHA256, so enrolling `ex_digest2` takes the merge path; the 153 bytes written
are the SHA256 list with the entry appended, followed by 29 bytes of fresh
memory, not by the list that stood behind it. Second input: `MokNew` holds only
the list of unrecognised type, so no list has type SHA256; the admitted hash
`ex_hash_str` is not staged at all, `MokNew` and `MokAuth` stay as they were, and
the value returned is 0. -/
theorem issue_hash_request_buffer_not_old_with_entry :
    build_mok_list (ex_sha256_list ++ ex_unknown_only) = .done [⟨0, 48, 28⟩] ∧
    is_valid_request Faults.none ex_store_hash_unknown efi_guid_sha256 ex_digest2
      .ENROLL_MOK = some 1 ∧
    observe ["MokNew"]
      (issue_hash_request ex_env_heap Faults.none ex_store_hash_unknown ex_hash_str2
        .ENROLL_MOK) =
      some (0, [some (merged_list efi_guid_sha256 ex_digest2 ex_sha256_list ++
        List.replicate 29 0x5a)]) ∧
    merged_list efi_guid_sha256 ex_digest2 ex_sha256_list ++ List.replicate 29 0x5a ≠
      merged_list efi_guid_sha256 ex_digest2 ex_sha256_list ++ ex_unknown_only ∧
    identify_hash_type ex_hash_str.toList = some (efi_guid_sha256, 32) ∧
    is_valid_request Faults.none ex_store_unknown_pending efi_guid_sha256 ex_digest
      .ENROLL_MOK = some 1 ∧
    build_mok_list ex_unknown_only = .done [] ∧
    observe ["MokNew", "MokAuth"]
      (issue_hash_request ex_env Faults.none ex_store_unknown_pending ex_hash_str
        .ENROLL_MOK) = some (0, [some ex_unknown_only, some ex_auth_old]) ∧
    observe ["MokNew", "MokAuth"]
      (issue_hash_request ex_env Faults.none ex_store_unknown_pending ex_hash_str
        .ENROLL_MOK) ≠
      observe ["MokNew", "MokAuth"]
        (staged_result ex_env Faults.none ex_store_unknown_pending
          (hash_list efi_guid_sha256 (efi_guid_shim_bytes ++ ex_digest) ++ ex_unknown_only)
          .ENROLL_MOK) := by
  refine ⟨by decide, by decide, by decide, by decide, by decide, by decide, by decide,
    by decide, by decide⟩

/-! ### Submitting a staged entry again -/

theorem efi_get_variable_written (env : Env) (f : Faults) (s : Store) (buf : Bytes)
    (req : MokRequest) (hget : f.get .efi_guid_shim (req_names req) = false)
    (hok : (update_request env f s (some buf) req).1 = 0) :
    efi_get_variable f (update_request env f s (some buf) req).2 .efi_guid_shim
      (req_names req) = .ok buf := by
  unfold efi_get_variable
  rw [update_request_ok env f s buf req hok]
  simp only [hget, Bool.false_eq_true, if_false]

theorem staged_result_ok (env : Env) (f : Faults) (s : Store) (buf : Bytes) (req : MokRequest)
    (hok : (update_request env f s (some buf) req).1 = 0) :
    staged_result env f s buf req = some (0, (update_request env f s (some buf) req).2) := by
  rw [staged_result_eq, if_neg (by rw [hok]; decide)]

theorem update_request_frame_staged (env : Env) (f : Faults) (s s0 : Store) (buf : Bytes)
    (req : MokRequest)
    (h0 : ∀ (g : Vendor) (n : String), n ≠ var_names req →
      paired_auth (var_names req) ≠ some n → s g n = s0 g n) :
    ∀ (vendor : Vendor) (name : String),
      ¬ (name = req_names req ∨ name = auth_names req ∨ name = var_names req ∨
          paired_auth (var_names req) = some name) →
      (update_request env f s (some buf) req).2 vendor name = s0 vendor name := by
  intro vendor name hn
  have h1 : name ≠ req_names req := fun h => hn (Or.inl h)
  have h2 : name ≠ auth_names req := fun h => hn (Or.inr (Or.inl h))
  have h3 : name ≠ var_names req := fun h => hn (Or.inr (Or.inr (Or.inl h)))
  have h4 : paired_auth (var_names req) ≠ some name :=
    fun h => hn (Or.inr (Or.inr (Or.inr h)))
  rw [update_request_frame env f s (some buf) req vendor name h1 h2]
  exact h0 vendor name h3 h4

/-- A digest staged by a successful hash request is found in the data variable, is
not admitted again, and a second request for it stages nothing. -/
theorem hash_request_staged_again (env : Env) (f : Faults) (s : Store) (hash_str : String)
    (req : MokRequest) (t : Guid) (buf : Bytes)
    (hid : identify_hash_type hash_str.toList = some (t, efi_hash_size t))
    (hvalid : is_valid_request f s t
      (hex_str_to_binary hash_str.toList (efi_hash_size t)) req = some 1)
    (hget : f.get .efi_guid_shim (req_names req) = false)
    (hcase :
      (s .efi_guid_shim (req_names req) = none ∧
        buf = hash_list t (efi_guid_shim_bytes ++
          hex_str_to_binary hash_str.toList (efi_hash_size t))) ∨
      (∃ (old : Bytes) (n : MokListNode) (ns : List MokListNode),
        s .efi_guid_shim (req_names req) = some old ∧
        build_mok_list old = .done (n :: ns) ∧
        (∀ node ∈ n :: ns, SignatureType old node.header ≠ t) ∧
        buf = hash_list t (efi_guid_shim_bytes ++
          hex_str_to_binary hash_str.toList (efi_hash_size t)) ++ old) ∨
      (∃ (pre : List Bytes) (b : Bytes) (post : List Bytes),
        s .efi_guid_shim (req_names req) = some (pre ++ b :: post).flatten ∧
        (∀ x ∈ pre ++ b :: post, list_wf x) ∧
        (∀ x ∈ pre, SignatureType x 0 ≠ t) ∧
        SignatureType b 0 = t ∧
        (b.length - 28 - SignatureHeaderSize b 0) % (efi_hash_size t + 16) = 0 ∧
        b.length + (efi_hash_size t + 16) < 4294967296 ∧
        buf = pre.flatten ++
          merged_list t (hex_str_to_binary hash_str.toList (efi_hash_size t)) b ++
          post.flatten))
    (hok : (update_request env f s (some buf) req).1 = 0) :
    issue_hash_request env f s hash_str req =
      some (0, (update_request env f s (some buf) req).2) ∧
    is_duplicate f (update_request env f s (some buf) req).2 t
      (hex_str_to_binary hash_str.toList (efi_hash_size t)) .efi_guid_shim (req_names req) =
      some 1 ∧
    is_valid_request f (update_request env f s (some buf) req).2 t
      (hex_str_to_binary hash_str.toList (efi_hash_size t)) req = some 0 ∧
    (∀ (r : Int) (s2 : Store),
      issue_hash_request env f (update_request env f s (some buf) req).2 hash_str req =
        some (r, s2) →
      r = 0 ∧ ∀ (g : Vendor) (m : String), m ≠ var_names req →
        paired_auth (var_names req) ≠ some m →
        s2 g m = (update_request env f s (some buf) req).2 g m) ∧
    ((update_request env f s (some buf) req).2 .efi_guid_shim (var_names req) = none →
      issue_hash_request env f (update_request env f s (some buf) req).2 hash_str req =
        some (0, (update_request env f s (some buf) req).2)) := by
  obtain ⟨ht, _, _⟩ := identify_hash_type_some _ _ _ hid
  have hd := hash_digest_length _ _ _ hid
  have hw := efi_get_variable_written env f s buf req hget hok
  have hst : hash_request_staged env.heap t
      (hex_str_to_binary hash_str.toList (efi_hash_size t))
      (s .efi_guid_shim (req_names req)) = some buf ∧
      is_duplicate f (update_request env f s (some buf) req).2 t
        (hex_str_to_binary hash_str.toList (efi_hash_size t)) .efi_guid_shim
        (req_names req) = some 1 := by
    rcases hcase with ⟨habs, rfl⟩ | ⟨old, n, ns, hold, hbuild, hno, rfl⟩ |
      ⟨pre, b, post, hold, hwf, hpre, hbt, hmult, hsz, rfl⟩
    · constructor
      · rw [habs]
        exact hash_request_staged_first env.heap t _ ht hd
      · exact is_duplicate_new_list f _ t _ [] _ [] ht hd (by rw [List.append_nil]; exact hw)
          build_mok_list_nil
    · constructor
      · rw [hold]
        exact hash_request_staged_new env.heap t _ old n ns ht hd hbuild
          (find_merge_ind_none old t (n :: ns) 0 hno)
      · exact is_duplicate_new_list f _ t _ old _ (n :: ns) ht hd hw hbuild
    · constructor
      · rw [hold]
        exact hash_request_staged_blocks env.heap t _ b pre post ht hd hwf hpre hbt
      · exact is_duplicate_merged f _ t _ b _ pre post ht hd hwf hbt hmult hsz hw
  obtain ⟨hst1, hdup⟩ := hst
  have hnv := is_valid_request_staged f s (update_request env f s (some buf) req).2 t _ req
    hvalid (update_request_frame_staged env f s s buf req (fun _ _ _ _ => rfl)) hdup
  have hsecond := issue_hash_request_not_admitted env f
    (update_request env f s (some buf) req).2 hash_str req t (efi_hash_size t) hid hnv
  refine ⟨?_, hdup, hnv, hsecond.1, hsecond.2⟩
  rw [issue_hash_request_stages env f s hash_str req t buf hid hvalid hget hst1,
    if_neg (by rw [hok]; decide)]

theorem issue_mok_request_batch (env : Env) (f : Faults) (s : Store) (req : MokRequest)
    (certs adm : List Bytes) (s' : Store)
    (hvalid : ∀ c ∈ certs, c.length < 4294967296 ∧ env.is_valid_cert c = true)
    (hget : f.get .efi_guid_shim (req_names req) = false)
    (hadm : admitted_certs f req certs s = some (adm, s'))
    (hne : adm ≠ []) :
    issue_mok_request env f s (certs.map fun c => ⟨some c.length, some c⟩) req =
      staged_result env f s'
        ((adm.map enc_cert).flatten ++ (s .efi_guid_shim (req_names req)).getD []) req := by
  have hloop := issue_mok_request_loop_batch env f req certs s [] adm s' hvalid hadm
  have hlen : ((adm.map enc_cert).flatten).length ≠ 0 := by
    cases adm with
    | nil => exact absurd rfl hne
    | cons a as =>
      simp only [List.map_cons, List.flatten_cons, List.length_append, enc_cert_length]
      omega
  have hany : (certs.map fun c => (⟨some c.length, some c⟩ : KeyFile)).any
      (fun file => file.st_size.isNone) = false := by
    simp [List.any_eq_false]
  rw [staged_result_eq]
  unfold issue_mok_request
  rw [hany]
  simp only [Bool.false_eq_true, if_false, hloop, List.nil_append]
  unfold efi_get_variable
  simp only [hget, Bool.false_eq_true, if_false]
  cases hs : s .efi_guid_shim (req_names req) with
  | none =>
    simp only [Option.getD_none, List.append_nil]
    rw [if_neg hlen]
    split <;> rfl
  | some d =>
    simp only [Option.getD_some]
    rw [if_neg hlen]
    split <;> rfl

/-- A certificate staged by a successful request is found in the data variable, is
not admitted again, and a second request for it stages nothing. -/
theorem mok_request_staged_again (env : Env) (f : Faults) (s : Store) (req : MokRequest)
    (certs adm : List Bytes) (s' : Store) (E buf : Bytes) (nodes : List MokListNode)
    (hvalid : ∀ c ∈ certs, c ≠ [] ∧ c.length + 44 < 4294967296 ∧ env.is_valid_cert c = true)
    (hget : f.get .efi_guid_shim (req_names req) = false)
    (hadm : admitted_certs f req certs s = some (adm, s'))
    (hE : E ∈ adm)
    (hold : build_mok_list ((s .efi_guid_shim (req_names req)).getD []) = .done nodes)
    (hbuf : buf = (adm.map enc_cert).flatten ++ (s .efi_guid_shim (req_names req)).getD [])
    (hok : (update_request env f s' (some buf) req).1 = 0) :
    issue_mok_request env f s (certs.map fun c => ⟨some c.length, some c⟩) req =
      some (0, (update_request env f s' (some buf) req).2) ∧
    is_duplicate f (update_request env f s' (some buf) req).2 efi_guid_x509_cert E
      .efi_guid_shim (req_names req) = some 1 ∧
    is_valid_request f (update_request env f s' (some buf) req).2 efi_guid_x509_cert E req =
      some 0 ∧
    (∀ (r : Int) (s2 : Store),
      issue_mok_request env f (update_request env f s' (some buf) req).2
        [⟨some E.length, some E⟩] req = some (r, s2) →
      r = 0 ∧ ∀ (g : Vendor) (m : String), m ≠ var_names req →
        paired_auth (var_names req) ≠ some m →
        s2 g m = (update_request env f s' (some buf) req).2 g m) ∧
    ((update_request env f s' (some buf) req).2 .efi_guid_shim (var_names req) = none →
      issue_mok_request env f (update_request env f s' (some buf) req).2
        [⟨some E.length, some E⟩] req =
        some (0, (update_request env f s' (some buf) req).2)) := by
  subst hbuf
  have hsub := admitted_certs_sublist f req certs s adm s' hadm
  have hEc : E ∈ certs := hsub.subset hE
  have hw := efi_get_variable_written env f s' _ req hget hok
  have hdup := is_duplicate_cert_lists f _ E _ _ adm nodes
    (fun c hc => ⟨(hvalid c (hsub.subset hc)).1, (hvalid c (hsub.subset hc)).2.1⟩) hE hw hold
  obtain ⟨hfr, hmem⟩ := admitted_certs_mem f req certs s adm s' hadm
  obtain ⟨s0, hv0, hfr0⟩ := hmem E hE
  have hnv := is_valid_request_staged f s0 _ efi_guid_x509_cert E req hv0
    (update_request_frame_staged env f s' s0 _ req hfr0) hdup
  have hsecond := issue_mok_request_not_admitted env f _ E req
    (by have := (hvalid E hEc).2.1; omega) (hvalid E hEc).2.2 hget hnv
  refine ⟨?_, hdup, hnv, hsecond.1, hsecond.2⟩
  rw [issue_mok_request_batch env f s req certs adm s'
    (fun c hc => ⟨by have := (hvalid c hc).2.1; omega, (hvalid c hc).2.2⟩) hget hadm
    (List.ne_nil_of_mem hE)]
  exact staged_result_ok env f s' _ req hok

/-- A hash request for a digest that is not admitted is the call of
`in_pending_request`, with the value 0 returned. -/
theorem issue_hash_request_not_admitted_eq (env : Env) (f : Faults) (s : Store)
    (hash_str : String) (req : MokRequest) (t : Guid) (n : Nat)
    (hid : identify_hash_type hash_str.toList = some (t, n))
    (hnv : is_valid_request f s t (hex_str_to_binary hash_str.toList n) req = some 0) :
    issue_hash_request env f s hash_str req =
      (in_pending_request f s t (hex_str_to_binary hash_str.toList n) req).map
        fun p => (0, p.2) := by
  unfold issue_hash_request
  simp only [hid, hnv, if_true]
  cases in_pending_request f s t (hex_str_to_binary hash_str.toList n) req <;> rfl

/-- A request for one certificate that is not admitted is the call of
`in_pending_request`, with the value 0 returned. -/
theorem issue_mok_request_not_admitted_eq (env : Env) (f : Faults) (s : Store) (E : Bytes)
    (req : MokRequest) (hE : E.length < 4294967296) (hv : env.is_valid_cert E = true)
    (hget : f.get .efi_guid_shim (req_names req) = false)
    (hnv : is_valid_request f s efi_guid_x509_cert E req = some 0) :
    issue_mok_request env f s [⟨some E.length, some E⟩] req =
      (in_pending_request f s efi_guid_x509_cert E req).map fun p => (0, p.2) := by
  have hmod : E.length % 2 ^ 32 = E.length := Nat.mod_eq_of_lt (by norm_num; exact hE)
  have hloop : issue_mok_request_loop env f req [⟨some E.length, some E⟩] s [] =
      match in_pending_request f s efi_guid_x509_cert E req with
      | none => none
      | some (_, s') => some (some [], s') := by
    simp only [issue_mok_request_loop, Option.getD_some, hmod, Nat.lt_irrefl, if_false,
      List.take_length, hv, Bool.not_true, Bool.false_eq_true, hnv, ne_eq, not_true_eq_false]
  unfold issue_mok_request efi_get_variable
  simp only [List.any_cons, List.any_nil, Option.isNone_some, Bool.or_false,
    Bool.false_eq_true, if_false, hget, hloop]
  cases hs : s .efi_guid_shim (req_names req) <;>
    cases hp : in_pending_request f s efi_guid_x509_cert E req <;> simp

theorem enroll_var_names (req : MokRequest)
    (henroll : req = .ENROLL_MOK ∨ req = .ENROLL_BLACKLIST) :
    (var_names req = "Mok" ∨ var_names req = "MokX") ∧
    paired_auth (var_names req) = none ∧
    var_names req ≠ req_names req ∧ var_names req ≠ auth_names req := by
  rcases henroll with rfl | rfl <;> decide

/-- C26 (amended). Admission symmetry for an enrolment request (`MokNew` /
`MokXNew`) with the data variable readable and a staged buffer shorter than 2^31
bytes, which the variable receives whole. Certificates: for a batch of valid
non-empty certificates with the data variable absent or decoding, when
`update_request` succeeds with the staged buffer, every admitted certificate `E`
is then found by `is_duplicate` in the data variable, `is_valid_request` no
longer admits it, and a second request for `E` is the call of
`in_pending_request` with 0 returned; it stages nothing: the data variable and
its Authorization variable stay as they are, no variable whose name is not `Mok`
(`MokX` for the blacklist), the name `in_pending_request` looks up for an
enrolment, is changed, and nothing is changed when the shim variable of that
name is absent. Digests: the same for an admitted digest of a supported type when
the data variable is absent, or decodes to at least one indexed list none of
which has the digest type, or is a sequence of supported lists each lying within
its own bytes in which the first list of the digest type has an entry array that
is a multiple of the entry size. -/
theorem enroll_staged_not_admitted_again (env : Env) (f : Faults) (s : Store)
    (req : MokRequest) (henroll : req = .ENROLL_MOK ∨ req = .ENROLL_BLACKLIST)
    (hget : f.get .efi_guid_shim (req_names req) = false) :
    (var_names req = "Mok" ∨ var_names req = "MokX") ∧
    (∀ (certs adm : List Bytes) (s' : Store) (E buf : Bytes) (nodes : List MokListNode),
      (∀ c ∈ certs, c ≠ [] ∧ c.length + 44 < 4294967296 ∧ env.is_valid_cert c = true) →
      admitted_certs f req certs s = some (adm, s') →
      E ∈ adm →
      build_mok_list ((s .efi_guid_shim (req_names req)).getD []) = .done nodes →
      buf = (adm.map enc_cert).flatten ++ (s .efi_guid_shim (req_names req)).getD [] →
      buf.length < 2147483648 →
      (update_request env f s' (some buf) req).1 = 0 →
      stored_list buf = some buf ∧
      issue_mok_request env f s (certs.map fun c => ⟨some c.length, some c⟩) req =
        some (0, (update_request env f s' (some buf) req).2) ∧
      is_duplicate f (update_request env f s' (some buf) req).2 efi_guid_x509_cert E
        .efi_guid_shim (req_names req) = some 1 ∧
      is_valid_request f (update_request env f s' (some buf) req).2 efi_guid_x509_cert E
        req = some 0 ∧
      issue_mok_request env f (update_request env f s' (some buf) req).2
          [⟨some E.length, some E⟩] req =
        (in_pending_request f (update_request env f s' (some buf) req).2
          efi_guid_x509_cert E req).map (fun p => (0, p.2)) ∧
      (∀ (r : Int) (s2 : Store),
        issue_mok_request env f (update_request env f s' (some buf) req).2
          [⟨some E.length, some E⟩] req = some (r, s2) →
        r = 0 ∧
        s2 .efi_guid_shim (req_names req) =
          (update_request env f s' (some buf) req).2 .efi_guid_shim (req_names req) ∧
        s2 .efi_guid_shim (auth_names req) =
          (update_request env f s' (some buf) req).2 .efi_guid_shim (auth_names req) ∧
        ∀ (g : Vendor) (m : String), m ≠ var_names req →
          s2 g m = (update_request env f s' (some buf) req).2 g m) ∧
      ((update_request env f s' (some buf) req).2 .efi_guid_shim (var_names req) = none →
        issue_mok_request env f (update_request env f s' (some buf) req).2
          [⟨some E.length, some E⟩] req =
          some (0, (update_request env f s' (some buf) req).2))) ∧
    (∀ (hash_str : String) (t : Guid) (buf : Bytes),
      identify_hash_type hash_str.toList = some (t, efi_hash_size t) →
      is_valid_request f s t
        (hex_str_to_binary hash_str.toList (efi_hash_size t)) req = some 1 →
      ((s .efi_guid_shim (req_names req) = none ∧
          buf = hash_list t (efi_guid_shim_bytes ++
            hex_str_to_binary hash_str.toList (efi_hash_size t))) ∨
        (∃ (old : Bytes) (n : MokListNode) (ns : List MokListNode),
          s .efi_guid_shim (req_names req) = some old ∧
          build_mok_list old = .done (n :: ns) ∧
          (∀ node ∈ n :: ns, SignatureType old node.header ≠ t) ∧
          buf = hash_list t (efi_guid_shim_bytes ++
            hex_str_to_binary hash_str.toList (efi_hash_size t)) ++ old) ∨
        (∃ (pre : List Bytes) (b : Bytes) (post : List Bytes),
          s .efi_guid_shim (req_names req) = some (pre ++ b :: post).flatten ∧
          (∀ x ∈ pre ++ b :: post, list_wf x) ∧
          (∀ x ∈ pre, SignatureType x 0 ≠ t) ∧
          SignatureType b 0 = t ∧
          (b.length - 28 - SignatureHeaderSize b 0) % (efi_hash_size t + 16) = 0 ∧
          buf = pre.flatten ++
            merged_list t (hex_str_to_binary hash_str.toList (efi_hash_size t)) b ++
            post.flatten)) →
      buf.length < 2147483648 →
      (update_request env f s (some buf) req).1 = 0 →
      stored_list buf = some buf ∧
      issue_hash_request env f s hash_str req =
        some (0, (update_request env f s (some buf) req).2) ∧
      is_duplicate f (update_request env f s (some buf) req).2 t
        (hex_str_to_binary hash_str.toList (efi_hash_size t)) .efi_guid_shim
        (req_names req) = some 1 ∧
      is_valid_request f (update_request env f s (some buf) req).2 t
        (hex_str_to_binary hash_str.toList (efi_hash_size t)) req = some 0 ∧
      issue_hash_request env f (update_request env f s (some buf) req).2 hash_str req =
        (in_pending_request f (update_request env f s (some buf) req).2 t
          (hex_str_to_binary hash_str.toList (efi_hash_size t)) req).map
          (fun p => (0, p.2)) ∧
      (∀ (r : Int) (s2 : Store),
        issue_hash_request env f (update_request env f s (some buf) req).2 hash_str req =
          some (r, s2) →
        r = 0 ∧
        s2 .efi_guid_shim (req_names req) =
          (update_request env f s (some buf) req).2 .efi_guid_shim (req_names req) ∧
        s2 .efi_guid_shim (auth_names req) =
          (update_request env f s (some buf) req).2 .efi_guid_shim (auth_names req) ∧
        ∀ (g : Vendor) (m : String), m ≠ var_names req →
          s2 g m = (update_request env f s (some buf) req).2 g m) ∧
      ((update_request env f s (some buf) req).2 .efi_guid_shim (var_names req) = none →
        issue_hash_request env f (update_request env f s (some buf) req).2 hash_str req =
          some (0, (update_request env f s (some buf) req).2))) := by
  obtain ⟨hv, hp, hn1, hn2⟩ := enroll_var_names req henroll
  refine ⟨hv, ?_, ?_⟩
  · intro certs adm s' E buf nodes hvalid hadm hE hold hbuf hlen hok
    obtain ⟨k1, k2, k3, k4, k5⟩ := mok_request_staged_again env f s req certs adm s' E buf
      nodes hvalid hget hadm hE hold hbuf hok
    have hsub := admitted_certs_sublist f req certs s adm s' hadm
    have hEv := hvalid E (hsub.subset hE)
    refine ⟨stored_list_small buf hlen, k1, k2, k3,
      issue_mok_request_not_admitted_eq env f _ E req (by omega) hEv.2.2 hget k3, ?_, k5⟩
    intro r s2 h
    obtain ⟨hr, hfr⟩ := k4 r s2 h
    exact ⟨hr, hfr _ _ (Ne.symm hn1) (by rw [hp]; simp),
      hfr _ _ (Ne.symm hn2) (by rw [hp]; simp),
      fun g m hm => hfr g m hm (by rw [hp]; simp)⟩
  · intro hash_str t buf hid hvalid hcase hlen hok
    have hcase' :
        (s .efi_guid_shim (req_names req) = none ∧
          buf = hash_list t (efi_guid_shim_bytes ++
            hex_str_to_binary hash_str.toList (efi_hash_size t))) ∨
        (∃ (old : Bytes) (n : MokListNode) (ns : List MokListNode),
          s .efi_guid_shim (req_names req) = some old ∧
          build_mok_list old = .done (n :: ns) ∧
          (∀ node ∈ n :: ns, SignatureType old node.header ≠ t) ∧
          buf = hash_list t (efi_guid_shim_bytes ++
            hex_str_to_binary hash_str.toList (efi_hash_size t)) ++ old) ∨
        (∃ (pre : List Bytes) (b : Bytes) (post : List Bytes),
          s .efi_guid_shim (req_names req) = some (pre ++ b :: post).flatten ∧
          (∀ x ∈ pre ++ b :: post, list_wf x) ∧
          (∀ x ∈ pre, SignatureType x 0 ≠ t) ∧
          SignatureType b 0 = t ∧
          (b.length - 28 - SignatureHeaderSize b 0) % (efi_hash_size t + 16) = 0 ∧
          b.length + (efi_hash_size t + 16) < 4294967296 ∧
          buf = pre.flatten ++
            merged_list t (hex_str_to_binary hash_str.toList (efi_hash_size t)) b ++
            post.flatten) := by
      rcases hcase with h | h | ⟨pre, b, post, h1, h2, h3, h4, h5, h6⟩
      · exact Or.inl h
      · exact Or.inr (Or.inl h)
      · refine Or.inr (Or.inr ⟨pre, b, post, h1, h2, h3, h4, h5, ?_, h6⟩)
        obtain ⟨ht, _, _⟩ := identify_hash_type_some _ _ _ hid
        have hd := hash_digest_length _ _ _ hid
        have ht16 := (digest_types_facts t ht).1
        have hpl : (poke b 16 (enc32 (SignatureListSize b 0 + (efi_hash_size t + 16)))).length =
            b.length := poke_length _ _ _ (by
          rw [enc32_length]
          obtain ⟨_, q2, _, _⟩ := h2 b (List.mem_append_right _ (List.mem_cons_self _ _))
          omega)
        have hml : (merged_list t (hex_str_to_binary hash_str.toList (efi_hash_size t)) b).length =
            b.length + (efi_hash_size t + 16) := by
          simp only [merged_list, List.length_append, hpl, ht16, hd]
          omega
        rw [h6] at hlen
        simp only [List.length_append, hml] at hlen
        omega
    obtain ⟨k1, k2, k3, k4, k5⟩ := hash_request_staged_again env f s hash_str req t buf hid
      hvalid hget hcase' hok
    refine ⟨stored_list_small buf hlen, k1, k2, k3,
      issue_hash_request_not_admitted_eq env f _ hash_str req t _ hid k3, ?_, k5⟩
    intro r s2 h
    obtain ⟨hr, hfr⟩ := k4 r s2 h
    exact ⟨hr, hfr _ _ (Ne.symm hn1) (by rw [hp]; simp),
      hfr _ _ (Ne.symm hn2) (by rw [hp]; simp),
      fun g m hm => hfr g m hm (by rw [hp]; simp)⟩

/-- Witness for C26: after `ex_digest2` has been merged into the SHA256 list of
`ex_store_mixed`, `is_duplicate` finds it in `MokNew` and a second request
returns 0 and leaves the store as it is; after certificate Y has been enrolled
next to the pending X, a second request for Y returns 0 and leaves the store as
it is. -/
theorem enroll_staged_not_admitted_again_witness :
    (MokRequest.ENROLL_MOK = .ENROLL_MOK ∨ MokRequest.ENROLL_MOK = .ENROLL_BLACKLIST) ∧
    Faults.none.get .efi_guid_shim (req_names .ENROLL_MOK) = false ∧
    (is_duplicate Faults.none
        (update_request ex_env Faults.none ex_store_mixed (some ex_staged_mixed)
          .ENROLL_MOK).2 efi_guid_sha256
        (hex_str_to_binary ex_hash_str2.toList (efi_hash_size efi_guid_sha256))
        .efi_guid_shim (req_names .ENROLL_MOK) = some 1 ∧
      issue_hash_request ex_env Faults.none
        (update_request ex_env Faults.none ex_store_mixed (some ex_staged_mixed)
          .ENROLL_MOK).2 ex_hash_str2 .ENROLL_MOK =
        some (0, (update_request ex_env Faults.none ex_store_mixed (some ex_staged_mixed)
          .ENROLL_MOK).2)) ∧
    (is_duplicate Faults.none
        (update_request ex_env Faults.none ex_store_enroll_pending (some ex_staged_batch)
          .ENROLL_MOK).2 efi_guid_x509_cert ex_cert_Y
        .efi_guid_shim (req_names .ENROLL_MOK) = some 1 ∧
      issue_mok_request ex_env Faults.none
        (update_request ex_env Faults.none ex_store_enroll_pending (some ex_staged_batch)
          .ENROLL_MOK).2 [⟨some ex_cert_Y.length, some ex_cert_Y⟩] .ENROLL_MOK =
        some (0, (update_request ex_env Faults.none ex_store_enroll_pending
          (some ex_staged_batch) .ENROLL_MOK).2)) :=
  ⟨Or.inl rfl, by decide,
   ⟨((enroll_staged_not_admitted_again ex_env Faults.none ex_store_mixed .ENROLL_MOK
        (Or.inl rfl) (by decide)).2.2 ex_hash_str2 efi_guid_sha256 ex_staged_mixed
        (by decide) (by decide)
        (Or.inr (Or.inr ⟨[ex_x509_list], ex_sha256_list, [enc_cert ex_cert_Y],
          by decide, by decide, by decide, by decide, by decide, by decide⟩))
        (by decide) (by decide)).2.2.1,
    ((enroll_staged_not_admitted_again ex_env Faults.none ex_store_mixed .ENROLL_MOK
        (Or.inl rfl) (by decide)).2.2 ex_hash_str2 efi_guid_sha256 ex_staged_mixed
        (by decide) (by decide)
        (Or.inr (Or.inr ⟨[ex_x509_list], ex_sha256_list, [enc_cert ex_cert_Y],
          by decide, by decide, by decide, by decide, by decide, by decide⟩))
        (by decide) (by decide)).2.2.2.2.2.2 (by decide)⟩,
   ⟨((enroll_staged_not_admitted_again ex_env Faults.none ex_store_enroll_pending .ENROLL_MOK
        (Or.inl rfl) (by decide)).2.1 [ex_cert_X, ex_cert_Y] [ex_cert_Y]
        ex_store_enroll_pending ex_cert_Y ex_staged_batch [⟨0, 3, 44⟩] (by decide) (by rfl)
        (by decide) (by decide) (by decide) (by decide) (by decide)).2.2.1,
    ((enroll_staged_not_admitted_again ex_env Faults.none ex_store_enroll_pending .ENROLL_MOK
        (Or.inl rfl) (by decide)).2.1 [ex_cert_X, ex_cert_Y] [ex_cert_Y]
        ex_store_enroll_pending ex_cert_Y ex_staged_batch [⟨0, 3, 44⟩] (by decide) (by rfl)
        (by decide) (by decide) (by decide) (by decide) (by decide)).2.2.2.2.2.2 (by decide)⟩⟩

/-- C26 (counterexample). `MokNew` holds one SHA256 list whose entry array is 50
bytes long, so it decodes; the hash `ex_hash_str` is admitted and the enrol
request succeeds, writing the list with the entry appended (`total_size` 126, an
array of 98 bytes). `is_duplicate` does not find the digest in `MokNew`
afterwards, `is_valid_request` admits it again, and a second request stages it
once more (`total_size` 174). -/
theorem issue_hash_request_odd_array_admitted_again :
    build_mok_list ex_odd_hash_list = .done [⟨0, 50, 28⟩] ∧
    is_valid_request Faults.none ex_store_odd_only efi_guid_sha256 ex_digest .ENROLL_MOK =
      some 1 ∧
    observe ["MokNew"]
      (issue_hash_request ex_env Faults.none ex_store_odd_only ex_hash_str .ENROLL_MOK) =
      some (0, [some (merged_list efi_guid_sha256 ex_digest ex_odd_hash_list)]) ∧
    SignatureListSize (merged_list efi_guid_sha256 ex_digest ex_odd_hash_list) 0 = 126 ∧
    ((issue_hash_request ex_env Faults.none ex_store_odd_only ex_hash_str .ENROLL_MOK).bind
      fun r => is_duplicate Faults.none r.2 efi_guid_sha256 ex_digest .efi_guid_shim "MokNew") =
      some 0 ∧
    ((issue_hash_request ex_env Faults.none ex_store_odd_only ex_hash_str .ENROLL_MOK).bind
      fun r => is_valid_request Faults.none r.2 efi_guid_sha256 ex_digest .ENROLL_MOK) =
      some 1 ∧
    ((issue_hash_request ex_env Faults.none ex_store_odd_only ex_hash_str .ENROLL_MOK).bind
      fun r => observe ["MokNew"]
        (issue_hash_request ex_env Faults.none r.2 ex_hash_str .ENROLL_MOK)) =
      some (0, [some (merged_list efi_guid_sha256 ex_digest
        (merged_list efi_guid_sha256 ex_digest ex_odd_hash_list))]) := by
  refine ⟨by decide, by decide, by decide, by decide, by decide, by decide, by decide⟩

end Mokutil
